import Mathlib

/-!
# NachOS: scheduler and memory manager

A shallow embedding of

* `Assignment2_Scheduling/code_part2/threads/scheduler.{h,cc}` (class `Scheduler`), and
* `Assignment3_MemoryManagement/code/userprog/userkernel.{h,cc}` (class `MemoryManager`),

followed by theorems about the embedded code.

Conventions.

* Pointers (`Thread *`, `AddrSpace *`) are natural numbers; `0` is `NULL`.
* C++ `int` is `Int`.  Signed overflow is undefined behaviour in C++, so the
  embedding computes in `ℤ` and speaks about executions without overflow.
* A call that does not return normally yields `Except.error` with the reason.
-/

namespace NachOS

/-- Why a call did not return normally. -/
inductive Fault where
  /-- an `ASSERT(...)` failed: the kernel aborts -/
  | assertion
  /-- the call reads an uninitialised variable or a deleted object -/
  | undefinedBehaviour
  /-- the call spins in `while (...lock) currentThread->Yield()` -/
  | wouldYield
deriving DecidableEq, Repr

/-! ## Single-precision arithmetic used by `Scheduler::Account` -/

/-- The number of low-order bits of `m` that do not fit a 24-bit significand:
the least `e` with `m / 2 ^ e < 2 ^ 24` (`fuel` bounds the search; `m` itself is
always enough). -/
def excessBits : Nat → Nat → Nat
  | 0, _ => 0
  | fuel + 1, m => if m < 2 ^ 24 then 0 else excessBits fuel (m / 2) + 1

/-- Round a natural number to 24 significant bits, ties to even: the
significand rounding of IEEE-754 binary32 (`float`), round-to-nearest. -/
def roundSig24 (m : Nat) : Nat :=
  let e := excessBits m m
  let q := m / 2 ^ e
  let r := m % 2 ^ e
  if 2 * r < 2 ^ e then q * 2 ^ e
  else if 2 ^ e < 2 * r then (q + 1) * 2 ^ e
  else if q % 2 = 0 then q * 2 ^ e else (q + 1) * 2 ^ e

/-- Rounding to `float` of a value given as an integer multiple of a fixed
power of two (rounding to 24 significant bits does not depend on the scale). -/
def roundFloat (x : Int) : Int :=
  if x < 0 then -((roundSig24 x.natAbs : Nat) : Int) else ((roundSig24 x.natAbs : Nat) : Int)

/-- The expression `(int) (RATE * newBurst + (1-RATE) * histBurst)` of
`Scheduler::Account`, with `const float RATE = 0.5` (scheduler.h:37).

Both `int` operands are converted to `float`; `RATE` and `1-RATE` are exactly
`0.5f`, so each product is exact and equals half of the converted operand.  The
values are carried as their doubles: the sum is `(a + b) / 2` rounded to
`float`, and the cast truncates towards zero. -/
def estimateBurst (newBurst histBurst : Int) : Int :=
  Int.tdiv (roundFloat (roundFloat newBurst + roundFloat histBurst)) 2

/-! ## Scheduler data (scheduler.h) -/

/-- Thread identity: a `Thread *`. -/
abbrev Thread := Nat

/-- The `enum SchedulerType` of scheduler.h:30-35. -/
inductive SchedulerType where
  | FCFS
  | RR
  | NSJF
  | SJF
deriving DecidableEq, Repr

/-- Interrupt level returned by `kernel->interrupt->getLevel()`. -/
inductive IntStatus where
  | IntOff
  | IntOn
deriving DecidableEq, Repr

/-- Modelled from the spec: the thread status values (`thread.h` is not part of
the sources; the spec lists the states of a thread in section 3). -/
inductive ThreadStatus where
  | JUST_CREATED
  | RUNNING
  | READY
  | BLOCKED
  | SLEEPING
  | ZOMBIE
deriving DecidableEq, Repr

/-- The `class SleepingThread` of scheduler.h:17-24. -/
structure SleepingThread where
  sleeper : Thread
  sleepTime : Int
deriving DecidableEq, Repr

/-- The `std::map<Thread*, std::pair<int, int> >` of scheduler.h:80: for each
thread that has a record, `(histBurst, newBurst)`. -/
abbrev BurstMap := Thread → Option (Int × Int)

/-- The value read by `(*burstTimeMap)[thread]`: the stored pair, or the
value-initialised pair `(0, 0)` that `operator[]` inserts for an absent key. -/
def BurstMap.read (m : BurstMap) (t : Thread) : Int × Int :=
  (m t).getD (0, 0)

/-- Assignment `(*burstTimeMap)[thread] = p`. -/
def BurstMap.write (m : BurstMap) (t : Thread) (p : Int × Int) : BurstMap :=
  fun u => if u = t then some p else m u

/-- The side effect of evaluating `(*burstTimeMap)[thread]`: an absent key gets
the record `(0, 0)`. -/
def BurstMap.touch (m : BurstMap) (t : Thread) : BurstMap :=
  m.write t (m.read t)

/-- The scheduler (fields of `class Scheduler`, scheduler.h:71-83) together with
the kernel globals its methods read and write: `kernel->currentThread`,
`kernel->interrupt->getLevel()`, `kernel->stats->userTicks` and the status field
of every thread. -/
structure Kernel where
  schedulerType : SchedulerType
  readyList : List Thread
  toBeDestroyed : Option Thread
  sleepingList : List SleepingThread
  burstTimeMap : BurstMap
  startTicks : Int
  currentThread : Thread
  level : IntStatus
  userTicks : Int
  status : Thread → ThreadStatus

/-! ## Lists (lib/list.h) -/

/-- Modelled from the spec: `SortedList<T>::Insert` (`lib/list.h` is not part of
the sources).  The spec keeps such a list "sorted ascending ...; ties broken by
insertion order": the new item goes in front of the first element that compares
strictly greater, hence behind every element that compares equal. -/
def SortedList.Insert {α : Type} (compare : α → α → Int) (item : α) : List α → List α
  | [] => [item]
  | y :: ys =>
    if compare item y < 0 then item :: y :: ys
    else y :: SortedList.Insert compare item ys

/-! ## Scheduler operations (scheduler.cc) -/

/-- The comparison `SleepTimeCompare` of scheduler.cc:26-32. -/
def SleepTimeCompare (x y : SleepingThread) : Int :=
  if x.sleepTime < y.sleepTime then -1
  else if x.sleepTime > y.sleepTime then 1
  else 0

/-- The method `Scheduler::GetRestBurstTime` (scheduler.cc:259-266), on the
burst map: the value returned and the map after the two `operator[]` reads. -/
def GetRestBurstTime (m : BurstMap) (thread : Thread) : Int × BurstMap :=
  let estiBurst := (m.read thread).1
  let accumBurst := (m.read thread).2
  let restBurst := estiBurst - accumBurst
  (if restBurst < 0 then 0 else restBurst, m.touch thread)

/-- The comparison `BurstTimeCompare` of scheduler.cc:34-42: it calls
`GetRestBurstTime` on both threads, so it also returns the burst map. -/
def BurstTimeCompare (m : BurstMap) (x y : Thread) : Int × BurstMap :=
  let (xBurstTime, m1) := GetRestBurstTime m x
  let (yBurstTime, m2) := GetRestBurstTime m1 y
  (if xBurstTime < yBurstTime then -1
   else if xBurstTime > yBurstTime then 1
   else 0, m2)

/-- Modelled from the spec: `SortedList<Thread *>::Insert` with the comparison
`BurstTimeCompare` (the same insertion as `SortedList.Insert`, threading the
burst map through the comparisons). -/
def readyInsert (item : Thread) : List Thread → BurstMap → List Thread × BurstMap
  | [], m => ([item], m)
  | y :: ys, m =>
    let (c, m1) := BurstTimeCompare m item y
    if c < 0 then (item :: y :: ys, m1)
    else
      let (r, m2) := readyInsert item ys m1
      (y :: r, m2)

/-- Modelled from the spec: the ready list built by `Scheduler::Scheduler`
(scheduler.cc:53-54) is a `List` (FIFO, `Append` puts the item at the end) for
`RR` and `FCFS` and a `SortedList` ordered by `BurstTimeCompare` otherwise;
this is `readyList->Append(thread)` for either kind. -/
def readyAppend (type : SchedulerType) (thread : Thread) (l : List Thread) (m : BurstMap) :
    List Thread × BurstMap :=
  if type = SchedulerType.RR ∨ type = SchedulerType.FCFS then (l ++ [thread], m)
  else readyInsert thread l m

/-- The constructor `Scheduler::Scheduler` (scheduler.cc:50-58).  The member
`startTicks` is not initialised by the constructor; its indeterminate value and
the kernel globals are arguments. -/
def Scheduler.new (type : SchedulerType) (startTicks : Int) (currentThread : Thread)
    (level : IntStatus) (userTicks : Int) (status : Thread → ThreadStatus) : Kernel :=
  { schedulerType := type
    readyList := []
    toBeDestroyed := none
    sleepingList := []
    burstTimeMap := fun _ => none
    startTicks := startTicks
    currentThread := currentThread
    level := level
    userTicks := userTicks
    status := status }

/-- The method `Scheduler::ReadyToRun` (scheduler.cc:83-95). -/
def ReadyToRun (k : Kernel) (thread : Thread) : Except Fault Kernel :=
  if k.level ≠ IntStatus.IntOff then Except.error Fault.assertion
  else
    let status := fun u => if u = thread then ThreadStatus.READY else k.status u
    let m := if (k.burstTimeMap thread).isNone then k.burstTimeMap.write thread (0, 0)
             else k.burstTimeMap
    let (l, m1) := readyAppend k.schedulerType thread k.readyList m
    Except.ok { k with status := status, burstTimeMap := m1, readyList := l }

/-- The method `Scheduler::FindNextToRun` (scheduler.cc:105-115): the thread
returned (`none` for `NULL`) and the state after the call. -/
def FindNextToRun (k : Kernel) : Except Fault (Option Thread × Kernel) :=
  if k.level ≠ IntStatus.IntOff then Except.error Fault.assertion
  else
    match k.readyList with
    | [] => Except.ok (none, k)
    | t :: rest => Except.ok (some t, { k with readyList := rest })

/-- The method `Scheduler::AccumNewBurst` (scheduler.cc:268-273). -/
def AccumNewBurst (k : Kernel) : Kernel :=
  let thread := k.currentThread
  let r := k.burstTimeMap.read thread
  { k with
    burstTimeMap := k.burstTimeMap.write thread (r.1, r.2 + (k.userTicks - k.startTicks))
    startTicks := k.userTicks }

/-- The method `Scheduler::Account` (scheduler.cc:275-292). -/
def Account (k : Kernel) : Except Fault Kernel :=
  let sleepyThread := k.currentThread
  let k1 := AccumNewBurst k
  if (k1.burstTimeMap sleepyThread).isNone then Except.error Fault.assertion
  else
    let histBurst := (k1.burstTimeMap.read sleepyThread).1
    let newBurst := (k1.burstTimeMap.read sleepyThread).2
    let estiBurst := estimateBurst newBurst histBurst
    Except.ok { k1 with burstTimeMap := k1.burstTimeMap.write sleepyThread (estiBurst, 0) }

/-- Modelled from the spec: `Thread::Sleep(FALSE)` as called by
`Scheduler::SetToSleep` (`thread.cc` is not part of the sources).  The spec has
`SetToSleep` "set current thread's status to `SLEEPING` and yield the CPU
cooperatively"; the state returned is the one in which the caller is suspended,
the dispatch of the next thread being further scheduler calls. -/
def Thread.Sleep (k : Kernel) : Kernel :=
  { k with
    status := fun u => if u = k.currentThread then ThreadStatus.SLEEPING else k.status u }

/-- The method `Scheduler::SetToSleep` (scheduler.cc:221-233). -/
def SetToSleep (k : Kernel) (sleepTime : Int) : Except Fault Kernel :=
  let sleepyThread := k.currentThread
  if k.level ≠ IntStatus.IntOff then Except.error Fault.assertion
  else
    match Account k with
    | Except.error e => Except.error e
    | Except.ok k1 =>
      let toSleep : SleepingThread := { sleeper := sleepyThread, sleepTime := sleepTime }
      Except.ok (Thread.Sleep
        { k1 with sleepingList := SortedList.Insert SleepTimeCompare toSleep k1.sleepingList })

/-- The second loop of `Scheduler::AlarmTicks` (scheduler.cc:245-250): while
the sleeping list is not empty and its front has `sleepTime <= 0`, remove the
front and hand its sleeper to `ReadyToRun`.  The first argument is the sleeping
list still to be examined (the `sleepingList` of the state); the result also
lists the sleepers handed to `ReadyToRun`, in order. -/
def AlarmTicks.wake : List SleepingThread → Kernel → Except Fault (List Thread × Kernel)
  | [], k => Except.ok ([], { k with sleepingList := [] })
  | x :: rest, k =>
    if x.sleepTime > 0 then Except.ok ([], { k with sleepingList := x :: rest })
    else
      match ReadyToRun { k with sleepingList := rest } x.sleeper with
      | Except.error e => Except.error e
      | Except.ok k1 =>
        match AlarmTicks.wake rest k1 with
        | Except.error e => Except.error e
        | Except.ok (woken, k2) => Except.ok (x.sleeper :: woken, k2)

/-- The method `Scheduler::AlarmTicks` (scheduler.cc:235-251): every entry of
the sleeping list is decremented, then the front entries that are due are
re-admitted.  The result also lists the threads handed to `ReadyToRun`. -/
def AlarmTicks (k : Kernel) : Except Fault (List Thread × Kernel) :=
  if k.level ≠ IntStatus.IntOff then Except.error Fault.assertion
  else
    let k1 := { k with
      sleepingList := k.sleepingList.map (fun x => { x with sleepTime := x.sleepTime - 1 }) }
    AlarmTicks.wake k1.sleepingList k1

/-! ## Sequences of scheduler calls -/

/-- `ReadyToRun` applied to the threads of a list, in order. -/
def readyAll : Kernel → List Thread → Except Fault Kernel
  | k, [] => Except.ok k
  | k, t :: ts =>
    match ReadyToRun k t with
    | Except.error e => Except.error e
    | Except.ok k1 => readyAll k1 ts

/-- The results of `n` successive calls of `FindNextToRun`. -/
def dispatch : Nat → Kernel → Except Fault (List (Option Thread) × Kernel)
  | 0, k => Except.ok ([], k)
  | n + 1, k =>
    match FindNextToRun k with
    | Except.error e => Except.error e
    | Except.ok (r, k1) =>
      match dispatch n k1 with
      | Except.error e => Except.error e
      | Except.ok (rs, k2) => Except.ok (r :: rs, k2)

/-- One scheduler call made by the rest of the kernel. -/
inductive SchedCall where
  /-- the timer interrupt handler calls `AlarmTicks()` -/
  | alarm
  /-- thread `thread` is running, the clock shows `userTicks`, and the thread
  calls `SetToSleep(sleepTime)` -/
  | sleep (thread : Thread) (sleepTime : Int) (userTicks : Int)
  /-- some code calls `ReadyToRun(thread)` -/
  | ready (thread : Thread)
  /-- some code calls `FindNextToRun()` -/
  | findNext
deriving DecidableEq, Repr

/-- Whether the call is an `AlarmTicks()`. -/
def SchedCall.isAlarm : SchedCall → Bool
  | SchedCall.alarm => true
  | _ => false

/-- Whether the call is a `SetToSleep` made by thread `t`. -/
def SchedCall.sleeps (t : Thread) : SchedCall → Bool
  | SchedCall.sleep u _ _ => decide (u = t)
  | _ => false

/-- Run a sequence of scheduler calls; the result lists, for each `AlarmTicks()`
call of the sequence in order, the threads that call re-admitted. -/
def runCalls : Kernel → List SchedCall → Except Fault (List (List Thread) × Kernel)
  | k, [] => Except.ok ([], k)
  | k, SchedCall.alarm :: cs =>
    match AlarmTicks k with
    | Except.error e => Except.error e
    | Except.ok (woken, k1) =>
      match runCalls k1 cs with
      | Except.error e => Except.error e
      | Except.ok (log, k2) => Except.ok (woken :: log, k2)
  | k, SchedCall.sleep t x now :: cs =>
    match SetToSleep { k with currentThread := t, userTicks := now } x with
    | Except.error e => Except.error e
    | Except.ok k1 => runCalls k1 cs
  | k, SchedCall.ready t :: cs =>
    match ReadyToRun k t with
    | Except.error e => Except.error e
    | Except.ok k1 => runCalls k1 cs
  | k, SchedCall.findNext :: cs =>
    match FindNextToRun k with
    | Except.error e => Except.error e
    | Except.ok (_, k1) => runCalls k1 cs

/-! ## Auxiliary definitions for the statements -/

/-- The remaining estimated burst of a thread: the value `GetRestBurstTime` returns. -/
def restBurst (m : BurstMap) (t : Thread) : Int := (GetRestBurstTime m t).1

/-- The sign returned by a three-way comparison of two keys (the shape shared by
`SleepTimeCompare` and `BurstTimeCompare`). -/
def compareKeys (a b : Int) : Int :=
  if a < b then -1 else if a > b then 1 else 0

/-! ## Auxiliary definitions for the sleeping-list statements -/

/-- The number of `AlarmTicks()` calls in a sequence of scheduler calls. -/
def alarmCount (cs : List SchedCall) : Nat := (cs.filter SchedCall.isAlarm).length

/-- Thread `t` is asleep with exactly `r` ticks to go: interrupts are off, the
sleeping list is sorted, `t` has an entry and each entry of `t` has
`sleepTime = r`. -/
def SleepsFor (k : Kernel) (t : Thread) (r : Int) : Prop :=
  k.level = IntStatus.IntOff ∧
  k.sleepingList.Pairwise (fun x y => x.sleepTime ≤ y.sleepTime) ∧
  (∀ x ∈ k.sleepingList, x.sleeper = t → x.sleepTime = r) ∧
  ∃ x ∈ k.sleepingList, x.sleeper = t

/-- Thread `t` has no entry in the (sorted) sleeping list, interrupts being off. -/
def NotAsleep (k : Kernel) (t : Thread) : Prop :=
  k.level = IntStatus.IntOff ∧
  k.sleepingList.Pairwise (fun x y => x.sleepTime ≤ y.sleepTime) ∧
  ∀ x ∈ k.sleepingList, x.sleeper ≠ t

/-! ## Memory manager data (userkernel.h) -/

/-- Address-space identity: an `AddrSpace *`. -/
abbrev AddrSpace := Nat

/-- The `class FrameInfoEntry` of userkernel.h:22-29.  As the constructor and
`AcquirePage` use it, `valid = true` means that the slot is free. -/
structure FrameInfoEntry where
  valid : Bool
  lock : Bool
  addrSpace : AddrSpace
  vpn : Nat
deriving DecidableEq, Repr

/-- The machine constants the memory manager uses (`machine.h` and `disk.h` are
not part of the sources): the number of physical frames, the number of disk
sectors, and the size in bytes of a page, which is also the size of a sector. -/
structure Machine where
  NumPhysPages : Nat
  NumSectors : Nat
  PageSize : Nat
deriving DecidableEq, Repr

/-- A call made to the address-space collaborator (`addrspace.h` is not part of
the sources; the memory manager only calls these two methods). -/
inductive PageTableCall where
  /-- the call `space->SetInvalid(vpn)` -/
  | SetInvalid (space : AddrSpace) (vpn : Nat)
  /-- the call `space->UpdatePhysPage(vpn, frame)` -/
  | UpdatePhysPage (space : AddrSpace) (vpn : Nat) (frame : Nat)
deriving DecidableEq, Repr

/-- The memory manager (fields of `class MemoryManager`, userkernel.h:49-51)
together with what its methods reach through `kernel`: the bytes of
`kernel->machine->mainMemory`, the sectors of `kernel->swapDisk`, the address
space of the current thread, and the calls made so far to address spaces. -/
structure Memory where
  LRUstack : List Nat
  frameTable : Nat → FrameInfoEntry
  swapTable : Nat → FrameInfoEntry
  mainMemory : Nat → Nat
  swapDisk : Nat → Nat → Nat
  currentSpace : AddrSpace
  pageTableCalls : List PageTableCall

/-- Assignment to one entry of a table: `table[i] = e`. -/
def setEntry (table : Nat → FrameInfoEntry) (i : Nat) (e : FrameInfoEntry) :
    Nat → FrameInfoEntry :=
  fun j => if j = i then e else table j

/-- The first index `i` with `start ≤ i < start + count` and `p i`, if any: the
index at which a loop `for (i = start; i < start + count; i++) if (p(i)) ...`
that leaves at its first hit does so. -/
def scanFirst (p : Nat → Bool) : Nat → Nat → Option Nat
  | 0, _ => none
  | count + 1, start => if p start then some start else scanFirst p count (start + 1)

/-- The value of `found` after the loop
`for (i = start; i < start + count; i++) if (p(i)) found = i;`. -/
def scanLast (p : Nat → Bool) : Nat → Nat → Nat → Nat
  | 0, _, found => found
  | count + 1, start, found => scanLast p count (start + 1) (if p start then start else found)

/-- Modelled from the spec: `List<unsigned int>::Remove` (`lib/list.h` is not
part of the sources).  The spec removes the page from `lruStack` "anywhere it
appears"; the other elements keep their order. -/
def List.Remove (item : Nat) (l : List Nat) : List Nat :=
  l.filter (fun x => x != item)

/-- Modelled from the spec: `SynchDisk::WriteSector(sector, data, loadTime)`
(`synchdisk.h` is not part of the sources): the `PageSize` bytes of main memory
that start at address `data` are copied to the sector; the call returns when
the transfer is complete. -/
def WriteSector (c : Machine) (s : Memory) (sector : Nat) (data : Nat) : Memory :=
  { s with
    swapDisk := fun j o =>
      if j = sector ∧ o < c.PageSize then s.mainMemory (data + o) else s.swapDisk j o }

/-- Modelled from the spec: `SynchDisk::ReadSector(sector, data, loadTime)`: the
`PageSize` bytes of the sector are copied to main memory from address `data`
on; the call returns when the transfer is complete. -/
def ReadSector (c : Machine) (s : Memory) (sector : Nat) (data : Nat) : Memory :=
  { s with
    mainMemory := fun a =>
      if data ≤ a ∧ a < data + c.PageSize then s.swapDisk sector (a - data)
      else s.mainMemory a }

/-! ## Memory manager operations (userkernel.cc) -/

/-- The constructor `MemoryManager::MemoryManager` (userkernel.cc:14-31); the
contents of memory and disk and the current address space are arguments. -/
def MemoryManager.new (mainMemory : Nat → Nat) (swapDisk : Nat → Nat → Nat)
    (currentSpace : AddrSpace) : Memory :=
  { LRUstack := []
    frameTable := fun _ => { valid := true, lock := false, addrSpace := 0, vpn := 0 }
    swapTable := fun _ => { valid := true, lock := false, addrSpace := 0, vpn := 0 }
    mainMemory := mainMemory
    swapDisk := swapDisk
    currentSpace := currentSpace
    pageTableCalls := [] }

/-- The statements of `MemoryManager::KickVictim` that follow its loop
(userkernel.cc:157-187), for a given value of `victimPage`; the first argument
is the state after the loop. -/
def KickVictim.evict (c : Machine) (s1 : Memory) (victimPage : Nat) :
    Except Fault (Nat × Memory) :=
  if (s1.frameTable victimPage).lock then Except.error Fault.assertion
  else if (s1.frameTable victimPage).valid then Except.error Fault.assertion
  else
    let victimSpace := (s1.frameTable victimPage).addrSpace
    let victimVPN := (s1.frameTable victimPage).vpn
    let victimData := victimPage * c.PageSize
    let s2 := { s1 with
      pageTableCalls := s1.pageTableCalls ++ [PageTableCall.SetInvalid victimSpace victimVPN] }
    match scanFirst (fun i => (s2.swapTable i).valid && !(s2.swapTable i).lock)
        c.NumSectors 0 with
    | none => Except.error Fault.assertion
    | some i =>
      let s3 := { s2 with
        swapTable := setEntry s2.swapTable i
          { (s2.swapTable i) with valid := false, addrSpace := victimSpace, vpn := victimVPN } }
      if (s3.frameTable victimPage).lock then Except.error Fault.assertion
      else if (s3.swapTable i).lock then Except.error Fault.assertion
      else
        let s4 := { s3 with
          frameTable := setEntry s3.frameTable victimPage
            { (s3.frameTable victimPage) with lock := true }
          swapTable := setEntry s3.swapTable i { (s3.swapTable i) with lock := true } }
        let s5 := WriteSector c s4 i victimData
        let s6 := { s5 with
          frameTable := setEntry s5.frameTable victimPage
            { (s5.frameTable victimPage) with lock := false }
          swapTable := setEntry s5.swapTable i { (s5.swapTable i) with lock := false } }
        Except.ok (victimPage, s6)

/-- The expression `iter.Item()` of userkernel.cc:154, evaluated after
`LRUstack->Remove(iter.Item())` (userkernel.cc:153) has taken the node the
iterator points to out of the list and deleted it (`lib/list.h` is not part of
the sources): the read goes through a pointer to a deleted node, so its value
is not defined. -/
def ListIterator.ItemOfRemoved : Except Fault Nat :=
  Except.error Fault.undefinedBehaviour

/-- The method `MemoryManager::KickVictim` (userkernel.cc:146-188).  At the
first unlocked frame of `LRUstack` the loop calls `LRUstack->Remove(iter.Item())`
and only then assigns `victimPage = iter.Item()`, a read through the iterator
of the node just removed.  When no frame of `LRUstack` is unlocked the C++ code
reads the uninitialised `victimPage`. -/
def KickVictim (c : Machine) (s : Memory) : Except Fault (Nat × Memory) :=
  match s.LRUstack.find? (fun page => !(s.frameTable page).lock) with
  | none => Except.error Fault.undefinedBehaviour
  | some page =>
    let s1 := { s with LRUstack := List.Remove page s.LRUstack }
    match ListIterator.ItemOfRemoved with
    | Except.error e => Except.error e
    | Except.ok victimPage => KickVictim.evict c s1 victimPage

/-- The method `MemoryManager::AcquirePage` (userkernel.cc:56-81). -/
def AcquirePage (c : Machine) (s : Memory) (space : AddrSpace) (vpn : Nat) :
    Except Fault (Nat × Memory) :=
  match scanFirst (fun i => (s.frameTable i).valid && !(s.frameTable i).lock)
      c.NumPhysPages 0 with
  | some i =>
    Except.ok (i, { s with
      frameTable := setEntry s.frameTable i
        { (s.frameTable i) with valid := false, addrSpace := space, vpn := vpn }
      LRUstack := s.LRUstack ++ [i] })
  | none =>
    match KickVictim c s with
    | Except.error e => Except.error e
    | Except.ok (newPage, s1) =>
      if (s1.frameTable newPage).valid then Except.error Fault.assertion
      else
        Except.ok (newPage, { s1 with
          frameTable := setEntry s1.frameTable newPage
            { (s1.frameTable newPage) with addrSpace := space, vpn := vpn }
          LRUstack := s1.LRUstack ++ [newPage] })

/-- The first loop of `MemoryManager::ReleasePage` (userkernel.cc:86-90), for
the frames `start, ..., start + count - 1`. -/
def ReleasePage.frames (space : AddrSpace) (vpn : Nat) : Nat → Nat → Memory → Memory
  | 0, _, s => s
  | count + 1, i, s =>
    if (s.frameTable i).addrSpace = space ∧ (s.frameTable i).vpn = vpn then
      ReleasePage.frames space vpn count (i + 1)
        { s with
          frameTable := setEntry s.frameTable i { (s.frameTable i) with valid := true }
          LRUstack := List.Remove i s.LRUstack }
    else ReleasePage.frames space vpn count (i + 1) s

/-- The second loop of `MemoryManager::ReleasePage` (userkernel.cc:91-94), for
the sectors `start, ..., start + count - 1`. -/
def ReleasePage.sectors (space : AddrSpace) (vpn : Nat) : Nat → Nat → Memory → Memory
  | 0, _, s => s
  | count + 1, i, s =>
    if (s.swapTable i).addrSpace = space ∧ (s.swapTable i).vpn = vpn then
      ReleasePage.sectors space vpn count (i + 1)
        { s with swapTable := setEntry s.swapTable i { (s.swapTable i) with valid := true } }
    else ReleasePage.sectors space vpn count (i + 1) s

/-- The method `MemoryManager::ReleasePage` (userkernel.cc:83-95). -/
def ReleasePage (c : Machine) (s : Memory) (space : AddrSpace) (vpn : Nat) : Memory :=
  ReleasePage.sectors space vpn c.NumSectors 0
    (ReleasePage.frames space vpn c.NumPhysPages 0 s)

/-- The method `MemoryManager::PageFaultHandler` (userkernel.cc:97-130).  When
the swap entry found is locked the C++ code yields until another thread clears
the lock. -/
def PageFaultHandler (c : Machine) (s : Memory) (vpn : Nat) : Except Fault (Nat × Memory) :=
  let space := s.currentSpace
  match scanFirst (fun i => !(s.swapTable i).valid &&
      decide ((s.swapTable i).addrSpace = space) && decide ((s.swapTable i).vpn = vpn))
      c.NumSectors 0 with
  | none => Except.error Fault.assertion
  | some swapBackPage =>
    if (s.swapTable swapBackPage).lock then Except.error Fault.wouldYield
    else
      match AcquirePage c s space vpn with
      | Except.error e => Except.error e
      | Except.ok (newPage, s1) =>
        let newPos := newPage * c.PageSize
        if (s1.frameTable newPage).lock then Except.error Fault.assertion
        else if (s1.swapTable swapBackPage).lock then Except.error Fault.assertion
        else
          let s2 := { s1 with
            frameTable := setEntry s1.frameTable newPage
              { (s1.frameTable newPage) with lock := true }
            swapTable := setEntry s1.swapTable swapBackPage
              { (s1.swapTable swapBackPage) with lock := true } }
          let s3 := ReadSector c s2 swapBackPage newPos
          let s4 := { s3 with
            frameTable := setEntry s3.frameTable newPage
              { (s3.frameTable newPage) with lock := false }
            swapTable := setEntry s3.swapTable swapBackPage
              { (s3.swapTable swapBackPage) with lock := false } }
          let s5 := { s4 with
            pageTableCalls := s4.pageTableCalls ++ [PageTableCall.UpdatePhysPage space vpn newPage] }
          let s6 := { s5 with
            swapTable := setEntry s5.swapTable swapBackPage
              { (s5.swapTable swapBackPage) with valid := true } }
          Except.ok (newPage, s6)

/-- The method `MemoryManager::UpdateLRUStack` (userkernel.cc:132-137). -/
def UpdateLRUStack (s : Memory) (recentlyUsedPage : Nat) : Memory :=
  { s with LRUstack := List.Remove recentlyUsedPage s.LRUstack ++ [recentlyUsedPage] }

/-- The value of a 32-bit `unsigned int` converted to `int`. -/
def toInt32 (u : Nat) : Int :=
  if u % 2 ^ 32 < 2 ^ 31 then ((u % 2 ^ 32 : Nat) : Int) else ((u % 2 ^ 32 : Nat) : Int) - 2 ^ 32

/-- The method `MemoryManager::TransAddr` (userkernel.cc:41-54).  The result
tells the physical address returned, whether `PageFaultHandler` was called, and
the state after the call. -/
def TransAddr (c : Machine) (s : Memory) (space : AddrSpace) (virtAddr : Int) :
    Except Fault (Int × Bool × Memory) :=
  let vpn := (virtAddr % 2 ^ 32).toNat / c.PageSize
  let offset := (virtAddr % 2 ^ 32).toNat % c.PageSize
  let pageFrame := scanLast
    (fun i => decide ((s.frameTable i).addrSpace = space) && decide ((s.frameTable i).vpn = vpn))
    c.NumPhysPages 0 c.NumPhysPages
  if pageFrame = c.NumPhysPages then
    match PageFaultHandler c s vpn with
    | Except.error e => Except.error e
    | Except.ok (frame, s1) => Except.ok (toInt32 (frame * c.PageSize + offset), true, s1)
  else Except.ok (toInt32 (pageFrame * c.PageSize + offset), false, s)

/-- The method `MemoryManager::CheckLock` (userkernel.cc:139-144).  While the
frame is locked the C++ code yields until another thread clears the lock. -/
def CheckLock (s : Memory) (page : Nat) : Except Fault Memory :=
  if (s.frameTable page).lock then Except.error Fault.wouldYield
  else if (s.frameTable page).lock then Except.error Fault.assertion
  else Except.ok s

/-! ## Sequences of memory-manager calls -/

/-- One call made to the memory manager by the rest of the kernel. -/
inductive MemCall where
  /-- the call `AcquirePage(space, vpn)` -/
  | acquire (space : AddrSpace) (vpn : Nat)
  /-- the current thread runs in `space` and `PageFaultHandler(vpn)` is called -/
  | fault (space : AddrSpace) (vpn : Nat)
  /-- the call `UpdateLRUStack(page)` -/
  | touch (page : Nat)
  /-- the call `ReleasePage(space, vpn)` -/
  | release (space : AddrSpace) (vpn : Nat)
  /-- the current thread runs in `current` and `TransAddr(space, virtAddr)` is
  called -/
  | translate (current : AddrSpace) (space : AddrSpace) (virtAddr : Int)
  /-- the call `CheckLock(page)` -/
  | check (page : Nat)
deriving DecidableEq, Repr

/-- Run a sequence of memory-manager calls. -/
def runMem (c : Machine) : Memory → List MemCall → Except Fault Memory
  | s, [] => Except.ok s
  | s, MemCall.acquire sp v :: cs =>
    match AcquirePage c s sp v with
    | Except.error e => Except.error e
    | Except.ok (_, s1) => runMem c s1 cs
  | s, MemCall.fault sp v :: cs =>
    match PageFaultHandler c { s with currentSpace := sp } v with
    | Except.error e => Except.error e
    | Except.ok (_, s1) => runMem c s1 cs
  | s, MemCall.touch page :: cs => runMem c (UpdateLRUStack s page) cs
  | s, MemCall.release sp v :: cs => runMem c (ReleasePage c s sp v) cs
  | s, MemCall.translate current sp virtAddr :: cs =>
    match TransAddr c { s with currentSpace := current } sp virtAddr with
    | Except.error e => Except.error e
    | Except.ok (_, _, s1) => runMem c s1 cs
  | s, MemCall.check page :: cs =>
    match CheckLock s page with
    | Except.error e => Except.error e
    | Except.ok s1 => runMem c s1 cs

/-! ## Auxiliary definitions for the memory-manager statements -/

/-- No frame and no sector is locked. -/
def NoLock (c : Machine) (s : Memory) : Prop :=
  (∀ j, j < c.NumPhysPages → (s.frameTable j).lock = false) ∧
  (∀ j, j < c.NumSectors → (s.swapTable j).lock = false)

/-- The lruStack invariant of the spec, as far as membership goes: the members
of `LRUstack` are exactly the frames in use. -/
def LruMembers (c : Machine) (s : Memory) : Prop :=
  ∀ p, p ∈ s.LRUstack ↔ (p < c.NumPhysPages ∧ (s.frameTable p).valid = false)

/-- The state in which `PageFaultHandler` leaves `s1` (the state after its
`AcquirePage` call, which returned frame `g`) after reading sector `sb` into
frame `g` and freeing the sector. -/
def faulted (c : Machine) (s1 : Memory) (g sb : Nat) (space : AddrSpace) (vpn : Nat) : Memory :=
  { s1 with
    swapTable := setEntry s1.swapTable sb
      { valid := true, lock := false, addrSpace := (s1.swapTable sb).addrSpace,
        vpn := (s1.swapTable sb).vpn }
    mainMemory := fun a =>
      if g * c.PageSize ≤ a ∧ a < g * c.PageSize + c.PageSize
      then s1.swapDisk sb (a - g * c.PageSize) else s1.mainMemory a
    pageTableCalls := s1.pageTableCalls ++ [PageTableCall.UpdatePhysPage space vpn g] }

/-- The state in which `AcquirePage` leaves `s1` after giving frame `g` to
`(space, vpn)`. -/
def claimed (s1 : Memory) (g : Nat) (space : AddrSpace) (vpn : Nat) : Memory :=
  { s1 with
    frameTable := setEntry s1.frameTable g
      { valid := false, lock := false, addrSpace := space, vpn := vpn }
    LRUstack := s1.LRUstack ++ [g] }

/-! ## Concrete states used by the examples -/

/-- A kernel in which thread 1 is the current thread with burst record
`(hist, new)`, the slice having started at `start` and the clock showing `now`. -/
def burstKernel (hist new start now : Int) : Kernel :=
  { Scheduler.new SchedulerType.NSJF start 1 IntStatus.IntOff now
      (fun _ => ThreadStatus.RUNNING) with
    burstTimeMap := BurstMap.write (fun _ => none) 1 (hist, new) }

/-- The burst record of thread `t` after `Account`, when the call returns. -/
def recordAfterAccount (k : Kernel) (t : Thread) : Option (Option (Int × Int)) :=
  (Account k).toOption.map (fun k1 => k1.burstTimeMap t)

/-- A kernel with an empty scheduler of the given policy in which `thread` is
running with interrupts off, and in which threads 1, 2 and 3 have the burst
records `(10, 0)`, `(5, 0)` and `(5, 0)`. -/
def scenarioKernel (type : SchedulerType) (thread : Thread) : Kernel :=
  { Scheduler.new type 0 thread IntStatus.IntOff 0 (fun _ => ThreadStatus.JUST_CREATED) with
    burstTimeMap :=
      ((BurstMap.write (fun _ => none) 1 (10, 0)).write 2 (5, 0)).write 3 (5, 0) }

/-- The threads returned by `n` calls of `FindNextToRun` after `ReadyToRun` has
been applied to the threads `ts` in order. -/
def dispatchOrder (k : Kernel) (ts : List Thread) (n : Nat) : Option (List (Option Thread)) :=
  match readyAll k ts with
  | Except.error _ => none
  | Except.ok k1 =>
    match dispatch n k1 with
    | Except.error _ => none
    | Except.ok (out, _) => some out

/-- What can be observed after the current thread calls `SetToSleep(sleepTime)`
and the calls `cs` follow: the threads re-admitted by each `AlarmTicks()`, the
sleeping list and the ready list. -/
def sleepThenRun (k : Kernel) (sleepTime : Int) (cs : List SchedCall) :
    Option (List (List Thread) × List SleepingThread × List Thread) :=
  match SetToSleep k sleepTime with
  | Except.error _ => none
  | Except.ok k1 =>
    match runCalls k1 cs with
    | Except.error _ => none
    | Except.ok (log, k2) => some (log, k2.sleepingList, k2.readyList)

/-- The calls of scenario 3 of the spec after the first `SetToSleep(5)`: thread 2
calls `SetToSleep(3)`, then five timer ticks. -/
def sleepScenarioCalls : List SchedCall :=
  [SchedCall.sleep 2 3 0, SchedCall.alarm, SchedCall.alarm, SchedCall.alarm,
   SchedCall.alarm, SchedCall.alarm]

/-! ## Concrete memory states used by the examples -/

/-- A machine with two frames, two sectors and pages of four bytes. -/
def smallMachine : Machine := { NumPhysPages := 2, NumSectors := 2, PageSize := 4 }

/-- A table (frame table or swap table) given by the list of its first entries;
the entries beyond the list are free, as the constructor leaves them. -/
def tableOf (entries : List FrameInfoEntry) : Nat → FrameInfoEntry :=
  fun i => entries.getD i { valid := true, lock := false, addrSpace := 0, vpn := 0 }

/-- A memory state given by its LRU stack, its frame table and its swap table;
the byte at address `a` is `a + 100`, byte `o` of sector `j` is `10 * j + o`, and
the current thread runs in address space 1. -/
def memoryOf (lru : List Nat) (frames swaps : List FrameInfoEntry) : Memory :=
  { MemoryManager.new (fun a => a + 100) (fun j o => 10 * j + o) 1 with
    LRUstack := lru
    frameTable := tableOf frames
    swapTable := tableOf swaps }

/-- What `KickVictim` returns and the LRU stack it leaves, or the fault. -/
def kickVictimResult (c : Machine) (s : Memory) : Except Fault (Nat × List Nat) :=
  match KickVictim c s with
  | Except.error e => Except.error e
  | Except.ok (v, s1) => Except.ok (v, s1.LRUstack)

/-- Scenario 6 of the spec: both frames in use, `lruStack = [frame0, frame1]`,
frame 0 locked; both sectors free. -/
def lockedFrameMemory : Memory :=
  memoryOf [0, 1]
    [{ valid := false, lock := true, addrSpace := 1, vpn := 0 },
     { valid := false, lock := false, addrSpace := 1, vpn := 1 }] []

/-- Frame 0 in use and unlocked, alone in the LRU stack; sector 0 holds a page
and sector 1 is free but locked. -/
def lockedSectorMemory : Memory :=
  memoryOf [0]
    [{ valid := false, lock := false, addrSpace := 1, vpn := 0 }]
    [{ valid := false, lock := false, addrSpace := 1, vpn := 7 },
     { valid := true, lock := true, addrSpace := 0, vpn := 0 }]

/-- The first `PageSize` bytes of frame `f`. -/
def frameBytes (c : Machine) (s : Memory) (f : Nat) : List Nat :=
  (List.range c.PageSize).map (fun o => s.mainMemory (f * c.PageSize + o))

/-- The experiment of the round-trip law: `AcquirePage(space2, vpn2)` is called
in state `s`, then the calls `cs` are made, then the current thread, running in
`space`, faults on `vpn`.  The result lists the frame returned by `AcquirePage`,
the frame returned by `PageFaultHandler` and the bytes of that frame. -/
def roundTrip (c : Machine) (s : Memory) (space2 : AddrSpace) (vpn2 : Nat) (cs : List MemCall)
    (space : AddrSpace) (vpn : Nat) : Except Fault (Nat × Nat × List Nat) :=
  match AcquirePage c s space2 vpn2 with
  | Except.error e => Except.error e
  | Except.ok (f, s1) =>
    match runMem c s1 cs with
    | Except.error e => Except.error e
    | Except.ok s2 =>
      match PageFaultHandler c { s2 with currentSpace := space } vpn with
      | Except.error e => Except.error e
      | Except.ok (g, s3) => Except.ok (f, g, frameBytes c s3 g)

/-- Scenario 5 of the spec before the eviction: two frames, `vpn 0` of address
space 1 in frame 0 and `vpn 1` in frame 1, both sectors free. -/
def pagedMemory : Memory :=
  memoryOf [0, 1]
    [{ valid := false, lock := false, addrSpace := 1, vpn := 0 },
     { valid := false, lock := false, addrSpace := 1, vpn := 1 }] []

/-- Both frames in use for `vpn 1` and `vpn 2` of address space 1, `vpn 0` in
sector 0, sector 1 free. -/
def swappedMemory : Memory :=
  memoryOf [0, 1]
    [{ valid := false, lock := false, addrSpace := 1, vpn := 1 },
     { valid := false, lock := false, addrSpace := 1, vpn := 2 }]
    [{ valid := false, lock := false, addrSpace := 1, vpn := 0 }]

/-- Both frames free, and both sectors in use for the same page `(1, 0)`. -/
def twoCopiesMemory : Memory :=
  memoryOf [] []
    [{ valid := false, lock := false, addrSpace := 1, vpn := 0 },
     { valid := false, lock := false, addrSpace := 1, vpn := 0 }]

/-- The state reached from the constructor by `AcquirePage(1, 0)` followed by
`ReleasePage(1, 0)`. -/
def releasedMemory : Memory :=
  match AcquirePage smallMachine (MemoryManager.new (fun a => a + 100) (fun j o => 10 * j + o) 1)
      1 0 with
  | Except.ok (_, s) => ReleasePage smallMachine s 1 0
  | Except.error _ => MemoryManager.new (fun a => a + 100) (fun j o => 10 * j + o) 1

/-- What `TransAddr` returns: the address and whether it called
`PageFaultHandler`, or the fault. -/
def transAddrResult (c : Machine) (s : Memory) (space : AddrSpace) (virtAddr : Int) :
    Except Fault (Int × Bool) :=
  match TransAddr c s space virtAddr with
  | Except.error e => Except.error e
  | Except.ok (a, called, _) => Except.ok (a, called)

/-- What `PageFaultHandler` returns, whether `sector` is free afterwards, and
the bytes of the frame returned; or the fault. -/
def faultResult (c : Machine) (s : Memory) (vpn sector : Nat) :
    Except Fault (Nat × Bool × List Nat) :=
  match PageFaultHandler c s vpn with
  | Except.error e => Except.error e
  | Except.ok (f, s1) => Except.ok (f, (s1.swapTable sector).valid, frameBytes c s1 f)

/-- The bytes of a sector. -/
def sectorBytes (c : Machine) (s : Memory) (sector : Nat) : List Nat :=
  (List.range c.PageSize).map (fun o => s.swapDisk sector o)

/-- What `AcquirePage` returns, the frame entry it leaves there and the LRU
stack; or the fault. -/
def acquireResult (c : Machine) (s : Memory) (space : AddrSpace) (vpn : Nat) :
    Except Fault (Nat × FrameInfoEntry × List Nat) :=
  match AcquirePage c s space vpn with
  | Except.error e => Except.error e
  | Except.ok (f, s1) => Except.ok (f, s1.frameTable f, s1.LRUstack)

/-- Frame 0 in use for `vpn 1` of address space 1, frame 1 free, `vpn 0` in
sector 0, sector 1 free. -/
def halfMemory : Memory :=
  memoryOf [0]
    [{ valid := false, lock := false, addrSpace := 1, vpn := 1 }]
    [{ valid := false, lock := false, addrSpace := 1, vpn := 0 }]

/-- Frame 0 in use for `vpn 1` of address space 1 and locked, frame 1 free,
`vpn 0` of address space 1 in sector 0, and sector 1 in use for `vpn 3` of
address space 2 and locked. -/
def busyMemory : Memory :=
  memoryOf [0]
    [{ valid := false, lock := true, addrSpace := 1, vpn := 1 }]
    [{ valid := false, lock := false, addrSpace := 1, vpn := 0 },
     { valid := false, lock := true, addrSpace := 2, vpn := 3 }]

/-- What the statements of `KickVictim` after its loop return for the value
`victimPage`, with the frame table and the swap table they leave; or the
fault. -/
def evictResult (c : Machine) (s : Memory) (victimPage : Nat) :
    Except Fault (Nat × List FrameInfoEntry × List FrameInfoEntry) :=
  match KickVictim.evict c s victimPage with
  | Except.error e => Except.error e
  | Except.ok (v, s1) =>
    Except.ok (v, (List.range c.NumPhysPages).map s1.frameTable,
      (List.range c.NumSectors).map s1.swapTable)

/-! ## Further scheduler operations (scheduler.cc) -/

/-- The method `Scheduler::CheckToBeDestroyed` (scheduler.cc:199-206): the
thread deleted, if there is one, and the state after the call. -/
def CheckToBeDestroyed (k : Kernel) : Option Thread × Kernel :=
  match k.toBeDestroyed with
  | some t => (some t, { k with toBeDestroyed := none })
  | none => (none, k)

/-- The method `Scheduler::Run` (scheduler.cc:134-170) up to the call of
`SWITCH`: the state in which `nextThread` starts or resumes.

Modelled from the spec: `Thread::CheckOverflow` (`thread.cc` is not part of the
sources) checks the kernel stack of the old thread, and a stack overflow
detected here is fatal; the outcome of the check is the argument
`stackOverflow`.  The hooks under `#ifdef USER_PROGRAM` save user registers and
address-space state, which are not part of the scheduler state. -/
def Run (k : Kernel) (nextThread : Thread) (finishing : Bool) (stackOverflow : Bool) :
    Except Fault Kernel :=
  let oldThread := k.currentThread
  if k.level ≠ IntStatus.IntOff then Except.error Fault.assertion
  else
    let marked : Except Fault Kernel :=
      if finishing then
        if k.toBeDestroyed ≠ none then Except.error Fault.assertion
        else Account { k with toBeDestroyed := some oldThread }
      else Except.ok k
    match marked with
    | Except.error e => Except.error e
    | Except.ok k1 =>
      if stackOverflow then Except.error Fault.assertion
      else
        Except.ok { k1 with
          currentThread := nextThread
          status := fun u => if u = nextThread then ThreadStatus.RUNNING else k1.status u }

/-- The rest of `Scheduler::Run` (scheduler.cc:172-188), executed when the old
thread is dispatched again and `SWITCH` returns: the thread deleted by
`CheckToBeDestroyed`, if any, and the state. -/
def Run.resumed (k : Kernel) : Except Fault (Option Thread × Kernel) :=
  if k.level ≠ IntStatus.IntOff then Except.error Fault.assertion
  else Except.ok (CheckToBeDestroyed k)

/-! ## Invariants of the spec -/

/-- The lruStack invariant of the spec: `LRUstack` has no duplicate entries and
its members are exactly the frame indices `i` with `frameTable[i].valid = false`. -/
def LruInv (c : Machine) (s : Memory) : Prop :=
  s.LRUstack.Nodup ∧ LruMembers c s

/-- The entry is in use for the page `(space, vpn)`. -/
def FrameInfoEntry.holds (e : FrameInfoEntry) (space : AddrSpace) (vpn : Nat) : Prop :=
  e.valid = false ∧ e.addrSpace = space ∧ e.vpn = vpn

/-- Single-tier residency: no page is held both by an in-use frame and by an
in-use swap entry. -/
def SingleTier (c : Machine) (s : Memory) : Prop :=
  ∀ i j, i < c.NumPhysPages → j < c.NumSectors →
    ¬ ((s.frameTable i).valid = false ∧ (s.swapTable j).valid = false ∧
      (s.frameTable i).addrSpace = (s.swapTable j).addrSpace ∧
      (s.frameTable i).vpn = (s.swapTable j).vpn)

/-- A free slot is never locked: every frame entry and every swap entry
satisfies `lock ⇒ ¬valid`. -/
def FreeNotLocked (c : Machine) (s : Memory) : Prop :=
  (∀ i, i < c.NumPhysPages → (s.frameTable i).lock = true → (s.frameTable i).valid = false) ∧
  (∀ j, j < c.NumSectors → (s.swapTable j).lock = true → (s.swapTable j).valid = false)

/-- The state in which `ReleasePage(space, vpn)` leaves `s`: every frame and
every sector on which the page is recorded is marked free, and these frames are
taken out of the LRU stack. -/
def released (c : Machine) (s : Memory) (space : AddrSpace) (vpn : Nat) : Memory :=
  { s with
    frameTable := fun g =>
      if g < c.NumPhysPages ∧ (s.frameTable g).addrSpace = space ∧ (s.frameTable g).vpn = vpn
      then { (s.frameTable g) with valid := true } else s.frameTable g
    swapTable := fun j =>
      if j < c.NumSectors ∧ (s.swapTable j).addrSpace = space ∧ (s.swapTable j).vpn = vpn
      then { (s.swapTable j) with valid := true } else s.swapTable j
    LRUstack := s.LRUstack.filter (fun g => !(decide (g < c.NumPhysPages) &&
      decide ((s.frameTable g).addrSpace = space) && decide ((s.frameTable g).vpn = vpn))) }

/-- Membership of a thread in `readyList` is equivalent to its status being
`READY`, except for the thread `pending`, if there is one: the thread that
`FindNextToRun` has returned and that `Run` has not yet made `RUNNING`. -/
def ReadyIff (k : Kernel) (pending : Option Thread) : Prop :=
  ∀ u, u ∈ k.readyList ↔ (k.status u = ThreadStatus.READY ∧ pending ≠ some u)

/-- A thread is in `sleepingList` if and only if its status is `SLEEPING`, and
no thread has two entries in `sleepingList`. -/
def SleepIff (k : Kernel) : Prop :=
  (∀ u, (∃ x, x ∈ k.sleepingList ∧ x.sleeper = u) ↔ k.status u = ThreadStatus.SLEEPING) ∧
  (k.sleepingList.map SleepingThread.sleeper).Nodup

/-! ## Concrete states used by the further examples -/

/-- Both frames in use for `vpn 1` and `vpn 2` of address space 1 and both
sectors in use for `vpn 0` and `vpn 3`: memory and swap are exhausted. -/
def fullMemory : Memory :=
  memoryOf [0, 1]
    [{ valid := false, lock := false, addrSpace := 1, vpn := 1 },
     { valid := false, lock := false, addrSpace := 1, vpn := 2 }]
    [{ valid := false, lock := false, addrSpace := 1, vpn := 0 },
     { valid := false, lock := false, addrSpace := 1, vpn := 3 }]

/-- The state produced by the constructor in the examples: the byte at address
`a` is `a + 100`, byte `o` of sector `j` is `10 * j + o`, the current thread runs
in address space 1. -/
def freshMemory : Memory :=
  MemoryManager.new (fun a => a + 100) (fun j o => 10 * j + o) 1

/-- The frame table, the swap table and the LRU stack after the calls `cs` made
from state `s`; or the fault. -/
def tablesAfter (c : Machine) (s : Memory) (cs : List MemCall) :
    Except Fault (List FrameInfoEntry × List FrameInfoEntry × List Nat) :=
  match runMem c s cs with
  | Except.error e => Except.error e
  | Except.ok s1 =>
    Except.ok ((List.range c.NumPhysPages).map s1.frameTable,
      (List.range c.NumSectors).map s1.swapTable, s1.LRUstack)

/-- A kernel entered with interrupts enabled: thread 1 is running with burst
record `(0, 0)`, its slice started at tick 0 and the clock shows 8; thread 7 is
waiting in `toBeDestroyed`. -/
def interruptsOnKernel : Kernel :=
  { Scheduler.new SchedulerType.NSJF 0 1 IntStatus.IntOn 8 (fun _ => ThreadStatus.RUNNING) with
    toBeDestroyed := some 7
    burstTimeMap := BurstMap.write (fun _ => none) 1 (0, 0) }

/-- A kernel with interrupts off whose sleeping list holds thread 2 and thread 3
with one tick to go and thread 1 with three ticks to go. -/
def sleepersKernel : Kernel :=
  { Scheduler.new SchedulerType.FCFS 0 4 IntStatus.IntOff 0
      (fun u => if u = 4 then ThreadStatus.RUNNING else ThreadStatus.SLEEPING) with
    sleepingList :=
      [{ sleeper := 2, sleepTime := 1 }, { sleeper := 3, sleepTime := 1 },
       { sleeper := 1, sleepTime := 3 }] }

/-- The state produced by the constructor for the `FCFS` policy with interrupts
off: thread 0 is running and every other thread has just been created. -/
def freshKernel : Kernel :=
  Scheduler.new SchedulerType.FCFS 0 0 IntStatus.IntOff 0
    (fun u => if u = 0 then ThreadStatus.RUNNING else ThreadStatus.JUST_CREATED)

/-- The ready list, the threads of the sleeping list and the status of thread
`t` after the calls `cs` made from state `k`, when they all return. -/
def listsAndStatusAfter (k : Kernel) (cs : List SchedCall) (t : Thread) :
    Option (List Thread × List Thread × ThreadStatus) :=
  match runCalls k cs with
  | Except.error _ => none
  | Except.ok (_, k1) =>
    some (k1.readyList, k1.sleepingList.map SleepingThread.sleeper, k1.status t)

/-- Every frame entry and every swap entry of `s1` has the lock flag it has in `s`. -/
def SameLocks (s s1 : Memory) : Prop :=
  (∀ i, (s1.frameTable i).lock = (s.frameTable i).lock) ∧
  (∀ j, (s1.swapTable j).lock = (s.swapTable j).lock)

/-- No frame entry and no swap entry has its lock flag set. -/
def Unlocked (s : Memory) : Prop :=
  (∀ i, (s.frameTable i).lock = false) ∧ (∀ j, (s.swapTable j).lock = false)

/-- The page `(space, vpn)` is held by an in-use frame or by an in-use swap entry. -/
def Held (c : Machine) (s : Memory) (space : AddrSpace) (vpn : Nat) : Prop :=
  (∃ i, i < c.NumPhysPages ∧ (s.frameTable i).holds space vpn) ∨
  (∃ j, j < c.NumSectors ∧ (s.swapTable j).holds space vpn)

/-- The number of entries in use among the first `n` entries of a table. -/
def inUseCount (table : Nat → FrameInfoEntry) (n : Nat) : Nat :=
  (List.range n).countP (fun i => !(table i).valid)

/-! ## Further properties of the scheduler -/

/-- The ready list is sorted ascending by `GetRestBurstTime`, evaluated with the
burst records of the state. -/
def SortedReady (k : Kernel) : Prop :=
  k.readyList.Pairwise
    (fun a b => restBurst k.burstTimeMap a ≤ restBurst k.burstTimeMap b)

/-- The threads of the ready list, each with the value `GetRestBurstTime`
returns for it. -/
def readyKeys (k : Kernel) : List (Thread × Int) :=
  k.readyList.map (fun t => (t, restBurst k.burstTimeMap t))

/-- Every thread that has a burst record has `histBurst ≥ 0` and `newBurst ≥ 0`. -/
def NonNegBursts (k : Kernel) : Prop :=
  ∀ (t : Thread) (p : Int × Int), k.burstTimeMap t = some p → 0 ≤ p.1 ∧ 0 ≤ p.2

/-- One of the scheduler calls that read or write burst records. -/
inductive BurstOp where
  /-- the call `ReadyToRun(thread)` -/
  | ready (thread : Thread)
  /-- the call `AccumNewBurst()` -/
  | accum
  /-- the call `Account()` -/
  | account
  /-- the call `SetToSleep(sleepTime)` -/
  | sleep (sleepTime : Int)
  /-- the call `Run(nextThread, finishing)`, up to the stack switch; `stackOverflow`
  is the outcome of the stack check of the old thread -/
  | run (nextThread : Thread) (finishing : Bool) (stackOverflow : Bool)
  /-- the call `GetRestBurstTime(thread)` -/
  | rest (thread : Thread)
deriving DecidableEq, Repr

/-- The state after one call. -/
def BurstOp.apply (k : Kernel) : BurstOp → Except Fault Kernel
  | BurstOp.ready thread => ReadyToRun k thread
  | BurstOp.accum => Except.ok (AccumNewBurst k)
  | BurstOp.account => Account k
  | BurstOp.sleep sleepTime => SetToSleep k sleepTime
  | BurstOp.run nextThread finishing stackOverflow => Run k nextThread finishing stackOverflow
  | BurstOp.rest thread =>
    Except.ok { k with burstTimeMap := (GetRestBurstTime k.burstTimeMap thread).2 }

/-- Run a sequence of calls, each made when the external counter
`kernel->stats->userTicks` shows the value paired with it. -/
def runBurstCalls : Kernel → List (Int × BurstOp) → Except Fault Kernel
  | k, [] => Except.ok k
  | k, (now, op) :: cs =>
    match op.apply { k with userTicks := now } with
    | Except.error e => Except.error e
    | Except.ok k1 => runBurstCalls k1 cs

/-! ## Concrete runs used by the last examples -/

/-- A run under the `NSJF` policy from the state produced by the constructor,
with `startTicks = 0`: thread 1 runs until tick 4 and calls `Account`; `Run`
switches to thread 0, which runs until tick 24 and calls `Account`; thread 1 is
made ready, then the current thread 0 is made ready; at tick 33 `AccumNewBurst`
is called.  The result is the state before and the state after that last call. -/
def accumulateAfterYield : Except Fault (Kernel × Kernel) :=
  match Account (Scheduler.new SchedulerType.NSJF 0 1 IntStatus.IntOff 4
      (fun u => if u = 1 then ThreadStatus.RUNNING else ThreadStatus.JUST_CREATED)) with
  | Except.error e => Except.error e
  | Except.ok k1 =>
    match Run k1 0 false false with
    | Except.error e => Except.error e
    | Except.ok k2 =>
      match Account { k2 with userTicks := 24 } with
      | Except.error e => Except.error e
      | Except.ok k3 =>
        match ReadyToRun k3 1 with
        | Except.error e => Except.error e
        | Except.ok k4 =>
          match ReadyToRun k4 0 with
          | Except.error e => Except.error e
          | Except.ok k5 => Except.ok (k5, AccumNewBurst { k5 with userTicks := 33 })

/-- The ready list with its keys before and after the last call of
`accumulateAfterYield`. -/
def accumulateAfterYieldKeys : Option (List (Thread × Int) × List (Thread × Int)) :=
  accumulateAfterYield.toOption.map (fun p => (readyKeys p.1, readyKeys p.2))

/-- A newly constructed scheduler whose member `startTicks`, which the
constructor does not initialise, holds 100, while the clock shows 0 and thread
1 is running. -/
def staleStartKernel : Kernel :=
  Scheduler.new SchedulerType.NSJF 100 1 IntStatus.IntOff 0
    (fun u => if u = 1 then ThreadStatus.RUNNING else ThreadStatus.JUST_CREATED)

/-- The burst record of thread `t` after the calls `cs`, when they all return. -/
def burstRecordAfter (k : Kernel) (cs : List (Int × BurstOp)) (t : Thread) :
    Option (Option (Int × Int)) :=
  (runBurstCalls k cs).toOption.map (fun k1 => k1.burstTimeMap t)

/-- A kernel under `SJF` in which thread 0 is running with interrupts off, the
threads 1, 2 and 3 have the burst records `(10, 0)`, `(5, 0)` and `(5, 0)`, and
the ready list holds thread 2 and then thread 1. -/
def readyPairKernel : Kernel :=
  { scenarioKernel SchedulerType.SJF 0 with readyList := [2, 1] }

/-- The state reached from the constructor's state when the running thread 0
calls `SetToSleep(2)`, `ReadyToRun(0)` is called while it sleeps,
`FindNextToRun` returns thread 0 and `Run` dispatches it: thread 0 is running
again, and its entry with two ticks to go is still in the sleeping list. -/
def staleSleeperKernel : Kernel :=
  match runCalls freshKernel
      [SchedCall.sleep 0 2 0, SchedCall.ready 0, SchedCall.findNext] with
  | Except.error _ => freshKernel
  | Except.ok (_, k) =>
    match Run k 0 false false with
    | Except.error _ => freshKernel
    | Except.ok k1 => k1

/-! ## Theorems: burst accounting -/

theorem excessBits_of_lt (fuel m : Nat) (h : m < 2 ^ 24) : excessBits fuel m = 0 := by
  cases fuel with
  | zero => rfl
  | succ f => simp only [excessBits, h, if_true]

theorem roundSig24_of_lt (m : Nat) (h : m < 2 ^ 24) : roundSig24 m = m := by
  simp [roundSig24, excessBits_of_lt m m h, Nat.mod_one]

theorem roundFloat_of_small (x : Int) (h0 : 0 ≤ x) (h : x < 2 ^ 24) : roundFloat x = x := by
  have hx : x.natAbs < 2 ^ 24 := by omega
  have h1 : ¬ x < 0 := by omega
  simp only [roundFloat, h1, if_false, roundSig24_of_lt _ hx]
  omega

theorem estimateBurst_of_small (n h : Int) (hn : 0 ≤ n) (hh : 0 ≤ h) (hs : n + h < 2 ^ 24) :
    estimateBurst n h = (n + h) / 2 := by
  have e1 : roundFloat n = n := roundFloat_of_small n hn (by omega)
  have e2 : roundFloat h = h := roundFloat_of_small h hh (by omega)
  have e3 : roundFloat (n + h) = n + h := roundFloat_of_small (n + h) (by omega) hs
  rw [estimateBurst, e1, e2, e3]
  exact Int.tdiv_eq_ediv (by omega) (by omega)

theorem floor_half_sum (a b : Int) :
    ⌊(0.5 : ℚ) * (a : ℚ) + 0.5 * (b : ℚ)⌋ = (a + b) / 2 := by
  have h : (0.5 : ℚ) * (a : ℚ) + 0.5 * (b : ℚ) = ((a + b : ℤ) : ℚ) / ((2 : ℕ) : ℚ) := by
    push_cast; ring
  rw [h, Rat.floor_intCast_div_natCast]
  rfl

theorem BurstMap.write_apply (m : BurstMap) (t : Thread) (p : Int × Int) (u : Thread) :
    m.write t p u = if u = t then some p else m u := rfl

theorem BurstMap.write_write (m : BurstMap) (t : Thread) (p q : Int × Int) :
    (m.write t p).write t q = m.write t q := by
  funext u
  by_cases h : u = t <;> simp [BurstMap.write_apply, h]

theorem Account_eq (k : Kernel) :
    Account k = Except.ok
      { k with
        burstTimeMap := k.burstTimeMap.write k.currentThread
          (estimateBurst ((k.burstTimeMap.read k.currentThread).2 + (k.userTicks - k.startTicks))
            (k.burstTimeMap.read k.currentThread).1, 0)
        startTicks := k.userTicks } := by
  simp [Account, AccumNewBurst, BurstMap.write_apply, BurstMap.write_write, BurstMap.read]

/-- C1 (amended): burst estimate law.  If the current thread's burst record is
`(h, n)` with `h ≥ 0` and `n ≥ 0`, the clock has `userTicks ≥ startTicks`, and
`n + Δ + h < 2 ^ 24` for `Δ = userTicks - startTicks` (so that the `float`
arithmetic is exact), then `Account()` returns, leaves the current thread's
record equal to `(⌊0.5·(n+Δ) + 0.5·h⌋, 0)`, sets `startTicks` to `userTicks` and
changes no other thread's record. -/
theorem account_burst_estimate (k : Kernel) (h n : Int)
    (hrec : k.burstTimeMap k.currentThread = some (h, n)) (hh : 0 ≤ h) (hn : 0 ≤ n)
    (hclock : k.startTicks ≤ k.userTicks)
    (hsmall : n + (k.userTicks - k.startTicks) + h < 2 ^ 24) :
    ∃ k1, Account k = Except.ok k1 ∧
      k1.burstTimeMap k.currentThread
        = some (⌊(0.5 : ℚ) * ((n + (k.userTicks - k.startTicks) : ℤ) : ℚ) + 0.5 * (h : ℚ)⌋, 0) ∧
      k1.startTicks = k.userTicks ∧
      ∀ t, t ≠ k.currentThread → k1.burstTimeMap t = k.burstTimeMap t := by
  refine ⟨_, Account_eq k, ?_, rfl, ?_⟩
  · have hr : k.burstTimeMap.read k.currentThread = (h, n) := by simp [BurstMap.read, hrec]
    simp only [BurstMap.write_apply, if_true, hr]
    rw [floor_half_sum, estimateBurst_of_small _ _ (by omega) hh (by omega)]
  · intro t ht
    simp [BurstMap.write_apply, ht]

theorem account_burst_estimate_witness :
    (burstKernel 0 0 0 8).burstTimeMap (burstKernel 0 0 0 8).currentThread = some (0, 0) ∧
    ∃ k1, Account (burstKernel 0 0 0 8) = Except.ok k1 ∧
      k1.burstTimeMap (burstKernel 0 0 0 8).currentThread
        = some (⌊(0.5 : ℚ) * ((0 + ((burstKernel 0 0 0 8).userTicks
            - (burstKernel 0 0 0 8).startTicks) : ℤ) : ℚ) + 0.5 * ((0 : ℤ) : ℚ)⌋, 0) ∧
      k1.startTicks = (burstKernel 0 0 0 8).userTicks ∧
      ∀ t, t ≠ (burstKernel 0 0 0 8).currentThread →
        k1.burstTimeMap t = (burstKernel 0 0 0 8).burstTimeMap t :=
  ⟨by decide, account_burst_estimate (burstKernel 0 0 0 8) 0 0 (by decide) (by decide) (by decide)
    (by decide) (by decide)⟩

/-- Scenario 4 of the spec: from `(0, 0)`, 8 ticks and `Account` give `(4, 0)`;
4 more ticks and `Account` give `(4, 0)` again. -/
theorem account_scenario :
    recordAfterAccount (burstKernel 0 0 0 8) 1 = some (some (4, 0)) ∧
    recordAfterAccount (burstKernel 4 0 8 12) 1 = some (some (4, 0)) := by
  decide

/-- Counterexample to C1 as stated: with burst record `(3, 0)` and
`Δ = 16777216 = 2 ^ 24` ticks the sum `8388608.0f + 1.5f` is not representable
in `float` and rounds to `8388610`, so `Account` stores `(8388610, 0)`, whereas
`⌊0.5·16777216 + 0.5·3⌋ = 8388609`. -/
theorem account_float_counterexample :
    (burstKernel 3 0 0 16777216).burstTimeMap (burstKernel 3 0 0 16777216).currentThread
      = some (3, 0) ∧
    (burstKernel 3 0 0 16777216).startTicks ≤ (burstKernel 3 0 0 16777216).userTicks ∧
    recordAfterAccount (burstKernel 3 0 0 16777216) 1 = some (some (8388610, 0)) ∧
    ⌊(0.5 : ℚ) * ((0 + (16777216 - 0) : ℤ) : ℚ) + 0.5 * ((3 : ℤ) : ℚ)⌋ = 8388609 := by
  refine ⟨by decide, by decide, by decide, ?_⟩
  rw [floor_half_sum]
  decide

/-! ## Theorems: the ready list -/

theorem compareKeys_neg (a b : Int) : compareKeys a b < 0 ↔ a < b := by
  unfold compareKeys
  split_ifs <;> omega

section SortedInsert

variable {α : Type} (key : α → Int)

theorem insert_perm (c : α → α → Int) (x : α) (l : List α) :
    (SortedList.Insert c x l).Perm (x :: l) := by
  induction l with
  | nil => exact List.Perm.refl _
  | cons y ys ih =>
    unfold SortedList.Insert
    split_ifs
    · exact List.Perm.refl _
    · exact (List.Perm.cons y ih).trans (List.Perm.swap x y ys)

theorem insert_sorted (x : α) (l : List α)
    (hs : l.Pairwise (fun a b => key a ≤ key b)) :
    (SortedList.Insert (fun a b => compareKeys (key a) (key b)) x l).Pairwise
      (fun a b => key a ≤ key b) := by
  induction l with
  | nil => simp [SortedList.Insert]
  | cons y ys ih =>
    unfold SortedList.Insert
    rw [List.pairwise_cons] at hs
    by_cases h : key x < key y
    · rw [if_pos ((compareKeys_neg _ _).2 h)]
      refine List.Pairwise.cons ?_ (List.Pairwise.cons hs.1 hs.2)
      intro b hb
      rcases List.mem_cons.1 hb with rfl | hb
      · omega
      · have := hs.1 b hb
        omega
    · rw [if_neg (fun hc => h ((compareKeys_neg _ _).1 hc))]
      refine List.Pairwise.cons ?_ (ih hs.2)
      intro b hb
      rcases List.mem_cons.1 ((insert_perm _ x ys).subset hb) with rfl | hb
      · omega
      · exact hs.1 b hb

theorem insert_filter (x : α) (l : List α) (v : Int)
    (hs : l.Pairwise (fun a b => key a ≤ key b)) :
    (SortedList.Insert (fun a b => compareKeys (key a) (key b)) x l).filter
        (fun a => decide (key a = v))
      = l.filter (fun a => decide (key a = v)) ++ [x].filter (fun a => decide (key a = v)) := by
  induction l with
  | nil => simp [SortedList.Insert]
  | cons y ys ih =>
    unfold SortedList.Insert
    rw [List.pairwise_cons] at hs
    by_cases h : key x < key y
    · rw [if_pos ((compareKeys_neg _ _).2 h)]
      by_cases hx : key x = v
      · have hy : ∀ b ∈ y :: ys, ¬ key b = v := by
          intro b hb
          rcases List.mem_cons.1 hb with rfl | hb
          · omega
          · have := hs.1 b hb
            omega
        have hnil : (y :: ys).filter (fun a => decide (key a = v)) = [] := by
          rw [List.filter_eq_nil_iff]
          intro b hb
          simpa using hy b hb
        rw [List.filter_cons_of_pos (by simpa using hx), hnil]
        simp [hx]
      · have hx1 : [x].filter (fun a => decide (key a = v)) = [] := by simp [hx]
        rw [List.filter_cons_of_neg (by simpa using hx), hx1, List.append_nil]
    · rw [if_neg (fun hc => h ((compareKeys_neg _ _).1 hc))]
      by_cases hy : key y = v
      · rw [List.filter_cons_of_pos (by simpa using hy), List.filter_cons_of_pos (by simpa using hy),
          ih hs.2, List.cons_append]
      · rw [List.filter_cons_of_neg (by simpa using hy), List.filter_cons_of_neg (by simpa using hy),
          ih hs.2]

theorem foldl_insert_stable (ts : List α) : ∀ (acc : List α),
    acc.Pairwise (fun a b => key a ≤ key b) →
    (ts.foldl (fun l x => SortedList.Insert (fun a b => compareKeys (key a) (key b)) x l) acc).Perm
        (acc ++ ts) ∧
    (ts.foldl (fun l x => SortedList.Insert (fun a b => compareKeys (key a) (key b)) x l)
        acc).Pairwise (fun a b => key a ≤ key b) ∧
    ∀ v : Int,
      (ts.foldl (fun l x => SortedList.Insert (fun a b => compareKeys (key a) (key b)) x l)
          acc).filter (fun a => decide (key a = v))
        = (acc ++ ts).filter (fun a => decide (key a = v)) := by
  induction ts with
  | nil => intro acc hs; simp [hs]
  | cons t ts ih =>
    intro acc hs
    obtain ⟨hp, hso, hf⟩ := ih _ (insert_sorted key t acc hs)
    refine ⟨?_, hso, ?_⟩
    · refine hp.trans ?_
      have h1 := (insert_perm (fun a b => compareKeys (key a) (key b)) t acc).append_right ts
      refine h1.trans ?_
      exact List.perm_middle.symm
    · intro v
      rw [List.foldl_cons, hf v, List.filter_append, insert_filter key t acc v hs]
      by_cases ht : key t = v <;> simp [List.filter_append, List.filter_cons, ht]

end SortedInsert

theorem ReadyToRun_fifo (k : Kernel) (t : Thread) (hl : k.level = IntStatus.IntOff)
    (hp : k.schedulerType = SchedulerType.FCFS ∨ k.schedulerType = SchedulerType.RR) :
    ∃ k1, ReadyToRun k t = Except.ok k1 ∧ k1.readyList = k.readyList ++ [t] ∧
      k1.level = IntStatus.IntOff ∧ k1.schedulerType = k.schedulerType := by
  have hp1 : k.schedulerType = SchedulerType.RR ∨ k.schedulerType = SchedulerType.FCFS :=
    hp.symm
  simp [ReadyToRun, hl, readyAppend, hp1]

theorem readyAll_fifo (ts : List Thread) : ∀ (k : Kernel), k.level = IntStatus.IntOff →
    (k.schedulerType = SchedulerType.FCFS ∨ k.schedulerType = SchedulerType.RR) →
    ∃ k1, readyAll k ts = Except.ok k1 ∧ k1.readyList = k.readyList ++ ts ∧
      k1.level = IntStatus.IntOff := by
  induction ts with
  | nil => intro k hl _; exact ⟨k, rfl, by simp, hl⟩
  | cons t ts ih =>
    intro k hl hp
    obtain ⟨k1, h1, hr1, hl1, hp1⟩ := ReadyToRun_fifo k t hl hp
    obtain ⟨k2, h2, hr2, hl2⟩ := ih k1 hl1 (hp1 ▸ hp)
    refine ⟨k2, ?_, ?_, hl2⟩
    · simp [readyAll, h1, h2]
    · simp [hr2, hr1]

theorem dispatch_all (l : List Thread) : ∀ (k : Kernel), k.level = IntStatus.IntOff →
    k.readyList = l →
    ∃ k1, dispatch (l.length + 1) k = Except.ok (l.map some ++ [none], k1) := by
  induction l with
  | nil =>
    intro k hl hr
    exact ⟨k, by simp [dispatch, FindNextToRun, hl, hr]⟩
  | cons t ts ih =>
    intro k hl hr
    obtain ⟨k1, h1⟩ := ih { k with readyList := ts } hl rfl
    exact ⟨k1, by simp [dispatch, FindNextToRun, hl, hr] at h1 ⊢; simp [dispatch, h1]⟩

/-- C2: under policy FCFS or RR, with interrupts disabled and an empty ready
list, `ReadyToRun` applied to the threads `ts` in order returns each time, and
the next `ts.length + 1` calls of `FindNextToRun` return the threads of `ts` in
exactly that order followed by `NULL`, whatever the burst records are. -/
theorem fifo_dispatch_order (k : Kernel) (ts : List Thread)
    (hl : k.level = IntStatus.IntOff)
    (hp : k.schedulerType = SchedulerType.FCFS ∨ k.schedulerType = SchedulerType.RR)
    (he : k.readyList = []) :
    ∃ k1 k2, readyAll k ts = Except.ok k1 ∧
      dispatch (ts.length + 1) k1 = Except.ok (ts.map some ++ [none], k2) := by
  obtain ⟨k1, h1, hr1, hl1⟩ := readyAll_fifo ts k hl hp
  rw [he, List.nil_append] at hr1
  obtain ⟨k2, h2⟩ := dispatch_all ts k1 hl1 hr1
  exact ⟨k1, k2, h1, h2⟩

theorem BurstMap.read_write (m : BurstMap) (t : Thread) (p : Int × Int) (u : Thread) :
    (m.write t p).read u = if u = t then p else m.read u := by
  by_cases h : u = t <;> simp [BurstMap.read, BurstMap.write_apply, h]

theorem BurstMap.read_touch (m : BurstMap) (t u : Thread) : (m.touch t).read u = m.read u := by
  rw [BurstMap.touch, BurstMap.read_write]
  split_ifs with h
  · rw [h]
  · rfl

theorem restBurst_congr (m m1 : BurstMap) (h : ∀ u, m1.read u = m.read u) (t : Thread) :
    restBurst m1 t = restBurst m t := by
  simp [restBurst, GetRestBurstTime, h]

theorem BurstTimeCompare_fst (m : BurstMap) (x y : Thread) :
    (BurstTimeCompare m x y).1 = compareKeys (restBurst m x) (restBurst m y) := by
  have h : restBurst (m.touch x) y = restBurst m y :=
    restBurst_congr m _ (BurstMap.read_touch m x) y
  simp only [BurstTimeCompare, compareKeys]
  rw [← h]
  rfl

theorem BurstTimeCompare_read (m : BurstMap) (x y u : Thread) :
    (BurstTimeCompare m x y).2.read u = m.read u := by
  simp [BurstTimeCompare, GetRestBurstTime, BurstMap.read_touch]

theorem readyInsert_spec (x : Thread) (l : List Thread) : ∀ (m : BurstMap),
    (readyInsert x l m).1
        = SortedList.Insert (fun a b => compareKeys (restBurst m a) (restBurst m b)) x l ∧
    ∀ u, (readyInsert x l m).2.read u = m.read u := by
  induction l with
  | nil => intro m; simp [readyInsert, SortedList.Insert]
  | cons y ys ih =>
    intro m
    have hc := BurstTimeCompare_fst m x y
    have hr := BurstTimeCompare_read m x y
    obtain ⟨h1, h2⟩ := ih (BurstTimeCompare m x y).2
    have hk : (fun a b => compareKeys (restBurst (BurstTimeCompare m x y).2 a)
        (restBurst (BurstTimeCompare m x y).2 b))
        = (fun a b => compareKeys (restBurst m a) (restBurst m b)) := by
      funext a b
      rw [restBurst_congr m _ hr a, restBurst_congr m _ hr b]
    rw [hk] at h1
    simp only [readyInsert, SortedList.Insert, hc]
    split_ifs with hlt
    · exact ⟨rfl, hr⟩
    · refine ⟨?_, ?_⟩
      · simp only [h1]
      · intro u
        simp only [h2, hr]

/-- With interrupts disabled `ReadyToRun` returns, and this is its state. -/
theorem ReadyToRun_ok (k : Kernel) (t : Thread) (hl : k.level = IntStatus.IntOff) :
    ReadyToRun k t = Except.ok
      { k with
        status := fun u => if u = t then ThreadStatus.READY else k.status u
        burstTimeMap := (readyAppend k.schedulerType t k.readyList
          (if (k.burstTimeMap t).isNone then k.burstTimeMap.write t (0, 0)
           else k.burstTimeMap)).2
        readyList := (readyAppend k.schedulerType t k.readyList
          (if (k.burstTimeMap t).isNone then k.burstTimeMap.write t (0, 0)
           else k.burstTimeMap)).1 } := by
  simp [ReadyToRun, hl]

/-- The effect of `ReadyToRun` under the shortest-job-first policies. -/
theorem ReadyToRun_sjf (k : Kernel) (t : Thread) (hl : k.level = IntStatus.IntOff)
    (hp : k.schedulerType = SchedulerType.NSJF ∨ k.schedulerType = SchedulerType.SJF) :
    ∃ k1, ReadyToRun k t = Except.ok k1 ∧
      k1.readyList = SortedList.Insert
        (fun a b => compareKeys (restBurst k.burstTimeMap a) (restBurst k.burstTimeMap b))
        t k.readyList ∧
      (∀ u, k1.burstTimeMap.read u = k.burstTimeMap.read u) ∧
      k1.level = IntStatus.IntOff ∧ k1.schedulerType = k.schedulerType := by
  have hp1 : ¬ (k.schedulerType = SchedulerType.RR ∨ k.schedulerType = SchedulerType.FCFS) := by
    rcases hp with h | h <;> simp [h]
  have hm : ∀ u, (if (k.burstTimeMap t).isNone then k.burstTimeMap.write t (0, 0)
      else k.burstTimeMap).read u = k.burstTimeMap.read u := by
    intro u
    split_ifs with hn
    · rw [BurstMap.read_write]
      split_ifs with hu
      · subst hu
        rw [Option.isNone_iff_eq_none] at hn
        simp [BurstMap.read, hn]
      · rfl
    · rfl
  obtain ⟨h1, h2⟩ := readyInsert_spec t k.readyList
    (if (k.burstTimeMap t).isNone then k.burstTimeMap.write t (0, 0) else k.burstTimeMap)
  have hk : (fun a b => compareKeys
        (restBurst (if (k.burstTimeMap t).isNone then k.burstTimeMap.write t (0, 0)
          else k.burstTimeMap) a)
        (restBurst (if (k.burstTimeMap t).isNone then k.burstTimeMap.write t (0, 0)
          else k.burstTimeMap) b))
      = (fun a b => compareKeys (restBurst k.burstTimeMap a) (restBurst k.burstTimeMap b)) := by
    funext a b
    rw [restBurst_congr _ _ hm a, restBurst_congr _ _ hm b]
  rw [hk] at h1
  refine ⟨_, ReadyToRun_ok k t hl, ?_, ?_, hl, rfl⟩
  · simp only [readyAppend, hp1, if_false]
    exact h1
  · intro u
    simp only [readyAppend, hp1, if_false]
    rw [h2 u, hm u]

theorem readyAll_sjf (ts : List Thread) : ∀ (k : Kernel), k.level = IntStatus.IntOff →
    (k.schedulerType = SchedulerType.NSJF ∨ k.schedulerType = SchedulerType.SJF) →
    ∃ k1, readyAll k ts = Except.ok k1 ∧
      k1.readyList = ts.foldl (fun l x => SortedList.Insert
        (fun a b => compareKeys (restBurst k.burstTimeMap a) (restBurst k.burstTimeMap b)) x l)
        k.readyList ∧
      k1.level = IntStatus.IntOff := by
  induction ts with
  | nil => intro k hl _; exact ⟨k, rfl, rfl, hl⟩
  | cons t ts ih =>
    intro k hl hp
    obtain ⟨k1, h1, hr1, hm1, hl1, hp1⟩ := ReadyToRun_sjf k t hl hp
    obtain ⟨k2, h2, hr2, hl2⟩ := ih k1 hl1 (hp1 ▸ hp)
    have hk : (fun a b => compareKeys (restBurst k1.burstTimeMap a)
        (restBurst k1.burstTimeMap b))
        = (fun a b => compareKeys (restBurst k.burstTimeMap a) (restBurst k.burstTimeMap b)) := by
      funext a b
      rw [restBurst_congr _ _ hm1 a, restBurst_congr _ _ hm1 b]
    refine ⟨k2, ?_, ?_, hl2⟩
    · simp [readyAll, h1, h2]
    · rw [hr2, hk, hr1, List.foldl_cons]

/-- C3: under policy NSJF or SJF, with interrupts disabled and an empty ready
list, `ReadyToRun` applied to the threads `ts` in order returns each time, and
the next `ts.length + 1` calls of `FindNextToRun` return a list `out` followed
by `NULL`, where `out` is the stable sort of `ts` by `GetRestBurstTime`: a
permutation of `ts`, ascending in `GetRestBurstTime`, in which the threads of
each remaining-burst value keep their insertion order. -/
theorem sjf_dispatch_order (k : Kernel) (ts : List Thread)
    (hl : k.level = IntStatus.IntOff)
    (hp : k.schedulerType = SchedulerType.NSJF ∨ k.schedulerType = SchedulerType.SJF)
    (he : k.readyList = []) :
    ∃ (k1 k2 : Kernel) (out : List Thread), readyAll k ts = Except.ok k1 ∧
      dispatch (ts.length + 1) k1 = Except.ok (out.map some ++ [none], k2) ∧
      out.Perm ts ∧
      out.Pairwise (fun a b => (GetRestBurstTime k.burstTimeMap a).1
        ≤ (GetRestBurstTime k.burstTimeMap b).1) ∧
      ∀ v : Int, out.filter (fun a => decide ((GetRestBurstTime k.burstTimeMap a).1 = v))
        = ts.filter (fun a => decide ((GetRestBurstTime k.burstTimeMap a).1 = v)) := by
  obtain ⟨k1, h1, hr1, hl1⟩ := readyAll_sjf ts k hl hp
  obtain ⟨hperm, hsort, hfilt⟩ :=
    foldl_insert_stable (restBurst k.burstTimeMap) ts [] List.Pairwise.nil
  rw [he] at hr1
  rw [List.nil_append] at hperm
  obtain ⟨k2, h2⟩ := dispatch_all k1.readyList k1 hl1 rfl
  rw [hr1] at h2
  rw [hperm.length_eq] at h2
  exact ⟨k1, k2, _, h1, h2, hperm, hsort, fun v => by simpa using hfilt v⟩

theorem fifo_dispatch_order_witness :
    ∃ k1 k2, readyAll (scenarioKernel SchedulerType.FCFS 0) [1, 2, 3] = Except.ok k1 ∧
      dispatch ([1, 2, 3].length + 1) k1
        = Except.ok (([1, 2, 3] : List Thread).map some ++ [none], k2) :=
  fifo_dispatch_order (scenarioKernel SchedulerType.FCFS 0) [1, 2, 3] rfl (Or.inl rfl) rfl

/-- Scenario 1 of the spec: threads readied in the order 1, 2, 3 (3, 1, 2) are
dispatched in that order under FCFS (RR), the burst records `(10, 0)`, `(5, 0)`,
`(5, 0)` notwithstanding. -/
theorem fifo_scenario :
    dispatchOrder (scenarioKernel SchedulerType.FCFS 0) [1, 2, 3] 4
      = some [some 1, some 2, some 3, none] ∧
    dispatchOrder (scenarioKernel SchedulerType.RR 0) [3, 1, 2] 4
      = some [some 3, some 1, some 2, none] := by
  decide

theorem sjf_dispatch_order_witness :
    ∃ (k1 k2 : Kernel) (out : List Thread),
      readyAll (scenarioKernel SchedulerType.NSJF 0) [1, 2, 3] = Except.ok k1 ∧
      dispatch ([1, 2, 3].length + 1) k1 = Except.ok (out.map some ++ [none], k2) ∧
      out.Perm [1, 2, 3] ∧
      out.Pairwise (fun a b =>
        (GetRestBurstTime (scenarioKernel SchedulerType.NSJF 0).burstTimeMap a).1
          ≤ (GetRestBurstTime (scenarioKernel SchedulerType.NSJF 0).burstTimeMap b).1) ∧
      ∀ v : Int,
        out.filter (fun a => decide
          ((GetRestBurstTime (scenarioKernel SchedulerType.NSJF 0).burstTimeMap a).1 = v))
        = ([1, 2, 3] : List Thread).filter (fun a => decide
          ((GetRestBurstTime (scenarioKernel SchedulerType.NSJF 0).burstTimeMap a).1 = v)) :=
  sjf_dispatch_order (scenarioKernel SchedulerType.NSJF 0) [1, 2, 3] rfl (Or.inl rfl) rfl

/-- Scenario 2 of the spec: threads 1, 2, 3 with estimates 10, 5, 5, readied in
that order, are dispatched 2, 3, 1 under NSJF and under SJF. -/
theorem sjf_scenario :
    dispatchOrder (scenarioKernel SchedulerType.NSJF 0) [1, 2, 3] 4
      = some [some 2, some 3, some 1, none] ∧
    dispatchOrder (scenarioKernel SchedulerType.SJF 0) [1, 2, 3] 4
      = some [some 2, some 3, some 1, none] := by
  decide

/-! ## Theorems: the sleeping list -/

theorem SleepTimeCompare_eq (x y : SleepingThread) :
    SleepTimeCompare x y = compareKeys x.sleepTime y.sleepTime := rfl

theorem SetToSleep_ok (k : Kernel) (x : Int) (hl : k.level = IntStatus.IntOff) :
    ∃ k1, SetToSleep k x = Except.ok k1 ∧
      k1.sleepingList = SortedList.Insert SleepTimeCompare
        { sleeper := k.currentThread, sleepTime := x } k.sleepingList ∧
      k1.level = IntStatus.IntOff := by
  simp [SetToSleep, hl, Account_eq, Thread.Sleep]

theorem wake_spec (l : List SleepingThread) : ∀ (k : Kernel), k.level = IntStatus.IntOff →
    ∃ k1, AlarmTicks.wake l k
        = Except.ok ((l.takeWhile (fun x => decide (x.sleepTime ≤ 0))).map
            SleepingThread.sleeper, k1) ∧
      k1.sleepingList = l.dropWhile (fun x => decide (x.sleepTime ≤ 0)) ∧
      k1.level = IntStatus.IntOff := by
  induction l with
  | nil => intro k hl; exact ⟨_, rfl, rfl, hl⟩
  | cons x rest ih =>
    intro k hl
    by_cases hx : x.sleepTime > 0
    · have hx1 : ¬ x.sleepTime ≤ 0 := by omega
      exact ⟨{ k with sleepingList := x :: rest },
        by simp [AlarmTicks.wake, hx, List.takeWhile, hx1], by simp [List.dropWhile, hx1], hl⟩
    · have hx1 : x.sleepTime ≤ 0 := by omega
      have hr := ReadyToRun_ok { k with sleepingList := rest } x.sleeper hl
      obtain ⟨k1, h1, h2, h3⟩ := ih _ (show ({ ({ k with sleepingList := rest } : Kernel) with
        status := fun u => if u = x.sleeper then ThreadStatus.READY else k.status u
        burstTimeMap := (readyAppend k.schedulerType x.sleeper k.readyList
          (if (k.burstTimeMap x.sleeper).isNone then k.burstTimeMap.write x.sleeper (0, 0)
           else k.burstTimeMap)).2
        readyList := (readyAppend k.schedulerType x.sleeper k.readyList
          (if (k.burstTimeMap x.sleeper).isNone then k.burstTimeMap.write x.sleeper (0, 0)
           else k.burstTimeMap)).1 } : Kernel).level = IntStatus.IntOff from hl)
      refine ⟨k1, ?_, ?_, h3⟩
      · simp only [AlarmTicks.wake, hx, if_false, hr, h1, List.takeWhile, hx1, decide_True,
          List.map_cons]
      · simp [List.dropWhile, hx1, h2]

theorem AlarmTicks_spec (k : Kernel) (hl : k.level = IntStatus.IntOff) :
    ∃ k1, AlarmTicks k
        = Except.ok ((k.sleepingList.takeWhile (fun x => decide (x.sleepTime ≤ 1))).map
            SleepingThread.sleeper, k1) ∧
      k1.sleepingList = (k.sleepingList.dropWhile (fun x => decide (x.sleepTime ≤ 1))).map
        (fun x => { x with sleepTime := x.sleepTime - 1 }) ∧
      k1.level = IntStatus.IntOff := by
  obtain ⟨k1, h1, h2, h3⟩ := wake_spec
    (k.sleepingList.map (fun x => { x with sleepTime := x.sleepTime - 1 }))
    { k with sleepingList := k.sleepingList.map (fun x => { x with sleepTime := x.sleepTime - 1 }) }
    hl
  have hp : ((fun x : SleepingThread => decide (x.sleepTime ≤ 0)) ∘
      (fun x : SleepingThread => { x with sleepTime := x.sleepTime - 1 }))
      = (fun x : SleepingThread => decide (x.sleepTime ≤ 1)) := by
    funext x
    simp only [Function.comp, decide_eq_decide]
    omega
  have ha : AlarmTicks k = AlarmTicks.wake
      (k.sleepingList.map (fun x => { x with sleepTime := x.sleepTime - 1 }))
      { k with
        sleepingList := k.sleepingList.map (fun x => { x with sleepTime := x.sleepTime - 1 }) } := by
    simp [AlarmTicks, hl]
  refine ⟨k1, ?_, ?_, h3⟩
  · rw [ha, h1, List.takeWhile_map, hp, List.map_map]
    rfl
  · rw [h2, List.dropWhile_map, hp]

theorem mem_takeWhile_of_sorted (b : Int) (l : List SleepingThread)
    (hs : l.Pairwise (fun x y => x.sleepTime ≤ y.sleepTime)) (x : SleepingThread)
    (hx : x ∈ l) (hp : x.sleepTime ≤ b) :
    x ∈ l.takeWhile (fun y => decide (y.sleepTime ≤ b)) := by
  induction l with
  | nil => cases hx
  | cons y ys ih =>
    rw [List.pairwise_cons] at hs
    have hy : y.sleepTime ≤ b := by
      rcases List.mem_cons.1 hx with rfl | h
      · exact hp
      · have := hs.1 x h
        omega
    rw [List.takeWhile_cons_of_pos (by simpa using hy)]
    rcases List.mem_cons.1 hx with rfl | h
    · exact List.mem_cons_self _ _
    · exact List.mem_cons_of_mem _ (ih hs.2 h)

theorem lt_of_mem_dropWhile_of_sorted (b : Int) (l : List SleepingThread)
    (hs : l.Pairwise (fun x y => x.sleepTime ≤ y.sleepTime)) (x : SleepingThread)
    (hx : x ∈ l.dropWhile (fun y => decide (y.sleepTime ≤ b))) : b < x.sleepTime := by
  induction l with
  | nil => simp at hx
  | cons y ys ih =>
    rw [List.pairwise_cons] at hs
    by_cases hy : y.sleepTime ≤ b
    · rw [List.dropWhile_cons_of_pos (by simpa using hy)] at hx
      exact ih hs.2 hx
    · rw [List.dropWhile_cons_of_neg (by simpa using hy)] at hx
      rcases List.mem_cons.1 hx with rfl | h
      · omega
      · have := hs.1 x h
        omega

theorem le_of_mem_takeWhile (b : Int) (l : List SleepingThread) (x : SleepingThread)
    (hx : x ∈ l.takeWhile (fun y => decide (y.sleepTime ≤ b))) : x.sleepTime ≤ b := by
  simpa using List.mem_takeWhile_imp hx

theorem mem_of_mem_dropWhile (b : Int) (l : List SleepingThread) (x : SleepingThread)
    (hx : x ∈ l.dropWhile (fun y => decide (y.sleepTime ≤ b))) : x ∈ l :=
  (List.dropWhile_sublist _).subset hx

theorem mem_dropWhile_of_lt (b : Int) (l : List SleepingThread) (x : SleepingThread)
    (hx : x ∈ l) (hb : b < x.sleepTime) :
    x ∈ l.dropWhile (fun y => decide (y.sleepTime ≤ b)) := by
  have h := List.takeWhile_append_dropWhile (fun y : SleepingThread => decide (y.sleepTime ≤ b)) l
  rw [← h] at hx
  rcases List.mem_append.1 hx with h1 | h1
  · have := le_of_mem_takeWhile b l x h1
    omega
  · exact h1

/-- An `AlarmTicks()` call while `t` has more than one tick to go. -/
theorem alarm_still_asleep (k : Kernel) (t : Thread) (r : Int) (h : SleepsFor k t r)
    (hr : 1 < r) :
    ∃ woken k1, AlarmTicks k = Except.ok (woken, k1) ∧ t ∉ woken ∧ SleepsFor k1 t (r - 1) := by
  obtain ⟨hl, hs, hall, x, hx, hxt⟩ := h
  obtain ⟨k1, h1, h2, h3⟩ := AlarmTicks_spec k hl
  refine ⟨_, k1, h1, ?_, h3, ?_, ?_, ?_⟩
  · intro hm
    obtain ⟨y, hy, hyt⟩ := List.mem_map.1 hm
    have h4 := le_of_mem_takeWhile 1 _ y hy
    have h5 := hall y ((List.takeWhile_sublist _).subset hy) hyt
    omega
  · rw [h2, List.pairwise_map]
    exact (hs.sublist (List.dropWhile_sublist _)).imp (fun hab => by simpa using hab)
  · intro y hy hyt
    rw [h2] at hy
    obtain ⟨z, hz, rfl⟩ := List.mem_map.1 hy
    have := hall z (mem_of_mem_dropWhile 1 _ z hz) hyt
    simp only
    omega
  · refine ⟨{ x with sleepTime := x.sleepTime - 1 }, ?_, hxt⟩
    rw [h2]
    refine List.mem_map.2 ⟨x, mem_dropWhile_of_lt 1 _ x hx ?_, rfl⟩
    have := hall x hx hxt
    omega

/-- The `AlarmTicks()` call at which `t` has at most one tick to go. -/
theorem alarm_wakes (k : Kernel) (t : Thread) (r : Int) (h : SleepsFor k t r) (hr : r ≤ 1) :
    ∃ woken k1, AlarmTicks k = Except.ok (woken, k1) ∧ t ∈ woken ∧ NotAsleep k1 t := by
  obtain ⟨hl, hs, hall, x, hx, hxt⟩ := h
  obtain ⟨k1, h1, h2, h3⟩ := AlarmTicks_spec k hl
  refine ⟨_, k1, h1, ?_, h3, ?_, ?_⟩
  · refine List.mem_map.2 ⟨x, mem_takeWhile_of_sorted 1 _ hs x hx ?_, hxt⟩
    have := hall x hx hxt
    omega
  · rw [h2, List.pairwise_map]
    exact (hs.sublist (List.dropWhile_sublist _)).imp (fun hab => by simpa using hab)
  · intro y hy hyt
    rw [h2] at hy
    obtain ⟨z, hz, rfl⟩ := List.mem_map.1 hy
    have h4 := hall z (mem_of_mem_dropWhile 1 _ z hz) hyt
    have h5 := lt_of_mem_dropWhile_of_sorted 1 _ hs z hz
    omega

/-- An `AlarmTicks()` call while `t` is not asleep. -/
theorem alarm_not_asleep (k : Kernel) (t : Thread) (h : NotAsleep k t) :
    ∃ woken k1, AlarmTicks k = Except.ok (woken, k1) ∧ t ∉ woken ∧ NotAsleep k1 t := by
  obtain ⟨hl, hs, hall⟩ := h
  obtain ⟨k1, h1, h2, h3⟩ := AlarmTicks_spec k hl
  refine ⟨_, k1, h1, ?_, h3, ?_, ?_⟩
  · intro hm
    obtain ⟨y, hy, hyt⟩ := List.mem_map.1 hm
    exact hall y ((List.takeWhile_sublist _).subset hy) hyt
  · rw [h2, List.pairwise_map]
    exact (hs.sublist (List.dropWhile_sublist _)).imp (fun hab => by simpa using hab)
  · intro y hy hyt
    rw [h2] at hy
    obtain ⟨z, hz, rfl⟩ := List.mem_map.1 hy
    exact hall z (mem_of_mem_dropWhile 1 _ z hz) hyt

theorem SetToSleep_sleepingList (k : Kernel) (x : Int) (hl : k.level = IntStatus.IntOff)
    (hs : k.sleepingList.Pairwise (fun a b => a.sleepTime ≤ b.sleepTime)) :
    ∃ k1, SetToSleep k x = Except.ok k1 ∧ k1.level = IntStatus.IntOff ∧
      k1.sleepingList.Pairwise (fun a b => a.sleepTime ≤ b.sleepTime) ∧
      ∀ y, y ∈ k1.sleepingList ↔
        y = { sleeper := k.currentThread, sleepTime := x } ∨ y ∈ k.sleepingList := by
  obtain ⟨k1, h1, h2, h3⟩ := SetToSleep_ok k x hl
  have hc : SleepTimeCompare = fun a b => compareKeys a.sleepTime b.sleepTime := by
    funext a b
    rfl
  refine ⟨k1, h1, h3, ?_, ?_⟩
  · rw [h2, hc]
    exact insert_sorted SleepingThread.sleepTime _ _ hs
  · intro y
    rw [h2, (insert_perm SleepTimeCompare _ k.sleepingList).mem_iff, List.mem_cons]

/-- A call other than `AlarmTicks()`, not made by `t`, leaves `t` asleep. -/
theorem other_call_asleep (k : Kernel) (t : Thread) (r : Int) (h : SleepsFor k t r) :
    (∀ u x now, u ≠ t → ∃ k1, SetToSleep { k with currentThread := u, userTicks := now } x
        = Except.ok k1 ∧ SleepsFor k1 t r) ∧
    (∀ u, ∃ k1, ReadyToRun k u = Except.ok k1 ∧ SleepsFor k1 t r) ∧
    (∃ res k1, FindNextToRun k = Except.ok (res, k1) ∧ SleepsFor k1 t r) := by
  obtain ⟨hl, hs, hall, x, hx, hxt⟩ := h
  refine ⟨?_, ?_, ?_⟩
  · intro u y now hu
    obtain ⟨k1, h1, h2, h3, h4⟩ :=
      SetToSleep_sleepingList { k with currentThread := u, userTicks := now } y hl hs
    refine ⟨k1, h1, h2, h3, ?_, x, (h4 x).2 (Or.inr hx), hxt⟩
    intro z hz hzt
    rcases (h4 z).1 hz with rfl | hz
    · exact absurd hzt hu
    · exact hall z hz hzt
  · intro u
    exact ⟨_, ReadyToRun_ok k u hl, hl, hs, hall, x, hx, hxt⟩
  · cases hrl : k.readyList with
    | nil => exact ⟨none, k, by simp [FindNextToRun, hl, hrl], hl, hs, hall, x, hx, hxt⟩
    | cons a rest =>
      exact ⟨some a, { k with readyList := rest }, by simp [FindNextToRun, hl, hrl],
        hl, hs, hall, x, hx, hxt⟩

/-- A call other than `AlarmTicks()`, not made by `t`, leaves `t` out of the
sleeping list. -/
theorem other_call_not_asleep (k : Kernel) (t : Thread) (h : NotAsleep k t) :
    (∀ u x now, u ≠ t → ∃ k1, SetToSleep { k with currentThread := u, userTicks := now } x
        = Except.ok k1 ∧ NotAsleep k1 t) ∧
    (∀ u, ∃ k1, ReadyToRun k u = Except.ok k1 ∧ NotAsleep k1 t) ∧
    (∃ res k1, FindNextToRun k = Except.ok (res, k1) ∧ NotAsleep k1 t) := by
  obtain ⟨hl, hs, hall⟩ := h
  refine ⟨?_, ?_, ?_⟩
  · intro u y now hu
    obtain ⟨k1, h1, h2, h3, h4⟩ :=
      SetToSleep_sleepingList { k with currentThread := u, userTicks := now } y hl hs
    refine ⟨k1, h1, h2, h3, ?_⟩
    intro z hz hzt
    rcases (h4 z).1 hz with rfl | hz
    · exact absurd hzt hu
    · exact hall z hz hzt
  · intro u
    exact ⟨_, ReadyToRun_ok k u hl, hl, hs, hall⟩
  · cases hrl : k.readyList with
    | nil => exact ⟨none, k, by simp [FindNextToRun, hl, hrl], hl, hs, hall⟩
    | cons a rest =>
      exact ⟨some a, { k with readyList := rest }, by simp [FindNextToRun, hl, hrl],
        hl, hs, hall⟩

theorem alarmCount_cons_alarm (cs : List SchedCall) :
    alarmCount (SchedCall.alarm :: cs) = alarmCount cs + 1 := by
  simp [alarmCount, SchedCall.isAlarm]

theorem alarmCount_cons_other (c : SchedCall) (cs : List SchedCall) (h : c.isAlarm = false) :
    alarmCount (c :: cs) = alarmCount cs := by
  simp [alarmCount, h]

/-- While `t` is not asleep and does not call `SetToSleep`, no `AlarmTicks()`
call re-admits it. -/
theorem runCalls_not_asleep (t : Thread) (cs : List SchedCall) : ∀ (k : Kernel),
    NotAsleep k t → (∀ c ∈ cs, c.sleeps t = false) →
    ∃ log k1, runCalls k cs = Except.ok (log, k1) ∧ log.length = alarmCount cs ∧
      (∀ w ∈ log, t ∉ w) ∧ NotAsleep k1 t := by
  induction cs with
  | nil => intro k h _; exact ⟨[], k, rfl, rfl, by simp, h⟩
  | cons c cs ih =>
    intro k h hcs
    have hcs1 : ∀ c1 ∈ cs, c1.sleeps t = false := fun c1 hc1 =>
      hcs c1 (List.mem_cons_of_mem _ hc1)
    cases c with
    | alarm =>
      obtain ⟨woken, k1, h1, h2, h3⟩ := alarm_not_asleep k t h
      obtain ⟨log, k2, h4, h5, h6, h7⟩ := ih k1 h3 hcs1
      refine ⟨woken :: log, k2, by simp [runCalls, h1, h4], ?_, ?_, h7⟩
      · rw [alarmCount_cons_alarm, List.length_cons, h5]
      · intro w hw
        rcases List.mem_cons.1 hw with rfl | hw
        · exact h2
        · exact h6 w hw
    | sleep u x now =>
      have hu : u ≠ t := by
        have := hcs (SchedCall.sleep u x now) (List.mem_cons_self _ _)
        simpa [SchedCall.sleeps] using this
      obtain ⟨k1, h1, h3⟩ := (other_call_not_asleep k t h).1 u x now hu
      obtain ⟨log, k2, h4, h5, h6, h7⟩ := ih k1 h3 hcs1
      exact ⟨log, k2, by simp [runCalls, h1, h4],
        by rw [alarmCount_cons_other (SchedCall.sleep u x now) cs rfl, h5], h6, h7⟩
    | ready u =>
      obtain ⟨k1, h1, h3⟩ := (other_call_not_asleep k t h).2.1 u
      obtain ⟨log, k2, h4, h5, h6, h7⟩ := ih k1 h3 hcs1
      exact ⟨log, k2, by simp [runCalls, h1, h4],
        by rw [alarmCount_cons_other (SchedCall.ready u) cs rfl, h5], h6, h7⟩
    | findNext =>
      obtain ⟨res, k1, h1, h3⟩ := (other_call_not_asleep k t h).2.2
      obtain ⟨log, k2, h4, h5, h6, h7⟩ := ih k1 h3 hcs1
      exact ⟨log, k2, by simp [runCalls, h1, h4],
        by rw [alarmCount_cons_other SchedCall.findNext cs rfl, h5], h6, h7⟩

/-- A thread asleep with `r > 0` ticks to go is re-admitted by exactly the
`r`-th following `AlarmTicks()` call, whatever other calls are made. -/
theorem runCalls_asleep (t : Thread) (cs : List SchedCall) : ∀ (k : Kernel) (r : Int),
    SleepsFor k t r → 0 < r → (∀ c ∈ cs, c.sleeps t = false) →
    ∃ log k1, runCalls k cs = Except.ok (log, k1) ∧ log.length = alarmCount cs ∧
      (∀ (i : Nat) (w : List Thread), log[i]? = some w → (t ∈ w ↔ (i : Int) + 1 = r)) ∧
      ((alarmCount cs : Int) < r → SleepsFor k1 t (r - alarmCount cs)) ∧
      (r ≤ (alarmCount cs : Int) → NotAsleep k1 t) := by
  induction cs with
  | nil =>
    intro k r h hr _
    refine ⟨[], k, rfl, rfl, by simp, ?_, ?_⟩
    · intro _
      simpa [alarmCount] using h
    · intro hle
      simp [alarmCount] at hle
      omega
  | cons c cs ih =>
    intro k r h hr hcs
    have hcs1 : ∀ c1 ∈ cs, c1.sleeps t = false := fun c1 hc1 =>
      hcs c1 (List.mem_cons_of_mem _ hc1)
    cases c with
    | alarm =>
      by_cases hr1 : 1 < r
      · obtain ⟨woken, k1, h1, h2, h3⟩ := alarm_still_asleep k t r h hr1
        obtain ⟨log, k2, h4, h5, h6, h7, h8⟩ := ih k1 (r - 1) h3 (by omega) hcs1
        refine ⟨woken :: log, k2, by simp [runCalls, h1, h4], ?_, ?_, ?_, ?_⟩
        · rw [alarmCount_cons_alarm, List.length_cons, h5]
        · intro i w hw
          cases i with
          | zero =>
            simp only [List.getElem?_cons_zero, Option.some.injEq] at hw
            subst hw
            constructor
            · intro hm; exact absurd hm h2
            · intro he; simp at he; omega
          | succ j =>
            simp only [List.getElem?_cons_succ] at hw
            rw [h6 j w hw]
            push_cast
            omega
        · intro hlt
          rw [alarmCount_cons_alarm] at hlt ⊢
          push_cast at hlt ⊢
          have := h7 (by omega)
          rwa [show r - 1 - (alarmCount cs : Int) = r - ((alarmCount cs : Int) + 1) by ring] at this
        · intro hle
          rw [alarmCount_cons_alarm] at hle
          push_cast at hle
          exact h8 (by omega)
      · obtain ⟨woken, k1, h1, h2, h3⟩ := alarm_wakes k t r h (by omega)
        obtain ⟨log, k2, h4, h5, h6, h7⟩ := runCalls_not_asleep t cs k1 h3 hcs1
        refine ⟨woken :: log, k2, by simp [runCalls, h1, h4], ?_, ?_, ?_, ?_⟩
        · rw [alarmCount_cons_alarm, List.length_cons, h5]
        · intro i w hw
          cases i with
          | zero =>
            simp only [List.getElem?_cons_zero, Option.some.injEq] at hw
            subst hw
            constructor
            · intro _; simp; omega
            · intro _; exact h2
          | succ j =>
            simp only [List.getElem?_cons_succ] at hw
            constructor
            · intro hm; exact absurd hm (h6 w (List.getElem?_mem hw))
            · intro he; push_cast at he; omega
        · intro hlt
          rw [alarmCount_cons_alarm] at hlt
          push_cast at hlt
          omega
        · intro _
          exact h7
    | sleep u x now =>
      have hu : u ≠ t := by
        have := hcs (SchedCall.sleep u x now) (List.mem_cons_self _ _)
        simpa [SchedCall.sleeps] using this
      obtain ⟨k1, h1, h3⟩ := (other_call_asleep k t r h).1 u x now hu
      obtain ⟨log, k2, h4, h5, h6, h7, h8⟩ := ih k1 r h3 hr hcs1
      refine ⟨log, k2, by simp [runCalls, h1, h4], ?_, h6, ?_, ?_⟩
      · rw [alarmCount_cons_other (SchedCall.sleep u x now) cs rfl, h5]
      · rw [alarmCount_cons_other (SchedCall.sleep u x now) cs rfl]; exact h7
      · rw [alarmCount_cons_other (SchedCall.sleep u x now) cs rfl]; exact h8
    | ready u =>
      obtain ⟨k1, h1, h3⟩ := (other_call_asleep k t r h).2.1 u
      obtain ⟨log, k2, h4, h5, h6, h7, h8⟩ := ih k1 r h3 hr hcs1
      refine ⟨log, k2, by simp [runCalls, h1, h4], ?_, h6, ?_, ?_⟩
      · rw [alarmCount_cons_other (SchedCall.ready u) cs rfl, h5]
      · rw [alarmCount_cons_other (SchedCall.ready u) cs rfl]; exact h7
      · rw [alarmCount_cons_other (SchedCall.ready u) cs rfl]; exact h8
    | findNext =>
      obtain ⟨res, k1, h1, h3⟩ := (other_call_asleep k t r h).2.2
      obtain ⟨log, k2, h4, h5, h6, h7, h8⟩ := ih k1 r h3 hr hcs1
      refine ⟨log, k2, by simp [runCalls, h1, h4], ?_, h6, ?_, ?_⟩
      · rw [alarmCount_cons_other SchedCall.findNext cs rfl, h5]
      · rw [alarmCount_cons_other SchedCall.findNext cs rfl]; exact h7
      · rw [alarmCount_cons_other SchedCall.findNext cs rfl]; exact h8

/-- After `SetToSleep(x)` by a thread that was not asleep, the thread is asleep
with `x` ticks to go. -/
theorem SetToSleep_asleep (k : Kernel) (x : Int) (h : NotAsleep k k.currentThread) :
    ∃ k1, SetToSleep k x = Except.ok k1 ∧ SleepsFor k1 k.currentThread x := by
  obtain ⟨hl, hs, hall⟩ := h
  obtain ⟨k1, h1, h2, h3, h4⟩ := SetToSleep_sleepingList k x hl hs
  refine ⟨k1, h1, h2, h3, ?_, _, (h4 _).2 (Or.inl rfl), rfl⟩
  intro z hz hzt
  rcases (h4 z).1 hz with rfl | hz
  · rfl
  · exact absurd hzt (hall z hz)

/-- C4 (amended): with interrupts disabled, let the sleeping list be sorted on
entry and hold no entry of the current thread, and let the current thread call
`SetToSleep(n)` with `n > 0`.  Whatever scheduler calls `cs` follow
(`AlarmTicks`, `SetToSleep` by other threads, `ReadyToRun`, `FindNextToRun`, but
no `SetToSleep` by the thread itself), all of them return, and the `i`-th
`AlarmTicks()` call among them (counting from 1) hands the thread to
`ReadyToRun` exactly when `i = n`: none of the first `n - 1` calls re-admits it
and the `n`-th does.  Before the `n`-th call the thread is in `sleepingList`
with the remaining time, from the `n`-th call on it has no entry there. -/
theorem sleeper_readmitted_at_kth_alarm (k : Kernel) (n : Int) (cs : List SchedCall)
    (hl : k.level = IntStatus.IntOff)
    (hs : k.sleepingList.Pairwise (fun x y => x.sleepTime ≤ y.sleepTime))
    (hcur : ∀ x ∈ k.sleepingList, x.sleeper ≠ k.currentThread)
    (hn : 0 < n)
    (hcs : ∀ c ∈ cs, c.sleeps k.currentThread = false) :
    ∃ (k1 : Kernel) (log : List (List Thread)) (k2 : Kernel),
      SetToSleep k n = Except.ok k1 ∧
      runCalls k1 cs = Except.ok (log, k2) ∧
      log.length = alarmCount cs ∧
      (∀ (i : Nat) (w : List Thread), log[i]? = some w →
        (k.currentThread ∈ w ↔ (i : Int) + 1 = n)) ∧
      ((alarmCount cs : Int) < n →
        ({ sleeper := k.currentThread, sleepTime := n - alarmCount cs } : SleepingThread)
          ∈ k2.sleepingList) ∧
      (n ≤ (alarmCount cs : Int) → ∀ x ∈ k2.sleepingList, x.sleeper ≠ k.currentThread) := by
  obtain ⟨k1, h1, h2⟩ := SetToSleep_asleep k n ⟨hl, hs, hcur⟩
  obtain ⟨log, k2, h3, h4, h5, h6, h7⟩ := runCalls_asleep k.currentThread cs k1 n h2 hn hcs
  refine ⟨k1, log, k2, h1, h3, h4, h5, ?_, ?_⟩
  · intro hlt
    obtain ⟨_, _, hall, x, hx, hxt⟩ := h6 hlt
    have hx2 := hall x hx hxt
    have hx3 : x = { sleeper := k.currentThread, sleepTime := n - alarmCount cs } := by
      cases x
      simp only [SleepingThread.mk.injEq]
      exact ⟨hxt, hx2⟩
    rw [← hx3]
    exact hx
  · intro hle
    exact (h7 hle).2.2

/-- C5 (amended): alarm monotonicity.  With interrupts disabled, let the
sleeping list be sorted and hold no entry of thread `A` and none of thread `B`,
`A` and `B` being different threads.  Thread `B` (the current thread) calls
`SetToSleep(sleepB)`; the calls `cs1` follow (`AlarmTicks`, `ReadyToRun`,
`FindNextToRun`, `SetToSleep` by other threads), none of them a `SetToSleep` by
`A` or `B`; then `A` calls `SetToSleep(sleepA)` with
`0 < sleepA ≤ sleepB - (number of AlarmTicks calls in cs1)`, which is the
sleep time `B` has left; then the calls `cs2` follow, none of them a
`SetToSleep` by `A` or `B`.  All calls return, `B` is not re-admitted during
`cs1`, and whenever an `AlarmTicks()` call of `cs2` re-admits `B`, the same call
or an earlier call of `cs2` re-admits `A`. -/
theorem alarm_monotonicity (k : Kernel) (sleepA sleepB : Int) (A : Thread) (now : Int)
    (cs1 cs2 : List SchedCall)
    (hl : k.level = IntStatus.IntOff)
    (hs : k.sleepingList.Pairwise (fun x y => x.sleepTime ≤ y.sleepTime))
    (hB : ∀ x ∈ k.sleepingList, x.sleeper ≠ k.currentThread)
    (hA : ∀ x ∈ k.sleepingList, x.sleeper ≠ A)
    (hAB : A ≠ k.currentThread)
    (hpos : 0 < sleepA)
    (hrem : sleepA ≤ sleepB - (alarmCount cs1 : Int))
    (hcs1 : ∀ c ∈ cs1, c.sleeps k.currentThread = false ∧ c.sleeps A = false)
    (hcs2 : ∀ c ∈ cs2, c.sleeps k.currentThread = false ∧ c.sleeps A = false) :
    ∃ (k1 : Kernel) (log1 : List (List Thread)) (k2 k3 : Kernel) (log2 : List (List Thread))
      (k4 : Kernel),
      SetToSleep k sleepB = Except.ok k1 ∧
      runCalls k1 cs1 = Except.ok (log1, k2) ∧
      (∀ w ∈ log1, k.currentThread ∉ w) ∧
      SetToSleep { k2 with currentThread := A, userTicks := now } sleepA = Except.ok k3 ∧
      runCalls k3 cs2 = Except.ok (log2, k4) ∧
      ∀ (i : Nat) (w : List Thread), log2[i]? = some w → k.currentThread ∈ w →
        ∃ (j : Nat) (v : List Thread), j ≤ i ∧ log2[j]? = some v ∧ A ∈ v := by
  obtain ⟨k1, h1, hB1⟩ := SetToSleep_asleep k sleepB ⟨hl, hs, hB⟩
  have hA1 : NotAsleep k1 A := by
    obtain ⟨k1', h1', h2, h3, h4⟩ := SetToSleep_sleepingList k sleepB hl hs
    rw [h1] at h1'
    cases h1'
    refine ⟨h2, h3, ?_⟩
    intro z hz hzt
    rcases (h4 z).1 hz with rfl | hz
    · exact hAB hzt.symm
    · exact hA z hz hzt
  obtain ⟨log1, k2, h2, h2len, h2log, hB2, _⟩ :=
    runCalls_asleep k.currentThread cs1 k1 sleepB hB1 (by omega) (fun c hc => (hcs1 c hc).1)
  obtain ⟨log1', k2', h2', _, _, hA2⟩ :=
    runCalls_not_asleep A cs1 k1 hA1 (fun c hc => (hcs1 c hc).2)
  rw [h2] at h2'
  cases h2'
  have hB2' := hB2 (by omega)
  obtain ⟨k3, h3, hA3⟩ :=
    SetToSleep_asleep { k2 with currentThread := A, userTicks := now } sleepA hA2
  have hB3 : SleepsFor k3 k.currentThread (sleepB - alarmCount cs1) := by
    obtain ⟨k3', h3', hh⟩ := (other_call_asleep k2 k.currentThread _ hB2').1 A sleepA now hAB
    rw [h3] at h3'
    cases h3'
    exact hh
  obtain ⟨log2, k4, h4, h4len, hAlog, _, _⟩ :=
    runCalls_asleep A cs2 k3 sleepA hA3 hpos (fun c hc => (hcs2 c hc).2)
  obtain ⟨log2', k4', h4', _, hBlog, _, _⟩ :=
    runCalls_asleep k.currentThread cs2 k3 (sleepB - alarmCount cs1) hB3 (by omega)
      (fun c hc => (hcs2 c hc).1)
  rw [h4] at h4'
  cases h4'
  refine ⟨k1, log1, k2, k3, log2, k4, h1, h2, ?_, h3, h4, ?_⟩
  · intro w hw hm
    obtain ⟨i, hi, hiw⟩ := List.getElem_of_mem hw
    have h5 : log1[i]? = some w := by
      rw [List.getElem?_eq_some_iff]
      exact ⟨hi, hiw⟩
    have h6 := (h2log i w h5).1 hm
    rw [h2len] at hi
    omega
  · intro i w hiw hm
    have hi := (hBlog i w hiw).1 hm
    have hilt : i < log2.length := (List.getElem?_eq_some_iff.1 hiw).1
    have hj : (sleepA - 1).toNat < log2.length := by omega
    refine ⟨(sleepA - 1).toNat, log2[(sleepA - 1).toNat], by omega, ?_, ?_⟩
    · exact List.getElem?_eq_getElem hj
    · refine (hAlog _ _ (List.getElem?_eq_getElem hj)).2 ?_
      omega

/-- The law at scenario 3 of the spec: thread 1 calls `SetToSleep(5)` with an
empty sleeping list, thread 2 calls `SetToSleep(3)`, and five `AlarmTicks()`
calls follow. -/
theorem sleeper_readmitted_at_kth_alarm_witness :
    ∃ (k1 : Kernel) (log : List (List Thread)) (k2 : Kernel),
      SetToSleep (scenarioKernel SchedulerType.FCFS 1) 5 = Except.ok k1 ∧
      runCalls k1 sleepScenarioCalls = Except.ok (log, k2) ∧
      log.length = alarmCount sleepScenarioCalls ∧
      (∀ (i : Nat) (w : List Thread), log[i]? = some w →
        ((scenarioKernel SchedulerType.FCFS 1).currentThread ∈ w ↔ (i : Int) + 1 = 5)) ∧
      ((alarmCount sleepScenarioCalls : Int) < 5 →
        ({ sleeper := (scenarioKernel SchedulerType.FCFS 1).currentThread,
           sleepTime := 5 - alarmCount sleepScenarioCalls } : SleepingThread)
          ∈ k2.sleepingList) ∧
      ((5 : Int) ≤ (alarmCount sleepScenarioCalls : Int) →
        ∀ x ∈ k2.sleepingList, x.sleeper ≠ (scenarioKernel SchedulerType.FCFS 1).currentThread) :=
  sleeper_readmitted_at_kth_alarm (scenarioKernel SchedulerType.FCFS 1) 5 sleepScenarioCalls
    rfl List.Pairwise.nil (by decide) (by decide) (by decide)

/-- C4 fails as stated when the sleeping list holds an entry of the caller.
From the constructor's state the running thread 0 calls `SetToSleep(2)`,
`ReadyToRun(0)` is called while it sleeps, and `FindNextToRun` and `Run`
dispatch it: thread 0 is running, interrupts are off and the sleeping list, which
is sorted, still holds its entry with two ticks to go.  Thread 0 now calls
`SetToSleep(5)`: the first `AlarmTicks()` call re-admits nobody, and the second
one, not the fifth, hands thread 0 to `ReadyToRun`, while its entry with three
ticks to go stays in the sleeping list. -/
theorem sleeper_readmitted_at_kth_alarm_counterexample :
    staleSleeperKernel.currentThread = 0 ∧
    staleSleeperKernel.level = IntStatus.IntOff ∧
    staleSleeperKernel.status 0 = ThreadStatus.RUNNING ∧
    staleSleeperKernel.sleepingList = [{ sleeper := 0, sleepTime := 2 }] ∧
    staleSleeperKernel.sleepingList.Pairwise (fun x y => x.sleepTime ≤ y.sleepTime) ∧
    staleSleeperKernel.readyList = [] ∧
    sleepThenRun staleSleeperKernel 5 []
      = some ([], [{ sleeper := 0, sleepTime := 2 }, { sleeper := 0, sleepTime := 5 }], []) ∧
    sleepThenRun staleSleeperKernel 5 [SchedCall.alarm, SchedCall.alarm]
      = some ([[], [0]], [{ sleeper := 0, sleepTime := 3 }], [0]) := by
  decide

/-- Scenario 3 of the spec: `SetToSleep(5)` by thread 1, then `SetToSleep(3)` by
thread 2.  After three `AlarmTicks()` calls thread 2 is ready and thread 1 is
still asleep with `sleepTime = 2`; after two more thread 1 is ready. -/
theorem sleep_scenario :
    sleepThenRun (scenarioKernel SchedulerType.FCFS 1) 5
        [SchedCall.sleep 2 3 0, SchedCall.alarm, SchedCall.alarm, SchedCall.alarm]
      = some ([[], [], [2]], [{ sleeper := 1, sleepTime := 2 }], [2]) ∧
    sleepThenRun (scenarioKernel SchedulerType.FCFS 1) 5 sleepScenarioCalls
      = some ([[], [], [2], [], [1]], [], [2, 1]) := by
  decide

/-- The law at a run in which thread 1 calls `SetToSleep(5)` with an empty
sleeping list, two `AlarmTicks()` calls follow, thread 2 calls `SetToSleep(3)`
with `3 ≤ 5 - 2`, and three more `AlarmTicks()` calls follow. -/
theorem alarm_monotonicity_witness :
    (0 : Int) < 3 ∧ (3 : Int) ≤ 5 - (alarmCount [SchedCall.alarm, SchedCall.alarm] : Int) ∧
    ∃ (k1 : Kernel) (log1 : List (List Thread)) (k2 k3 : Kernel) (log2 : List (List Thread))
      (k4 : Kernel),
      SetToSleep (scenarioKernel SchedulerType.FCFS 1) 5 = Except.ok k1 ∧
      runCalls k1 [SchedCall.alarm, SchedCall.alarm] = Except.ok (log1, k2) ∧
      (∀ w ∈ log1, (scenarioKernel SchedulerType.FCFS 1).currentThread ∉ w) ∧
      SetToSleep { k2 with currentThread := 2, userTicks := 0 } 3 = Except.ok k3 ∧
      runCalls k3 [SchedCall.alarm, SchedCall.alarm, SchedCall.alarm] = Except.ok (log2, k4) ∧
      ∀ (i : Nat) (w : List Thread), log2[i]? = some w →
        (scenarioKernel SchedulerType.FCFS 1).currentThread ∈ w →
        ∃ (j : Nat) (v : List Thread), j ≤ i ∧ log2[j]? = some v ∧ 2 ∈ v :=
  ⟨by decide, by decide,
    alarm_monotonicity (scenarioKernel SchedulerType.FCFS 1) 3 5 2 0
      [SchedCall.alarm, SchedCall.alarm] [SchedCall.alarm, SchedCall.alarm, SchedCall.alarm]
      rfl List.Pairwise.nil (by decide) (by decide) (by decide) (by decide) (by decide)
      (by decide) (by decide)⟩

/-- Counterexample to C5 as stated: thread 1 calls `SetToSleep(5)`, four
`AlarmTicks()` calls follow during which it stays asleep, then thread 2 calls
`SetToSleep(3)` with `3 < 5`.  The next `AlarmTicks()` call re-admits thread 1;
thread 2 is re-admitted two calls later. -/
theorem alarm_monotonicity_counterexample :
    (0 : Int) < 3 ∧ (3 : Int) < 5 ∧
    sleepThenRun (scenarioKernel SchedulerType.FCFS 1) 5
        [SchedCall.alarm, SchedCall.alarm, SchedCall.alarm, SchedCall.alarm]
      = some ([[], [], [], []], [{ sleeper := 1, sleepTime := 1 }], []) ∧
    sleepThenRun (scenarioKernel SchedulerType.FCFS 1) 5
        [SchedCall.alarm, SchedCall.alarm, SchedCall.alarm, SchedCall.alarm,
         SchedCall.sleep 2 3 0, SchedCall.alarm, SchedCall.alarm, SchedCall.alarm]
      = some ([[], [], [], [], [1], [], [2]], [], [1, 2]) := by
  decide

/-! ## Theorems: the memory manager -/

theorem scanFirst_eq_some (p : Nat → Bool) (count : Nat) : ∀ (start i : Nat),
    scanFirst p count start = some i ↔
      (start ≤ i ∧ i < start + count ∧ p i = true ∧ ∀ j, start ≤ j → j < i → p j = false) := by
  induction count with
  | zero =>
    intro start i
    simp only [scanFirst]
    constructor
    · intro h
      cases h
    · rintro ⟨h1, h2, _⟩
      omega
  | succ n ih =>
    intro start i
    unfold scanFirst
    by_cases hp : p start = true
    · rw [if_pos hp]
      constructor
      · intro h
        cases h
        exact ⟨le_refl _, by omega, hp, fun j h1 h2 => by omega⟩
      · rintro ⟨h1, _, _, h4⟩
        by_cases he : start = i
        · rw [he]
        · have := h4 start (le_refl _) (by omega)
          rw [this] at hp
          cases hp
    · rw [if_neg hp, ih]
      have hp1 : p start = false := by simpa using hp
      constructor
      · rintro ⟨h1, h2, h3, h4⟩
        refine ⟨by omega, by omega, h3, ?_⟩
        intro j hj1 hj2
        by_cases he : j = start
        · rw [he]; exact hp1
        · exact h4 j (by omega) hj2
      · rintro ⟨h1, h2, h3, h4⟩
        have hne : start ≠ i := by
          intro he
          rw [he] at hp1
          rw [hp1] at h3
          cases h3
        exact ⟨by omega, by omega, h3, fun j hj1 hj2 => h4 j (by omega) hj2⟩

theorem scanFirst_eq_none (p : Nat → Bool) (count : Nat) : ∀ (start : Nat),
    scanFirst p count start = none ↔ ∀ j, start ≤ j → j < start + count → p j = false := by
  induction count with
  | zero =>
    intro start
    simp only [scanFirst, true_iff]
    intro j h1 h2
    omega
  | succ n ih =>
    intro start
    unfold scanFirst
    by_cases hp : p start = true
    · rw [if_pos hp]
      constructor
      · intro h
        cases h
      · intro h
        have := h start (le_refl _) (by omega)
        rw [this] at hp
        cases hp
    · rw [if_neg hp, ih]
      have hp1 : p start = false := by simpa using hp
      constructor
      · intro h j hj1 hj2
        by_cases he : j = start
        · rw [he]; exact hp1
        · exact h j (by omega) (by omega)
      · intro h j hj1 hj2
        exact h j (by omega) (by omega)

/-- When some index below `count` satisfies `p`, the scan from 0 finds the least. -/
theorem scanFirst_of_exists (p : Nat → Bool) (count : Nat) (h : ∃ j, j < count ∧ p j = true) :
    ∃ i, scanFirst p count 0 = some i ∧ i < count ∧ p i = true ∧ ∀ j, j < i → p j = false := by
  cases hs : scanFirst p count 0 with
  | none =>
    obtain ⟨j, hj, hpj⟩ := h
    have := (scanFirst_eq_none p count 0).1 hs j (Nat.zero_le _) (by omega)
    rw [this] at hpj
    cases hpj
  | some i =>
    obtain ⟨_, h2, h3, h4⟩ := (scanFirst_eq_some p count 0 i).1 hs
    exact ⟨i, rfl, by omega, h3, fun j hj => h4 j (Nat.zero_le _) hj⟩

theorem setEntry_same (t : Nat → FrameInfoEntry) (i : Nat) (e : FrameInfoEntry) :
    setEntry t i e i = e := by
  simp [setEntry]

theorem setEntry_other (t : Nat → FrameInfoEntry) (i j : Nat) (e : FrameInfoEntry)
    (h : j ≠ i) : setEntry t i e j = t j := by
  simp [setEntry, h]

/-- C9: in every memory state in which some frame below `NumPhysPages` has
`valid = true` and `lock = false`, `AcquirePage(space, vpn)` returns the lowest
index `i` of such a frame; afterwards `frameTable[i]` is in use with
`(space, vpn)`, `i` is the last element of `LRUstack` with the earlier elements
unchanged, and every other frame entry, every swap entry, every lock flag, main
memory, the swap disk and the page tables are unchanged. -/
theorem acquirePage_free_frame (c : Machine) (s : Memory) (space : AddrSpace) (vpn : Nat)
    (h : ∃ j, j < c.NumPhysPages ∧ (s.frameTable j).valid = true ∧ (s.frameTable j).lock = false) :
    ∃ (i : Nat) (s1 : Memory),
      AcquirePage c s space vpn = Except.ok (i, s1) ∧
      i < c.NumPhysPages ∧ (s.frameTable i).valid = true ∧ (s.frameTable i).lock = false ∧
      (∀ j, j < i → ¬ ((s.frameTable j).valid = true ∧ (s.frameTable j).lock = false)) ∧
      s1.frameTable i = { valid := false, lock := false, addrSpace := space, vpn := vpn } ∧
      s1.LRUstack = s.LRUstack ++ [i] ∧
      (∀ j, j ≠ i → s1.frameTable j = s.frameTable j) ∧
      s1.swapTable = s.swapTable ∧
      (∀ j, (s1.frameTable j).lock = (s.frameTable j).lock) ∧
      s1.mainMemory = s.mainMemory ∧ s1.swapDisk = s.swapDisk ∧
      s1.pageTableCalls = s.pageTableCalls := by
  have h1 : ∃ j, j < c.NumPhysPages ∧
      ((s.frameTable j).valid && !(s.frameTable j).lock) = true := by
    obtain ⟨j, hj, hv, hk⟩ := h
    exact ⟨j, hj, by simp [hv, hk]⟩
  obtain ⟨i, hi, hlt, hp, hmin⟩ := scanFirst_of_exists _ _ h1
  simp only [Bool.and_eq_true, Bool.not_eq_true'] at hp
  refine ⟨i, { s with
      frameTable := setEntry s.frameTable i
        { (s.frameTable i) with valid := false, addrSpace := space, vpn := vpn }
      LRUstack := s.LRUstack ++ [i] },
    by simp only [AcquirePage, hi], hlt, hp.1, hp.2, ?_, ?_, rfl, ?_, rfl, ?_, rfl, rfl, rfl⟩
  · intro j hj hc
    have := hmin j hj
    simp [hc.1, hc.2] at this
  · simp only [setEntry_same, hp.2]
  · intro j hj
    exact setEntry_other _ _ _ _ hj
  · intro j
    by_cases hj : j = i
    · subst hj
      simp only [setEntry_same]
    · simp only [setEntry_other _ _ _ _ hj]

theorem acquirePage_free_frame_witness :
    ∃ (i : Nat) (s1 : Memory),
      AcquirePage smallMachine lockedSectorMemory 2 5 = Except.ok (i, s1) ∧
      i < smallMachine.NumPhysPages ∧ (lockedSectorMemory.frameTable i).valid = true ∧
      (lockedSectorMemory.frameTable i).lock = false ∧
      (∀ j, j < i → ¬ ((lockedSectorMemory.frameTable j).valid = true ∧
        (lockedSectorMemory.frameTable j).lock = false)) ∧
      s1.frameTable i = { valid := false, lock := false, addrSpace := 2, vpn := 5 } ∧
      s1.LRUstack = lockedSectorMemory.LRUstack ++ [i] ∧
      (∀ j, j ≠ i → s1.frameTable j = lockedSectorMemory.frameTable j) ∧
      s1.swapTable = lockedSectorMemory.swapTable ∧
      (∀ j, (s1.frameTable j).lock = (lockedSectorMemory.frameTable j).lock) ∧
      s1.mainMemory = lockedSectorMemory.mainMemory ∧
      s1.swapDisk = lockedSectorMemory.swapDisk ∧
      s1.pageTableCalls = lockedSectorMemory.pageTableCalls :=
  acquirePage_free_frame smallMachine lockedSectorMemory 2 5 ⟨1, by decide, by decide, by decide⟩

/-- An instance of C9: frame 0 is in use, so `AcquirePage(2, 5)` claims frame 1
and appends it to the LRU stack `[0]`. -/
theorem acquirePage_scenario :
    acquireResult smallMachine lockedSectorMemory 2 5
      = Except.ok (1, { valid := false, lock := false, addrSpace := 2, vpn := 5 }, [0, 1]) := by
  rfl

theorem setEntry_setEntry (t : Nat → FrameInfoEntry) (i : Nat) (e1 e2 : FrameInfoEntry) :
    setEntry (setEntry t i e1) i e2 = setEntry t i e2 := by
  funext j
  by_cases h : j = i <;> simp [setEntry, h]

theorem setEntry_self (t : Nat → FrameInfoEntry) (i : Nat) (e : FrameInfoEntry)
    (h : t i = e) : setEntry t i e = t := by
  funext j
  by_cases hj : j = i
  · subst hj
    simp [setEntry, h]
  · simp [setEntry, hj]

/-- `KickVictim` never returns a frame: at the first unlocked frame of `LRUstack`
it reads the node of the iterator after it has removed that node, and when no
frame of `LRUstack` is unlocked it reads `victimPage` uninitialised. -/
theorem KickVictim_undefined (c : Machine) (s : Memory) :
    KickVictim c s = Except.error Fault.undefinedBehaviour := by
  unfold KickVictim
  cases s.LRUstack.find? (fun page => !(s.frameTable page).lock) <;> rfl

/-- The state in which `AcquirePage` leaves `s`, in closed form: with a free
unlocked frame it claims the lowest-numbered one, and without one it calls
`KickVictim`, which has no defined result. -/
theorem AcquirePage_eq (c : Machine) (s : Memory) (space : AddrSpace) (vpn : Nat) :
    AcquirePage c s space vpn =
      match scanFirst (fun i => (s.frameTable i).valid && !(s.frameTable i).lock)
          c.NumPhysPages 0 with
      | some g => Except.ok (g, claimed s g space vpn)
      | none => Except.error Fault.undefinedBehaviour := by
  cases hs : scanFirst (fun i => (s.frameTable i).valid && !(s.frameTable i).lock)
      c.NumPhysPages 0 with
  | some g =>
    have hp := ((scanFirst_eq_some _ _ _ _).1 hs).2.2.1
    simp only [Bool.and_eq_true, Bool.not_eq_true'] at hp
    simp only [AcquirePage, hs, claimed, hp.2]
  | none =>
    simp only [AcquirePage, hs, KickVictim_undefined]

/-- C6 at its failing input.  Scenario 6 of the spec (two frames, both in use,
`LRUstack = [0, 1]`, frame 0 locked) is the state `lockedFrameMemory`, in which
`AcquirePage` finds no free frame and calls `KickVictim`.  The claim has
`KickVictim` return frame 1 and leave `LRUstack = [0]`; the code removes the
node of frame 1 from `LRUstack` and then reads `iter.Item()` from that node, so
neither `KickVictim` nor the `AcquirePage` call around it has a defined result.
The same happens with no frame locked, in the state reached from the
constructor by `AcquirePage(1, 0)` and `AcquirePage(1, 1)`, at the call
`AcquirePage(1, 2)`, where the claim has frame 0 evicted; and in every other
state, since `KickVictim` never returns a frame. -/
theorem kickVictim_reads_removed_node :
    (List.range 2).map lockedFrameMemory.frameTable
      = [{ valid := false, lock := true, addrSpace := 1, vpn := 0 },
         { valid := false, lock := false, addrSpace := 1, vpn := 1 }] ∧
    lockedFrameMemory.LRUstack = [0, 1] ∧
    kickVictimResult smallMachine lockedFrameMemory
      = Except.error Fault.undefinedBehaviour ∧
    acquireResult smallMachine lockedFrameMemory 1 2
      = Except.error Fault.undefinedBehaviour ∧
    tablesAfter smallMachine freshMemory [MemCall.acquire 1 0, MemCall.acquire 1 1]
      = Except.ok
        ([{ valid := false, lock := false, addrSpace := 1, vpn := 0 },
          { valid := false, lock := false, addrSpace := 1, vpn := 1 }],
         [{ valid := true, lock := false, addrSpace := 0, vpn := 0 },
          { valid := true, lock := false, addrSpace := 0, vpn := 0 }], [0, 1]) ∧
    tablesAfter smallMachine freshMemory
        [MemCall.acquire 1 0, MemCall.acquire 1 1, MemCall.acquire 1 2]
      = Except.error Fault.undefinedBehaviour ∧
    ∀ (c : Machine) (s : Memory), KickVictim c s = Except.error Fault.undefinedBehaviour := by
  exact ⟨rfl, rfl, rfl, rfl, rfl, rfl, KickVictim_undefined⟩

/-- What an `AcquirePage` call that returns has done: it has claimed the first
free unlocked frame. -/
theorem AcquirePage_inv (c : Machine) (s : Memory) (space : AddrSpace) (vpn g : Nat)
    (s1 : Memory) (h : AcquirePage c s space vpn = Except.ok (g, s1)) :
    scanFirst (fun i => (s.frameTable i).valid && !(s.frameTable i).lock) c.NumPhysPages 0
      = some g ∧ s1 = claimed s g space vpn := by
  rw [AcquirePage_eq] at h
  cases hs : scanFirst (fun i => (s.frameTable i).valid && !(s.frameTable i).lock)
      c.NumPhysPages 0 with
  | some f =>
    rw [hs] at h
    simp only [Except.ok.injEq, Prod.mk.injEq] at h
    obtain ⟨h1, h2⟩ := h
    subst h1
    exact ⟨rfl, h2.symm⟩
  | none =>
    rw [hs] at h
    cases h

theorem claimed_frame (s : Memory) (g : Nat) (space : AddrSpace) (vpn : Nat) :
    (claimed s g space vpn).frameTable g
      = { valid := false, lock := false, addrSpace := space, vpn := vpn } := by
  simp [claimed, setEntry_same]

/-- The frame returned by `AcquirePage` is in use, unlocked and holds the page. -/
theorem AcquirePage_frame (c : Machine) (s : Memory) (space : AddrSpace) (vpn g : Nat)
    (s1 : Memory) (h : AcquirePage c s space vpn = Except.ok (g, s1)) :
    s1.frameTable g = { valid := false, lock := false, addrSpace := space, vpn := vpn } := by
  obtain ⟨_, h1⟩ := AcquirePage_inv c s space vpn g s1 h
  rw [h1]
  exact claimed_frame _ _ _ _

/-- The state `PageFaultHandler` returns. -/
theorem PageFaultHandler_eq (c : Machine) (s : Memory) (vpn sb g : Nat) (s1 : Memory)
    (hsb : scanFirst (fun i => !(s.swapTable i).valid &&
      decide ((s.swapTable i).addrSpace = s.currentSpace) && decide ((s.swapTable i).vpn = vpn))
      c.NumSectors 0 = some sb)
    (hl : (s.swapTable sb).lock = false)
    (ha : AcquirePage c s s.currentSpace vpn = Except.ok (g, s1))
    (hl1 : (s1.swapTable sb).lock = false) :
    PageFaultHandler c s vpn = Except.ok (g, faulted c s1 g sb s.currentSpace vpn) := by
  have hf := AcquirePage_frame c s s.currentSpace vpn g s1 ha
  have hf2 : setEntry s1.frameTable g
      { valid := false, lock := false, addrSpace := s.currentSpace, vpn := vpn }
      = s1.frameTable := setEntry_self _ _ _ hf
  simp only [PageFaultHandler, hsb, hl, ha, hf, hl1, setEntry_same, setEntry_setEntry,
    ReadSector, Bool.false_eq_true, if_false, hf2, faulted]

/-- What a `PageFaultHandler` call that returns has done. -/
theorem PageFaultHandler_inv (c : Machine) (s : Memory) (vpn g : Nat) (s3 : Memory)
    (h : PageFaultHandler c s vpn = Except.ok (g, s3)) :
    ∃ (sb : Nat) (s1 : Memory),
      scanFirst (fun i => !(s.swapTable i).valid &&
        decide ((s.swapTable i).addrSpace = s.currentSpace) &&
        decide ((s.swapTable i).vpn = vpn)) c.NumSectors 0 = some sb ∧
      (s.swapTable sb).lock = false ∧
      AcquirePage c s s.currentSpace vpn = Except.ok (g, s1) ∧
      (s1.swapTable sb).lock = false ∧
      s3 = faulted c s1 g sb s.currentSpace vpn := by
  cases hsb : scanFirst (fun i => !(s.swapTable i).valid &&
      decide ((s.swapTable i).addrSpace = s.currentSpace) && decide ((s.swapTable i).vpn = vpn))
      c.NumSectors 0 with
  | none => simp [PageFaultHandler, hsb] at h
  | some sb =>
    cases hl : (s.swapTable sb).lock with
    | true => simp [PageFaultHandler, hsb, hl] at h
    | false =>
      cases ha : AcquirePage c s s.currentSpace vpn with
      | error e => simp [PageFaultHandler, hsb, hl, ha] at h
      | ok r =>
        obtain ⟨f, s1⟩ := r
        have hf := AcquirePage_frame c s s.currentSpace vpn f s1 ha
        cases hl1 : (s1.swapTable sb).lock with
        | true => simp [PageFaultHandler, hsb, hl, ha, hf, hl1] at h
        | false =>
          rw [PageFaultHandler_eq c s vpn sb f s1 hsb hl ha hl1] at h
          simp only [Except.ok.injEq, Prod.mk.injEq] at h
          obtain ⟨h1, h2⟩ := h
          subst h1
          exact ⟨sb, s1, rfl, hl, rfl, hl1, h2.symm⟩

/-- The state `AcquirePage` returns when a free unlocked frame exists. -/
theorem AcquirePage_free_eq (c : Machine) (s : Memory) (space : AddrSpace) (vpn g : Nat)
    (hs : scanFirst (fun i => (s.frameTable i).valid && !(s.frameTable i).lock)
      c.NumPhysPages 0 = some g) :
    AcquirePage c s space vpn = Except.ok (g, claimed s g space vpn) := by
  rw [AcquirePage_eq, hs]

theorem getLast?_append_singleton (l : List Nat) (a : Nat) : (l ++ [a]).getLast? = some a := by
  simp

/-- C10 (amended).  If no in-use swap entry below `NumSectors` matches
`(space, vpn)`, `space` being the current thread's address space,
`PageFaultHandler(vpn)` aborts with a fatal assertion.  If no lock is set, some
frame below `NumPhysPages` is free, and `sb` is the lowest-numbered sector in
use for `(space, vpn)`, then `PageFaultHandler(vpn)` returns the lowest-numbered
free frame `f`, and afterwards `frameTable[f]` is in use, unlocked and holds
`(space, vpn)`, `f` is the last element of `LRUstack`, `swapTable[sb]` is free,
the last call made to an address space is `UpdatePhysPage(vpn, f)` on `space`,
and the bytes of frame `f` are the bytes sector `sb` had before the call. -/
theorem pageFaultHandler_swaps_in (c : Machine) (s : Memory) (vpn : Nat) :
    ((∀ j, j < c.NumSectors → ¬ ((s.swapTable j).valid = false ∧
        (s.swapTable j).addrSpace = s.currentSpace ∧ (s.swapTable j).vpn = vpn)) →
      PageFaultHandler c s vpn = Except.error Fault.assertion) ∧
    (∀ sb : Nat, NoLock c s →
      (∃ j, j < c.NumPhysPages ∧ (s.frameTable j).valid = true) →
      sb < c.NumSectors →
      ((s.swapTable sb).valid = false ∧ (s.swapTable sb).addrSpace = s.currentSpace ∧
        (s.swapTable sb).vpn = vpn) →
      (∀ j, j < sb → ¬ ((s.swapTable j).valid = false ∧
        (s.swapTable j).addrSpace = s.currentSpace ∧ (s.swapTable j).vpn = vpn)) →
      ∃ (f : Nat) (s1 : Memory),
        PageFaultHandler c s vpn = Except.ok (f, s1) ∧
        f < c.NumPhysPages ∧
        (s.frameTable f).valid = true ∧
        (∀ j, j < f → (s.frameTable j).valid = false) ∧
        s1.frameTable f
          = { valid := false, lock := false, addrSpace := s.currentSpace, vpn := vpn } ∧
        s1.LRUstack.getLast? = some f ∧
        (s1.swapTable sb).valid = true ∧
        s1.pageTableCalls.getLast? = some (PageTableCall.UpdatePhysPage s.currentSpace vpn f) ∧
        ∀ o, o < c.PageSize → s1.mainMemory (f * c.PageSize + o) = s.swapDisk sb o) := by
  constructor
  · intro hnone
    have hs : scanFirst (fun i => !(s.swapTable i).valid &&
        decide ((s.swapTable i).addrSpace = s.currentSpace) &&
        decide ((s.swapTable i).vpn = vpn)) c.NumSectors 0 = none := by
      rw [scanFirst_eq_none]
      intro j _ hj
      have := hnone j (by omega)
      cases hv : (s.swapTable j).valid with
      | true => simp
      | false =>
        simp only [hv, true_and] at this
        simp only [Bool.not_false, Bool.true_and, Bool.and_eq_false_imp, decide_eq_true_eq,
          decide_eq_false_iff_not]
        exact fun h1 h2 => this ⟨h1, h2⟩
    simp only [PageFaultHandler, hs]
  · intro sb hno hfree hsb hin hfirst
    have hscan : scanFirst (fun i => !(s.swapTable i).valid &&
        decide ((s.swapTable i).addrSpace = s.currentSpace) &&
        decide ((s.swapTable i).vpn = vpn)) c.NumSectors 0 = some sb := by
      rw [scanFirst_eq_some]
      refine ⟨Nat.zero_le _, by omega, by simp [hin.1, hin.2.1, hin.2.2], ?_⟩
      intro j _ hj
      have := hfirst j hj
      cases hv : (s.swapTable j).valid with
      | true => simp
      | false =>
        simp only [hv, true_and] at this
        simp only [Bool.not_false, Bool.true_and, Bool.and_eq_false_imp, decide_eq_true_eq,
          decide_eq_false_iff_not]
        exact fun h1 h2 => this ⟨h1, h2⟩
    have hex : ∃ j, j < c.NumPhysPages ∧
        ((s.frameTable j).valid && !(s.frameTable j).lock) = true := by
      obtain ⟨j, hj, hv⟩ := hfree
      exact ⟨j, hj, by simp [hv, hno.1 j hj]⟩
    obtain ⟨g, hg, hglt, hgp, hgmin⟩ := scanFirst_of_exists _ _ hex
    simp only [Bool.and_eq_true, Bool.not_eq_true'] at hgp
    have ha := AcquirePage_free_eq c s s.currentSpace vpn g hg
    have hl1 : ((claimed s g s.currentSpace vpn).swapTable sb).lock = false := hno.2 sb hsb
    refine ⟨g, _, PageFaultHandler_eq c s vpn sb g _ hscan (hno.2 sb hsb) ha hl1, hglt,
      hgp.1, ?_, ?_, ?_, ?_, ?_, ?_⟩
    · intro j hj
      have := hgmin j hj
      have hjl := hno.1 j (by omega)
      cases hv : (s.frameTable j).valid with
      | false => rfl
      | true => simp [hv, hjl] at this
    · simp [faulted, claimed, setEntry_same]
    · simp [faulted, claimed]
    · simp [faulted, setEntry_same]
    · simp [faulted]
    · intro o ho
      have h1 : g * c.PageSize ≤ g * c.PageSize + o ∧
          g * c.PageSize + o < g * c.PageSize + c.PageSize := by omega
      simp only [faulted, h1, and_self, if_true, Nat.add_sub_cancel_left]
      rfl

theorem halfMemory_nolock : NoLock smallMachine halfMemory := by
  constructor <;> decide

theorem pageFaultHandler_swaps_in_witness :
    ∃ (f : Nat) (s1 : Memory),
      PageFaultHandler smallMachine halfMemory 0 = Except.ok (f, s1) ∧
      f < smallMachine.NumPhysPages ∧
      (halfMemory.frameTable f).valid = true ∧
      (∀ j, j < f → (halfMemory.frameTable j).valid = false) ∧
      s1.frameTable f
        = { valid := false, lock := false, addrSpace := halfMemory.currentSpace, vpn := 0 } ∧
      s1.LRUstack.getLast? = some f ∧
      (s1.swapTable 0).valid = true ∧
      s1.pageTableCalls.getLast?
        = some (PageTableCall.UpdatePhysPage halfMemory.currentSpace 0 f) ∧
      ∀ o, o < smallMachine.PageSize →
        s1.mainMemory (f * smallMachine.PageSize + o) = halfMemory.swapDisk 0 o :=
  (pageFaultHandler_swaps_in smallMachine halfMemory 0).2 0 halfMemory_nolock
    ⟨1, by decide, by decide⟩ (by decide) ⟨by decide, by decide, by decide⟩ (by decide)

/-- An instance of C10: frame 0 in use, frame 1 free, page `(1, 0)` in sector 0.
The fault claims frame 1, returns it with the bytes `0, 1, 2, 3` of sector 0 and
frees sector 0; without a matching sector the call aborts. -/
theorem pageFaultHandler_scenario :
    faultResult smallMachine halfMemory 0 0 = Except.ok (1, true, [0, 1, 2, 3]) ∧
    sectorBytes smallMachine halfMemory 0 = [0, 1, 2, 3] ∧
    faultResult smallMachine halfMemory 7 0 = Except.error Fault.assertion := by
  refine ⟨rfl, rfl, rfl⟩

/-- Counterexample to C10 as stated.  First state: both frames free, empty LRU
stack, no lock set, and the sectors 0 and 1 both in use for page `(1, 0)` of the
current address space; all the invariants of section 3 hold and the page is in
use in sector 1 and in no frame.  `PageFaultHandler(0)` takes the first match,
sector 0: afterwards sector 1 is still in use and the frame returned holds the
bytes `0, 1, 2, 3` of sector 0, not the bytes `10, 11, 12, 13` of sector 1.
Second state: both frames in use for the pages `(1, 1)` and `(1, 2)`,
`LRUstack = [0, 1]`, no lock set, page `(1, 0)` in sector 0 and in no frame, and
sector 1 free, so the state has a free swap sector.  `PageFaultHandler(0)` has
to evict a frame and ends in the read of `KickVictim` from the removed node. -/
theorem pageFaultHandler_counterexample :
    twoCopiesMemory.LRUstack = [] ∧
    (∀ j, j < smallMachine.NumPhysPages →
      (twoCopiesMemory.frameTable j).valid = true ∧ (twoCopiesMemory.frameTable j).lock = false) ∧
    (∀ j, j < smallMachine.NumSectors → (twoCopiesMemory.swapTable j).lock = false) ∧
    twoCopiesMemory.swapTable 1
      = { valid := false, lock := false, addrSpace := twoCopiesMemory.currentSpace, vpn := 0 } ∧
    faultResult smallMachine twoCopiesMemory 0 1 = Except.ok (0, false, [0, 1, 2, 3]) ∧
    sectorBytes smallMachine twoCopiesMemory 1 = [10, 11, 12, 13] ∧
    swappedMemory.LRUstack = [0, 1] ∧
    (List.range 2).map swappedMemory.frameTable
      = [{ valid := false, lock := false, addrSpace := 1, vpn := 1 },
         { valid := false, lock := false, addrSpace := 1, vpn := 2 }] ∧
    (List.range 2).map swappedMemory.swapTable
      = [{ valid := false, lock := false, addrSpace := swappedMemory.currentSpace, vpn := 0 },
         { valid := true, lock := false, addrSpace := 0, vpn := 0 }] ∧
    faultResult smallMachine swappedMemory 0 0 = Except.error Fault.undefinedBehaviour := by
  refine ⟨rfl, by decide, by decide, rfl, rfl, rfl, rfl, rfl, rfl, rfl⟩

/-- C7 at its failing input: scenario 5 of the spec.  The constructor state
followed by `AcquirePage(1, 0)` and `AcquirePage(1, 1)` has `vpn 0` in frame 0
and `vpn 1` in frame 1, `LRUstack = [0, 1]` and both sectors free: the state
`pagedMemory`.  The claim has `AcquirePage(1, 2)` evict `vpn 0` to a sector and
the fault on `vpn 0` bring its bytes back.  In the code `AcquirePage(1, 2)`
finds no free frame and calls `KickVictim`, which removes the node of frame 0
from `LRUstack` and then reads `iter.Item()` from that node: the run has no
defined result, no sector is written and no frame is returned. -/
theorem round_trip_reads_removed_node :
    tablesAfter smallMachine freshMemory [MemCall.acquire 1 0, MemCall.acquire 1 1]
      = Except.ok
        ((List.range 2).map pagedMemory.frameTable,
         (List.range 2).map pagedMemory.swapTable, pagedMemory.LRUstack) ∧
    (List.range 2).map pagedMemory.frameTable
      = [{ valid := false, lock := false, addrSpace := 1, vpn := 0 },
         { valid := false, lock := false, addrSpace := 1, vpn := 1 }] ∧
    (List.range 2).map pagedMemory.swapTable
      = [{ valid := true, lock := false, addrSpace := 0, vpn := 0 },
         { valid := true, lock := false, addrSpace := 0, vpn := 0 }] ∧
    pagedMemory.LRUstack = [0, 1] ∧
    frameBytes smallMachine pagedMemory 0 = [100, 101, 102, 103] ∧
    roundTrip smallMachine pagedMemory 1 2 [] 1 0 = Except.error Fault.undefinedBehaviour ∧
    roundTrip smallMachine freshMemory 1 0
        [MemCall.acquire 1 1, MemCall.acquire 1 2] 1 0
      = Except.error Fault.undefinedBehaviour := by
  refine ⟨rfl, rfl, rfl, rfl, rfl, rfl, rfl⟩

/-- C8 at its failing input: after `AcquirePage(1, 0)` and `ReleasePage(1, 0)`
frame 0 is free but still recorded with `(1, 0)`, and no frame in use holds
`(1, 0)`.  `TransAddr(space 1, virtAddr 2)` returns the address `0 · PageSize + 2`
in the free frame without calling `PageFaultHandler`; had it called
`PageFaultHandler(0)`, the call would have aborted, the page being in no sector. -/
theorem transAddr_uses_free_frame :
    releasedMemory.frameTable 0 = { valid := true, lock := false, addrSpace := 1, vpn := 0 } ∧
    releasedMemory.frameTable 1 = { valid := true, lock := false, addrSpace := 0, vpn := 0 } ∧
    transAddrResult smallMachine releasedMemory 1 2 = Except.ok (2, false) ∧
    faultResult smallMachine releasedMemory 0 0 = Except.error Fault.assertion := by
  refine ⟨rfl, rfl, rfl, rfl⟩

theorem swappedMemory_lru : LruMembers smallMachine swappedMemory := by
  intro p
  constructor
  · intro h
    have h1 : p = 0 ∨ p = 1 := by simpa [swappedMemory, memoryOf] using h
    rcases h1 with rfl | rfl <;> decide
  · rintro ⟨h1, _⟩
    have h2 : p < 2 := h1
    interval_cases p <;> decide

theorem swappedMemory_nolock : NoLock smallMachine swappedMemory := by
  constructor <;> decide

theorem swappedMemory_lruInv : LruInv smallMachine swappedMemory :=
  ⟨by decide, swappedMemory_lru⟩

theorem fullMemory_lruInv : LruInv smallMachine fullMemory := by
  refine ⟨by decide, ?_⟩
  intro p
  constructor
  · intro h
    have h1 : p = 0 ∨ p = 1 := by simpa [fullMemory, memoryOf] using h
    rcases h1 with rfl | rfl <;> decide
  · rintro ⟨h1, _⟩
    have h2 : p < 2 := h1
    interval_cases p <;> decide

theorem fullMemory_nolock : NoLock smallMachine fullMemory := by
  constructor <;> decide

/-- C15 at its failing inputs, on a machine with two frames and two sectors.
In `swappedMemory` the lruStack invariant holds, no lock is set, both frames
are in use and sector 1 is free: the claim has `AcquirePage(1, 3)` return a
frame.  In `fullMemory` the lruStack invariant holds, no lock is set, and every
frame and every sector is in use: the claim has `AcquirePage(1, 4)` abort with a
fatal assertion.  In both states, and in the state reached from the constructor
by `AcquirePage(1, 0)` and `AcquirePage(1, 1)`, `AcquirePage` finds no free
frame and calls `KickVictim`, which reads `iter.Item()` from the node it has
just removed from `LRUstack`: the call neither returns a frame nor reaches the
`ASSERT(FALSE)` of `KickVictim`.  In general `AcquirePage` returns exactly when
a free unlocked frame exists, and has no defined result otherwise. -/
theorem acquirePage_undefined_without_free_frame :
    LruInv smallMachine swappedMemory ∧ NoLock smallMachine swappedMemory ∧
    (∀ j, j < 2 → (swappedMemory.frameTable j).valid = false) ∧
    (swappedMemory.swapTable 1).valid = true ∧
    acquireResult smallMachine swappedMemory 1 3 = Except.error Fault.undefinedBehaviour ∧
    LruInv smallMachine fullMemory ∧ NoLock smallMachine fullMemory ∧
    (∀ j, j < 2 → (fullMemory.frameTable j).valid = false) ∧
    (∀ j, j < 2 → (fullMemory.swapTable j).valid = false) ∧
    acquireResult smallMachine fullMemory 1 4 = Except.error Fault.undefinedBehaviour ∧
    tablesAfter smallMachine freshMemory
        [MemCall.acquire 1 0, MemCall.acquire 1 1, MemCall.acquire 1 2]
      = Except.error Fault.undefinedBehaviour ∧
    ∀ (c : Machine) (s : Memory) (space : AddrSpace) (vpn : Nat),
      AcquirePage c s space vpn =
        match scanFirst (fun i => (s.frameTable i).valid && !(s.frameTable i).lock)
            c.NumPhysPages 0 with
        | some g => Except.ok (g, claimed s g space vpn)
        | none => Except.error Fault.undefinedBehaviour :=
  ⟨swappedMemory_lruInv, swappedMemory_nolock, by decide, rfl, rfl,
   fullMemory_lruInv, fullMemory_nolock, by decide, by decide, rfl, rfl, AcquirePage_eq⟩

theorem Memory.eq_of_fields (a b : Memory) (h1 : a.LRUstack = b.LRUstack)
    (h2 : a.frameTable = b.frameTable) (h3 : a.swapTable = b.swapTable)
    (h4 : a.mainMemory = b.mainMemory) (h5 : a.swapDisk = b.swapDisk)
    (h6 : a.currentSpace = b.currentSpace) (h7 : a.pageTableCalls = b.pageTableCalls) :
    a = b := by
  cases a
  cases b
  simp only at h1 h2 h3 h4 h5 h6 h7
  simp only [h1, h2, h3, h4, h5, h6, h7]

/-- What the first loop of `ReleasePage` does: every frame of the range on
which the page is recorded is marked free and removed from the LRU stack;
nothing else changes. -/
theorem ReleasePage_frames_full (space : AddrSpace) (vpn : Nat) (count : Nat) :
    ∀ (start : Nat) (s : Memory),
      (ReleasePage.frames space vpn count start s).swapTable = s.swapTable ∧
      (ReleasePage.frames space vpn count start s).swapDisk = s.swapDisk ∧
      (ReleasePage.frames space vpn count start s).mainMemory = s.mainMemory ∧
      (ReleasePage.frames space vpn count start s).currentSpace = s.currentSpace ∧
      (ReleasePage.frames space vpn count start s).pageTableCalls = s.pageTableCalls ∧
      (∀ g, (ReleasePage.frames space vpn count start s).frameTable g =
        if start ≤ g ∧ g < start + count ∧
            (s.frameTable g).addrSpace = space ∧ (s.frameTable g).vpn = vpn
        then { (s.frameTable g) with valid := true } else s.frameTable g) ∧
      (ReleasePage.frames space vpn count start s).LRUstack =
        s.LRUstack.filter (fun g => !(decide (start ≤ g) && decide (g < start + count) &&
          decide ((s.frameTable g).addrSpace = space) && decide ((s.frameTable g).vpn = vpn))) := by
  induction count with
  | zero =>
    intro start s
    refine ⟨rfl, rfl, rfl, rfl, rfl, ?_, ?_⟩
    · intro g
      rw [if_neg (by omega)]
      rfl
    · have : (fun g => !(decide (start ≤ g) && decide (g < start + 0) &&
          decide ((s.frameTable g).addrSpace = space) && decide ((s.frameTable g).vpn = vpn)))
          = fun _ => true := by
        funext g
        have h2 : decide (g < start + 0) = false ∨ decide (start ≤ g) = false := by
          by_cases h : start ≤ g
          · left
            exact decide_eq_false (by omega)
          · right
            exact decide_eq_false h
        rcases h2 with h2 | h2 <;> simp only [h2, Bool.and_false, Bool.false_and, Bool.not_false]
      rw [this, List.filter_true]
      rfl
  | succ n ih =>
    intro start s
    unfold ReleasePage.frames
    split_ifs with h
    · obtain ⟨h1, h2, h3, h4, h5, h6, h7⟩ := ih (start + 1)
        { s with
          frameTable := setEntry s.frameTable start { (s.frameTable start) with valid := true }
          LRUstack := List.Remove start s.LRUstack }
      refine ⟨h1, h2, h3, h4, h5, ?_, ?_⟩
      · intro g
        rw [h6 g]
        by_cases hg : g = start
        · subst hg
          simp only [setEntry_same]
          rw [if_neg (by omega), if_pos ⟨le_refl _, by omega, h.1, h.2⟩]
        · simp only [setEntry_other _ _ _ _ hg]
          by_cases hc : (s.frameTable g).addrSpace = space ∧ (s.frameTable g).vpn = vpn
          · by_cases hr : start + 1 ≤ g ∧ g < start + 1 + n
            · rw [if_pos ⟨hr.1, hr.2, hc⟩, if_pos ⟨by omega, by omega, hc⟩]
            · rw [if_neg (fun hx => hr ⟨hx.1, hx.2.1⟩),
                if_neg (fun hx => hr ⟨by omega, by omega⟩)]
          · rw [if_neg (fun hx => hc hx.2.2), if_neg (fun hx => hc hx.2.2)]
      · rw [h7]
        simp only [List.Remove, List.filter_filter]
        apply List.filter_congr
        intro g _
        by_cases hg : g = start
        · subst hg
          simp [h.1, h.2]
        · have e1 : (setEntry s.frameTable start
              { (s.frameTable start) with valid := true } g) = s.frameTable g :=
            setEntry_other _ _ _ _ hg
          simp only [e1]
          have e2 : (g != start) = true := by simpa using hg
          rw [e2, Bool.and_true]
          have e3 : decide (start + 1 ≤ g) = decide (start ≤ g) := by
            apply decide_eq_decide.2
            omega
          have e4 : decide (g < start + 1 + n) = decide (g < start + (n + 1)) := by
            apply decide_eq_decide.2
            omega
          rw [e3, e4]
    · obtain ⟨h1, h2, h3, h4, h5, h6, h7⟩ := ih (start + 1) s
      refine ⟨h1, h2, h3, h4, h5, ?_, ?_⟩
      · intro g
        rw [h6 g]
        by_cases hg : g = start
        · subst hg
          rw [if_neg (by omega), if_neg (fun hx => h hx.2.2)]
        · by_cases hc : (s.frameTable g).addrSpace = space ∧ (s.frameTable g).vpn = vpn
          · by_cases hr : start + 1 ≤ g ∧ g < start + 1 + n
            · rw [if_pos ⟨hr.1, hr.2, hc⟩, if_pos ⟨by omega, by omega, hc⟩]
            · rw [if_neg (fun hx => hr ⟨hx.1, hx.2.1⟩),
                if_neg (fun hx => hr ⟨by omega, by omega⟩)]
          · rw [if_neg (fun hx => hc hx.2.2), if_neg (fun hx => hc hx.2.2)]
      · rw [h7]
        apply List.filter_congr
        intro g _
        by_cases hg : g = start
        · subst hg
          have : ¬ ((s.frameTable g).addrSpace = space ∧ (s.frameTable g).vpn = vpn) := h
          by_cases ha : (s.frameTable g).addrSpace = space
          · have hb : ¬ (s.frameTable g).vpn = vpn := fun hb => this ⟨ha, hb⟩
            simp [hb]
          · simp [ha]
        · have e3 : decide (start + 1 ≤ g) = decide (start ≤ g) := by
            apply decide_eq_decide.2
            omega
          have e4 : decide (g < start + 1 + n) = decide (g < start + (n + 1)) := by
            apply decide_eq_decide.2
            omega
          rw [e3, e4]

/-- What the second loop of `ReleasePage` does: every sector of the range on
which the page is recorded is marked free; nothing else changes. -/
theorem ReleasePage_sectors_full (space : AddrSpace) (vpn : Nat) (count : Nat) :
    ∀ (start : Nat) (s : Memory),
      (ReleasePage.sectors space vpn count start s).frameTable = s.frameTable ∧
      (ReleasePage.sectors space vpn count start s).LRUstack = s.LRUstack ∧
      (ReleasePage.sectors space vpn count start s).swapDisk = s.swapDisk ∧
      (ReleasePage.sectors space vpn count start s).mainMemory = s.mainMemory ∧
      (ReleasePage.sectors space vpn count start s).currentSpace = s.currentSpace ∧
      (ReleasePage.sectors space vpn count start s).pageTableCalls = s.pageTableCalls ∧
      (∀ g, (ReleasePage.sectors space vpn count start s).swapTable g =
        if start ≤ g ∧ g < start + count ∧
            (s.swapTable g).addrSpace = space ∧ (s.swapTable g).vpn = vpn
        then { (s.swapTable g) with valid := true } else s.swapTable g) := by
  induction count with
  | zero =>
    intro start s
    refine ⟨rfl, rfl, rfl, rfl, rfl, rfl, ?_⟩
    intro g
    rw [if_neg (by omega)]
    rfl
  | succ n ih =>
    intro start s
    unfold ReleasePage.sectors
    split_ifs with h
    · obtain ⟨h1, h2, h3, h4, h5, h6, h7⟩ := ih (start + 1)
        { s with
          swapTable := setEntry s.swapTable start { (s.swapTable start) with valid := true } }
      refine ⟨h1, h2, h3, h4, h5, h6, ?_⟩
      intro g
      rw [h7 g]
      by_cases hg : g = start
      · subst hg
        simp only [setEntry_same]
        rw [if_neg (by omega), if_pos ⟨le_refl _, by omega, h.1, h.2⟩]
      · simp only [setEntry_other _ _ _ _ hg]
        by_cases hc : (s.swapTable g).addrSpace = space ∧ (s.swapTable g).vpn = vpn
        · by_cases hr : start + 1 ≤ g ∧ g < start + 1 + n
          · rw [if_pos ⟨hr.1, hr.2, hc⟩, if_pos ⟨by omega, by omega, hc⟩]
          · rw [if_neg (fun hx => hr ⟨hx.1, hx.2.1⟩),
              if_neg (fun hx => hr ⟨by omega, by omega⟩)]
        · rw [if_neg (fun hx => hc hx.2.2), if_neg (fun hx => hc hx.2.2)]
    · obtain ⟨h1, h2, h3, h4, h5, h6, h7⟩ := ih (start + 1) s
      refine ⟨h1, h2, h3, h4, h5, h6, ?_⟩
      intro g
      rw [h7 g]
      by_cases hg : g = start
      · subst hg
        rw [if_neg (by omega), if_neg (fun hx => h hx.2.2)]
      · by_cases hc : (s.swapTable g).addrSpace = space ∧ (s.swapTable g).vpn = vpn
        · by_cases hr : start + 1 ≤ g ∧ g < start + 1 + n
          · rw [if_pos ⟨hr.1, hr.2, hc⟩, if_pos ⟨by omega, by omega, hc⟩]
          · rw [if_neg (fun hx => hr ⟨hx.1, hx.2.1⟩),
              if_neg (fun hx => hr ⟨by omega, by omega⟩)]
        · rw [if_neg (fun hx => hc hx.2.2), if_neg (fun hx => hc hx.2.2)]

/-- The state `ReleasePage` returns. -/
theorem ReleasePage_eq (c : Machine) (s : Memory) (space : AddrSpace) (vpn : Nat) :
    ReleasePage c s space vpn = released c s space vpn := by
  obtain ⟨a1, a2, a3, a4, a5, a6, a7⟩ :=
    ReleasePage_frames_full space vpn c.NumPhysPages 0 s
  obtain ⟨b1, b2, b3, b4, b5, b6, b7⟩ :=
    ReleasePage_sectors_full space vpn c.NumSectors 0
      (ReleasePage.frames space vpn c.NumPhysPages 0 s)
  apply Memory.eq_of_fields
  · show (ReleasePage.sectors space vpn c.NumSectors 0 _).LRUstack = _
    rw [b2, a7]
    simp only [released, Nat.zero_le, decide_True, Bool.true_and, Nat.zero_add]
  · show (ReleasePage.sectors space vpn c.NumSectors 0 _).frameTable = _
    rw [b1]
    funext g
    rw [a6 g]
    simp only [released, Nat.zero_le, true_and, Nat.zero_add]
  · show (ReleasePage.sectors space vpn c.NumSectors 0 _).swapTable = _
    funext j
    rw [b7 j, a1]
    simp only [released, Nat.zero_le, true_and, Nat.zero_add]
  · show (ReleasePage.sectors space vpn c.NumSectors 0 _).mainMemory = _
    rw [b4, a3]
    rfl
  · show (ReleasePage.sectors space vpn c.NumSectors 0 _).swapDisk = _
    rw [b3, a2]
    rfl
  · show (ReleasePage.sectors space vpn c.NumSectors 0 _).currentSpace = _
    rw [b5, a4]
    rfl
  · show (ReleasePage.sectors space vpn c.NumSectors 0 _).pageTableCalls = _
    rw [b6, a5]
    rfl

theorem released_idem (c : Machine) (s : Memory) (space : AddrSpace) (vpn : Nat) :
    released c (released c s space vpn) space vpn = released c s space vpn := by
  apply Memory.eq_of_fields
  · show List.filter _ (List.filter _ s.LRUstack) = List.filter _ s.LRUstack
    rw [List.filter_filter]
    apply List.filter_congr
    intro g _
    show (!(decide (g < c.NumPhysPages) &&
        decide (((released c s space vpn).frameTable g).addrSpace = space) &&
        decide (((released c s space vpn).frameTable g).vpn = vpn)) &&
      !(decide (g < c.NumPhysPages) && decide ((s.frameTable g).addrSpace = space) &&
        decide ((s.frameTable g).vpn = vpn))) = _
    have e1 : ((released c s space vpn).frameTable g).addrSpace = (s.frameTable g).addrSpace := by
      simp only [released]
      split_ifs <;> rfl
    have e2 : ((released c s space vpn).frameTable g).vpn = (s.frameTable g).vpn := by
      simp only [released]
      split_ifs <;> rfl
    rw [e1, e2, Bool.and_self]
  · funext g
    show (if g < c.NumPhysPages ∧ ((released c s space vpn).frameTable g).addrSpace = space ∧
        ((released c s space vpn).frameTable g).vpn = vpn
      then { ((released c s space vpn).frameTable g) with valid := true }
      else (released c s space vpn).frameTable g) = (released c s space vpn).frameTable g
    split_ifs with h
    · have : (released c s space vpn).frameTable g = { (s.frameTable g) with valid := true } := by
        simp only [released]
        split_ifs with h2
        · rfl
        · exfalso
          apply h2
          refine ⟨h.1, ?_, ?_⟩
          · have := h.2.1
            simp only [released, if_neg h2] at this
            exact this
          · have := h.2.2
            simp only [released, if_neg h2] at this
            exact this
      rw [this]
    · rfl
  · funext g
    show (if g < c.NumSectors ∧ ((released c s space vpn).swapTable g).addrSpace = space ∧
        ((released c s space vpn).swapTable g).vpn = vpn
      then { ((released c s space vpn).swapTable g) with valid := true }
      else (released c s space vpn).swapTable g) = (released c s space vpn).swapTable g
    split_ifs with h
    · have : (released c s space vpn).swapTable g = { (s.swapTable g) with valid := true } := by
        simp only [released]
        split_ifs with h2
        · rfl
        · exfalso
          apply h2
          refine ⟨h.1, ?_, ?_⟩
          · have := h.2.1
            simp only [released, if_neg h2] at this
            exact this
          · have := h.2.2
            simp only [released, if_neg h2] at this
            exact this
      rw [this]
    · rfl
  · rfl
  · rfl
  · rfl
  · rfl

/-- C11: for every memory state satisfying the lruStack invariant and every
`(space, vpn)`: after `ReleasePage(space, vpn)` no in-use frame and no in-use
swap entry holds `(space, vpn)`; every frame that held it has been removed from
`LRUstack`; every frame entry and every swap entry belonging to a different
page is unchanged, and `LRUstack` is the old stack without the frames of the
page, the other members in their old relative order; calling
`ReleasePage(space, vpn)` a second time changes nothing further. -/
theorem releasePage_releases_everywhere (c : Machine) (s : Memory) (space : AddrSpace)
    (vpn : Nat) (hlru : LruInv c s) :
    (∀ i, i < c.NumPhysPages →
      ¬ (((ReleasePage c s space vpn).frameTable i).valid = false ∧
        ((ReleasePage c s space vpn).frameTable i).addrSpace = space ∧
        ((ReleasePage c s space vpn).frameTable i).vpn = vpn)) ∧
    (∀ j, j < c.NumSectors →
      ¬ (((ReleasePage c s space vpn).swapTable j).valid = false ∧
        ((ReleasePage c s space vpn).swapTable j).addrSpace = space ∧
        ((ReleasePage c s space vpn).swapTable j).vpn = vpn)) ∧
    (∀ i, i < c.NumPhysPages → (s.frameTable i).addrSpace = space → (s.frameTable i).vpn = vpn →
      i ∉ (ReleasePage c s space vpn).LRUstack) ∧
    (∀ i, ¬ ((s.frameTable i).addrSpace = space ∧ (s.frameTable i).vpn = vpn) →
      (ReleasePage c s space vpn).frameTable i = s.frameTable i) ∧
    (∀ j, ¬ ((s.swapTable j).addrSpace = space ∧ (s.swapTable j).vpn = vpn) →
      (ReleasePage c s space vpn).swapTable j = s.swapTable j) ∧
    (ReleasePage c s space vpn).LRUstack = s.LRUstack.filter (fun i =>
      !(decide ((s.frameTable i).addrSpace = space) && decide ((s.frameTable i).vpn = vpn))) ∧
    ReleasePage c (ReleasePage c s space vpn) space vpn = ReleasePage c s space vpn := by
  rw [ReleasePage_eq c (ReleasePage c s space vpn), ReleasePage_eq c s]
  refine ⟨?_, ?_, ?_, ?_, ?_, ?_, released_idem c s space vpn⟩
  · intro i hi
    simp only [released]
    split_ifs with h
    · simp
    · intro hx
      exact h ⟨hi, hx.2.1, hx.2.2⟩
  · intro j hj
    simp only [released]
    split_ifs with h
    · simp
    · intro hx
      exact h ⟨hj, hx.2.1, hx.2.2⟩
  · intro i hi h1 h2 hm
    have := (List.mem_filter.1 hm).2
    simp [hi, h1, h2] at this
  · intro i h
    simp only [released]
    rw [if_neg (fun hx => h hx.2)]
  · intro j h
    simp only [released]
    rw [if_neg (fun hx => h hx.2)]
  · show List.filter _ s.LRUstack = _
    apply List.filter_congr
    intro g hg
    have hlt : g < c.NumPhysPages := ((hlru.2 g).1 hg).1
    simp only [hlt, decide_True, Bool.true_and]

/-- The law at a state of a two-frame machine that satisfies the lruStack
invariant: frames 0 and 1 hold `(1, 1)` and `(1, 2)`, `LRUstack = [0, 1]`, and
`ReleasePage(1, 1)` leaves `LRUstack = [1]` and frees frame 0. -/
theorem releasePage_releases_everywhere_witness :
    LruInv smallMachine swappedMemory ∧
    (ReleasePage smallMachine swappedMemory 1 1).LRUstack = [1] ∧
    ((ReleasePage smallMachine swappedMemory 1 1).frameTable 0).valid = true ∧
    (ReleasePage smallMachine swappedMemory 1 1).frameTable 1 = swappedMemory.frameTable 1 :=
  ⟨swappedMemory_lruInv,
   (releasePage_releases_everywhere smallMachine swappedMemory 1 1
      swappedMemory_lruInv).2.2.2.2.2.1.trans (by decide),
   by decide,
   (releasePage_releases_everywhere smallMachine swappedMemory 1 1
      swappedMemory_lruInv).2.2.2.1 1 (by decide)⟩

/-- What a `TransAddr` call that returns has done: nothing, or one call of
`PageFaultHandler`. -/
theorem TransAddr_inv (c : Machine) (s : Memory) (space : AddrSpace) (virtAddr : Int)
    (a : Int) (called : Bool) (s1 : Memory)
    (h : TransAddr c s space virtAddr = Except.ok (a, called, s1)) :
    s1 = s ∨ ∃ (vpn g : Nat), PageFaultHandler c s vpn = Except.ok (g, s1) := by
  unfold TransAddr at h
  simp only at h
  split_ifs at h with hp
  · right
    cases hf : PageFaultHandler c s ((virtAddr % 2 ^ 32).toNat / c.PageSize) with
    | error e => rw [hf] at h; cases h
    | ok r =>
      obtain ⟨g, s2⟩ := r
      rw [hf] at h
      simp only [Except.ok.injEq, Prod.mk.injEq] at h
      exact ⟨_, g, by rw [hf, h.2.2]⟩
  · left
    simp only [Except.ok.injEq, Prod.mk.injEq] at h
    exact h.2.2.symm

theorem FreeNotLocked_claimed (c : Machine) (s : Memory) (g : Nat) (space : AddrSpace)
    (vpn : Nat) (h : FreeNotLocked c s) : FreeNotLocked c (claimed s g space vpn) := by
  refine ⟨?_, h.2⟩
  intro i hi hl
  by_cases hg : i = g
  · subst hg
    rw [claimed_frame]
  · have e : (claimed s g space vpn).frameTable i = s.frameTable i := setEntry_other _ _ _ _ hg
    rw [e] at hl ⊢
    exact h.1 i hi hl

theorem FreeNotLocked_faulted (c : Machine) (s : Memory) (g sb : Nat) (space : AddrSpace)
    (vpn : Nat) (h : FreeNotLocked c s) : FreeNotLocked c (faulted c s g sb space vpn) := by
  refine ⟨h.1, ?_⟩
  intro j hj hl
  by_cases hg : j = sb
  · subst hg
    simp only [faulted, setEntry_same] at hl
    cases hl
  · have e : (faulted c s g sb space vpn).swapTable j = s.swapTable j :=
      setEntry_other _ _ _ _ hg
    rw [e] at hl ⊢
    exact h.2 j hj hl

theorem FreeNotLocked_acquire (c : Machine) (s : Memory) (space : AddrSpace) (vpn g : Nat)
    (s1 : Memory) (h : FreeNotLocked c s)
    (ha : AcquirePage c s space vpn = Except.ok (g, s1)) : FreeNotLocked c s1 := by
  obtain ⟨_, h1⟩ := AcquirePage_inv c s space vpn g s1 ha
  rw [h1]
  exact FreeNotLocked_claimed c s g space vpn h

theorem FreeNotLocked_fault (c : Machine) (s : Memory) (vpn g : Nat)
    (s1 : Memory) (h : FreeNotLocked c s)
    (ha : PageFaultHandler c s vpn = Except.ok (g, s1)) : FreeNotLocked c s1 := by
  obtain ⟨sb, s2, _, _, h2, _, h3⟩ := PageFaultHandler_inv c s vpn g s1 ha
  rw [h3]
  exact FreeNotLocked_faulted c s2 g sb _ vpn (FreeNotLocked_acquire c s _ vpn g s2 h h2)

/-- C18 (amended): a free slot is never locked.  Started in a state where every
frame entry and every swap entry satisfies `lock ⇒ ¬valid`, each of
`AcquirePage`, `PageFaultHandler` and `TransAddr`, when it returns, and
`UpdateLRUStack` end in a state where every frame entry and every swap entry
still satisfies `lock ⇒ ¬valid`; `ReleasePage(space, vpn)` does so exactly when
no frame entry and no swap entry on which `(space, vpn)` is recorded is locked
(it marks these entries free without looking at their lock). -/
theorem free_slot_never_locked (c : Machine) (s : Memory) (h : FreeNotLocked c s) :
    (∀ (space : AddrSpace) (vpn g : Nat) (s1 : Memory),
      AcquirePage c s space vpn = Except.ok (g, s1) → FreeNotLocked c s1) ∧
    (∀ (vpn g : Nat) (s1 : Memory),
      PageFaultHandler c s vpn = Except.ok (g, s1) → FreeNotLocked c s1) ∧
    (∀ (page : Nat), FreeNotLocked c (UpdateLRUStack s page)) ∧
    (∀ (space : AddrSpace) (virtAddr a : Int) (called : Bool) (s1 : Memory),
      TransAddr c s space virtAddr = Except.ok (a, called, s1) → FreeNotLocked c s1) ∧
    (∀ (space : AddrSpace) (vpn : Nat),
      FreeNotLocked c (ReleasePage c s space vpn) ↔
        ((∀ i, i < c.NumPhysPages → (s.frameTable i).addrSpace = space →
            (s.frameTable i).vpn = vpn → (s.frameTable i).lock = false) ∧
          (∀ j, j < c.NumSectors → (s.swapTable j).addrSpace = space →
            (s.swapTable j).vpn = vpn → (s.swapTable j).lock = false))) := by
  refine ⟨?_, ?_, ?_, ?_, ?_⟩
  · intro space vpn g s1 ha
    exact FreeNotLocked_acquire c s space vpn g s1 h ha
  · intro vpn g s1 ha
    exact FreeNotLocked_fault c s vpn g s1 h ha
  · intro page
    exact h
  · intro space virtAddr a called s1 ht
    rcases TransAddr_inv c s space virtAddr a called s1 ht with h1 | ⟨vpn, g, h1⟩
    · rw [h1]
      exact h
    · exact FreeNotLocked_fault c s vpn g s1 h h1
  · intro space vpn
    rw [ReleasePage_eq]
    constructor
    · intro hr
      constructor
      · intro i hi h1 h2
        by_contra hl
        have hl2 : (s.frameTable i).lock = true := by simpa using hl
        have := hr.1 i hi
        simp only [released, if_pos (And.intro hi (And.intro h1 h2))] at this
        exact absurd (this hl2) (by simp)
      · intro j hj h1 h2
        by_contra hl
        have hl2 : (s.swapTable j).lock = true := by simpa using hl
        have := hr.2 j hj
        simp only [released, if_pos (And.intro hj (And.intro h1 h2))] at this
        exact absurd (this hl2) (by simp)
    · intro hr
      constructor
      · intro i hi
        simp only [released]
        split_ifs with hc
        · intro hl
          have := hr.1 i hi hc.2.1 hc.2.2
          simp only at hl
          rw [this] at hl
          cases hl
        · exact h.1 i hi
      · intro j hj
        simp only [released]
        split_ifs with hc
        · intro hl
          have := hr.2 j hj hc.2.1 hc.2.2
          simp only at hl
          rw [this] at hl
          cases hl
        · exact h.2 j hj

theorem lockedFrameMemory_freeNotLocked : FreeNotLocked smallMachine lockedFrameMemory := by
  constructor <;> decide

theorem busyMemory_freeNotLocked : FreeNotLocked smallMachine busyMemory := by
  constructor <;> decide

/-- In `busyMemory` the call `AcquirePage(2, 5)` claims the free frame 1. -/
theorem busyMemory_acquire :
    AcquirePage smallMachine busyMemory 2 5 = Except.ok (1, claimed busyMemory 1 2 5) :=
  AcquirePage_free_eq smallMachine busyMemory 2 5 1 rfl

/-- In `busyMemory` the fault on `vpn 0` claims frame 1 and reads sector 0
into it. -/
theorem busyMemory_fault :
    PageFaultHandler smallMachine busyMemory 0
      = Except.ok (1, faulted smallMachine (claimed busyMemory 1 1 0) 1 0 1 0) :=
  PageFaultHandler_eq smallMachine busyMemory 0 0 1 _ rfl rfl
    (AcquirePage_free_eq smallMachine busyMemory 1 0 1 rfl) rfl

/-- In `busyMemory` no frame is recorded with `vpn 0` of address space 1, so
`TransAddr(1, 2)` calls `PageFaultHandler(0)` and returns address 2 of
frame 1. -/
theorem busyMemory_transAddr :
    TransAddr smallMachine busyMemory 1 2
      = Except.ok (6, true, faulted smallMachine (claimed busyMemory 1 1 0) 1 0 1 0) := by
  have hp : scanLast (fun i => decide ((busyMemory.frameTable i).addrSpace = 1) &&
      decide ((busyMemory.frameTable i).vpn = ((2 : Int) % 2 ^ 32).toNat / smallMachine.PageSize))
      smallMachine.NumPhysPages 0 smallMachine.NumPhysPages = smallMachine.NumPhysPages := by
    decide
  have hv : ((2 : Int) % 2 ^ 32).toNat / smallMachine.PageSize = 0 := by decide
  unfold TransAddr
  simp only [hp, if_true]
  rw [hv, busyMemory_fault]
  rfl

/-- The law at two states.  In `busyMemory` frame 0 and sector 1 are in use and
locked, frame 1 is free and sector 0 holds `vpn 0` of address space 1:
`AcquirePage(2, 5)`, `PageFaultHandler(0)` and `TransAddr(1, 2)`, which calls
`PageFaultHandler`, return and keep every free slot unlocked.  In the state of
scenario 6 (frame 0 in use for `(1, 0)` and locked, frame 1 in use for `(1, 1)`
and unlocked) releasing `(1, 1)` and touching frame 0 do so too. -/
theorem free_slot_never_locked_witness :
    FreeNotLocked smallMachine busyMemory ∧
    (busyMemory.frameTable 0).lock = true ∧ (busyMemory.swapTable 1).lock = true ∧
    AcquirePage smallMachine busyMemory 2 5 = Except.ok (1, claimed busyMemory 1 2 5) ∧
    FreeNotLocked smallMachine (claimed busyMemory 1 2 5) ∧
    PageFaultHandler smallMachine busyMemory 0
      = Except.ok (1, faulted smallMachine (claimed busyMemory 1 1 0) 1 0 1 0) ∧
    FreeNotLocked smallMachine (faulted smallMachine (claimed busyMemory 1 1 0) 1 0 1 0) ∧
    TransAddr smallMachine busyMemory 1 2
      = Except.ok (6, true, faulted smallMachine (claimed busyMemory 1 1 0) 1 0 1 0) ∧
    FreeNotLocked smallMachine (faulted smallMachine (claimed busyMemory 1 1 0) 1 0 1 0) ∧
    FreeNotLocked smallMachine lockedFrameMemory ∧
    FreeNotLocked smallMachine (ReleasePage smallMachine lockedFrameMemory 1 1) ∧
    FreeNotLocked smallMachine (UpdateLRUStack lockedFrameMemory 0) :=
  ⟨busyMemory_freeNotLocked, rfl, rfl, busyMemory_acquire,
   (free_slot_never_locked smallMachine busyMemory busyMemory_freeNotLocked).1 2 5 1 _
      busyMemory_acquire,
   busyMemory_fault,
   (free_slot_never_locked smallMachine busyMemory busyMemory_freeNotLocked).2.1 0 1 _
      busyMemory_fault,
   busyMemory_transAddr,
   (free_slot_never_locked smallMachine busyMemory busyMemory_freeNotLocked).2.2.2.1 1 2 6
      true _ busyMemory_transAddr,
   lockedFrameMemory_freeNotLocked,
   ((free_slot_never_locked smallMachine lockedFrameMemory
      lockedFrameMemory_freeNotLocked).2.2.2.2 1 1).2 ⟨by decide, by decide⟩,
   (free_slot_never_locked smallMachine lockedFrameMemory
      lockedFrameMemory_freeNotLocked).2.2.1 0⟩

/-- C18 fails as stated for `ReleasePage`: in the state of scenario 6 every
entry satisfies `lock ⇒ ¬valid` (frame 0 is in use for `(1, 0)` and locked);
after `ReleasePage(1, 0)` frame 0 is free and still locked. -/
theorem free_slot_never_locked_counterexample :
    FreeNotLocked smallMachine lockedFrameMemory ∧
    ((ReleasePage smallMachine lockedFrameMemory 1 0).frameTable 0).lock = true ∧
    ((ReleasePage smallMachine lockedFrameMemory 1 0).frameTable 0).valid = true ∧
    ¬ FreeNotLocked smallMachine (ReleasePage smallMachine lockedFrameMemory 1 0) := by
  refine ⟨by constructor <;> decide, by decide, by decide, ?_⟩
  intro h
  exact absurd (h.1 0 (by decide) (by decide)) (by decide)

theorem mem_remove_append (l : List Nat) (v p : Nat) :
    p ∈ List.Remove v l ++ [v] ↔ p ∈ l ∨ p = v := by
  simp only [List.Remove, List.mem_append, List.mem_filter, List.mem_singleton, bne_iff_ne,
    ne_eq]
  constructor
  · rintro (⟨h, _⟩ | h)
    · exact Or.inl h
    · exact Or.inr h
  · rintro (h | h)
    · by_cases hp : p = v
      · exact Or.inr hp
      · exact Or.inl ⟨h, hp⟩
    · exact Or.inr h

theorem nodup_remove_append (l : List Nat) (v : Nat) (h : l.Nodup) :
    (List.Remove v l ++ [v]).Nodup := by
  apply List.Nodup.append (h.filter _) (List.nodup_singleton v)
  intro a ha hb
  simp only [List.Remove, List.mem_filter, bne_iff_ne, ne_eq] at ha
  exact ha.2 (List.mem_singleton.1 hb)

theorem halfMemory_lruInv : LruInv smallMachine halfMemory := by
  refine ⟨by decide, ?_⟩
  intro p
  constructor
  · intro h
    have h1 : p = 0 := by simpa [halfMemory, memoryOf] using h
    subst h1
    decide
  · rintro ⟨h1, h2⟩
    have h3 : p < 2 := h1
    interval_cases p
    · decide
    · exact absurd h2 (by decide)

/-- In `halfMemory` the call `AcquirePage(2, 5)` claims the free frame 1. -/
theorem halfMemory_acquire :
    AcquirePage smallMachine halfMemory 2 5 = Except.ok (1, claimed halfMemory 1 2 5) :=
  AcquirePage_free_eq smallMachine halfMemory 2 5 1 rfl

/-- In `halfMemory` the fault on `vpn 0` claims frame 1 and reads sector 0
into it. -/
theorem halfMemory_fault :
    PageFaultHandler smallMachine halfMemory 0
      = Except.ok (1, faulted smallMachine (claimed halfMemory 1 1 0) 1 0 1 0) :=
  PageFaultHandler_eq smallMachine halfMemory 0 0 1 _ rfl rfl
    (AcquirePage_free_eq smallMachine halfMemory 1 0 1 rfl) rfl

/-- C13 (amended): entered with the interrupt level `IntOn`, each of
`ReadyToRun`, `FindNextToRun`, `Run` (before the switch and when it resumes
after it), `SetToSleep` and `AlarmTicks` aborts with a fatal assertion before
modifying any scheduler state.  `CheckToBeDestroyed`, `GetRestBurstTime`,
`AccumNewBurst` and `Account` contain no assertion on the interrupt level:
entered with `IntOn` they run to completion, `CheckToBeDestroyed` emptying the
slot, `GetRestBurstTime` creating the burst record it reads, `AccumNewBurst` and
`Account` updating the burst record and `startTicks`. -/
theorem interrupt_assertions (k : Kernel) (h : k.level = IntStatus.IntOn) :
    (∀ (thread : Thread), ReadyToRun k thread = Except.error Fault.assertion) ∧
    FindNextToRun k = Except.error Fault.assertion ∧
    (∀ (nextThread : Thread) (finishing stackOverflow : Bool),
      Run k nextThread finishing stackOverflow = Except.error Fault.assertion) ∧
    Run.resumed k = Except.error Fault.assertion ∧
    (∀ (sleepTime : Int), SetToSleep k sleepTime = Except.error Fault.assertion) ∧
    AlarmTicks k = Except.error Fault.assertion ∧
    ((CheckToBeDestroyed k).1 = k.toBeDestroyed ∧
      (CheckToBeDestroyed k).2.toBeDestroyed = none) ∧
    (∀ (thread : Thread),
      (GetRestBurstTime k.burstTimeMap thread).2 = k.burstTimeMap.touch thread) ∧
    ((AccumNewBurst k).startTicks = k.userTicks ∧
      (AccumNewBurst k).burstTimeMap k.currentThread =
        some ((k.burstTimeMap.read k.currentThread).1,
          (k.burstTimeMap.read k.currentThread).2 + (k.userTicks - k.startTicks))) ∧
    (∃ (k1 : Kernel), Account k = Except.ok k1 ∧ k1.startTicks = k.userTicks ∧
      k1.burstTimeMap k.currentThread =
        some (estimateBurst
          ((k.burstTimeMap.read k.currentThread).2 + (k.userTicks - k.startTicks))
          (k.burstTimeMap.read k.currentThread).1, 0)) := by
  refine ⟨?_, ?_, ?_, ?_, ?_, ?_, ?_, ?_, ?_, ?_⟩
  · intro thread
    simp [ReadyToRun, h]
  · simp [FindNextToRun, h]
  · intro nextThread finishing stackOverflow
    simp [Run, h]
  · simp [Run.resumed, h]
  · intro sleepTime
    simp [SetToSleep, h]
  · simp [AlarmTicks, h]
  · unfold CheckToBeDestroyed
    cases hd : k.toBeDestroyed with
    | none => exact ⟨rfl, hd⟩
    | some t => exact ⟨rfl, rfl⟩
  · intro thread
    rfl
  · exact ⟨rfl, by simp [AccumNewBurst, BurstMap.write_apply]⟩
  · refine ⟨_, Account_eq k, rfl, ?_⟩
    simp [BurstMap.write_apply]

/-- The law at a kernel entered with interrupts enabled. -/
theorem interrupt_assertions_witness :
    interruptsOnKernel.level = IntStatus.IntOn ∧
    ReadyToRun interruptsOnKernel 2 = Except.error Fault.assertion ∧
    FindNextToRun interruptsOnKernel = Except.error Fault.assertion ∧
    Run interruptsOnKernel 2 false false = Except.error Fault.assertion :=
  ⟨rfl, (interrupt_assertions interruptsOnKernel rfl).1 2,
   (interrupt_assertions interruptsOnKernel rfl).2.1,
   (interrupt_assertions interruptsOnKernel rfl).2.2.1 2 false false⟩

/-- C13 fails as stated for four of the nine entry points: entered with
`IntOn`, thread 1 running with burst record `(0, 0)` after 8 ticks and thread 7
in `toBeDestroyed`, `Account` returns and stores `(4, 0)`, `AccumNewBurst` stores
`(0, 8)`, `CheckToBeDestroyed` deletes thread 7 and empties the slot, and
`GetRestBurstTime(2)` returns 0 after creating a burst record for thread 2. -/
theorem interrupt_assertions_counterexample :
    interruptsOnKernel.level = IntStatus.IntOn ∧
    interruptsOnKernel.burstTimeMap 1 = some (0, 0) ∧
    recordAfterAccount interruptsOnKernel 1 = some (some (4, 0)) ∧
    (AccumNewBurst interruptsOnKernel).burstTimeMap 1 = some (0, 8) ∧
    (CheckToBeDestroyed interruptsOnKernel).1 = some 7 ∧
    (CheckToBeDestroyed interruptsOnKernel).2.toBeDestroyed = none ∧
    interruptsOnKernel.burstTimeMap 2 = none ∧
    (GetRestBurstTime interruptsOnKernel.burstTimeMap 2).1 = 0 ∧
    (GetRestBurstTime interruptsOnKernel.burstTimeMap 2).2 2 = some (0, 0) := by
  decide

/-- The state `Run` hands to `nextThread` when the old thread is finishing, the
slot is empty and the stack check passes. -/
theorem Run_finishing_eq (k : Kernel) (nextThread : Thread)
    (h : k.level = IntStatus.IntOff) (hd : k.toBeDestroyed = none) :
    Run k nextThread true false = Except.ok
      { k with
        toBeDestroyed := some k.currentThread
        burstTimeMap := k.burstTimeMap.write k.currentThread
          (estimateBurst ((k.burstTimeMap.read k.currentThread).2 + (k.userTicks - k.startTicks))
            (k.burstTimeMap.read k.currentThread).1, 0)
        startTicks := k.userTicks
        currentThread := nextThread
        status := fun u => if u = nextThread then ThreadStatus.RUNNING else k.status u } := by
  have ha := Account_eq { k with toBeDestroyed := some k.currentThread }
  unfold Run
  rw [if_neg (fun hx => hx h)]
  simp only [hd, ne_eq, not_true_eq_false, if_false, if_true, ha, Bool.false_eq_true]

/-- The state `Run` hands to `nextThread` when the old thread is not finishing
and the stack check passes. -/
theorem Run_switch_eq (k : Kernel) (nextThread : Thread) (h : k.level = IntStatus.IntOff) :
    Run k nextThread false false = Except.ok
      { k with
        currentThread := nextThread
        status := fun u => if u = nextThread then ThreadStatus.RUNNING else k.status u } := by
  unfold Run
  rw [if_neg (fun hx => hx h)]
  simp only [if_false, Bool.false_eq_true]

/-- C14 (amended): deferred destruction.  `Run(nextThread, finishing=true)`,
entered with interrupts disabled, aborts with a fatal assertion if
`toBeDestroyed` is already occupied; with an empty slot it aborts exactly when
the check of the old thread's kernel stack (`CheckOverflow`) finds an overflow,
and otherwise, up to the stack switch, it records the old current thread in
`toBeDestroyed`, finalises that thread's burst record with `Account`, and makes
`nextThread` the current thread with status `RUNNING`.  `Run` with
`finishing=false` and no stack overflow leaves `toBeDestroyed` and every burst
record unchanged up to the stack switch.  The next `CheckToBeDestroyed`
destroys exactly the recorded thread and empties the slot, and
`CheckToBeDestroyed` on an empty slot does nothing. -/
theorem deferred_destruction (k : Kernel) (nextThread : Thread)
    (h : k.level = IntStatus.IntOff) :
    (k.toBeDestroyed ≠ none →
      ∀ (stackOverflow : Bool), Run k nextThread true stackOverflow
        = Except.error Fault.assertion) ∧
    (∀ (finishing : Bool), Run k nextThread finishing true = Except.error Fault.assertion) ∧
    (k.toBeDestroyed = none →
      ∃ (k1 : Kernel), Run k nextThread true false = Except.ok k1 ∧
        k1.toBeDestroyed = some k.currentThread ∧
        (∃ (ka : Kernel), Account k = Except.ok ka ∧ k1.burstTimeMap = ka.burstTimeMap ∧
          k1.startTicks = ka.startTicks) ∧
        k1.currentThread = nextThread ∧ k1.status nextThread = ThreadStatus.RUNNING ∧
        (∀ u, u ≠ nextThread → k1.status u = k.status u) ∧
        k1.readyList = k.readyList ∧ k1.sleepingList = k.sleepingList ∧
        CheckToBeDestroyed k1 = (some k.currentThread, { k1 with toBeDestroyed := none })) ∧
    (∃ (k1 : Kernel), Run k nextThread false false = Except.ok k1 ∧
      k1.toBeDestroyed = k.toBeDestroyed ∧ k1.burstTimeMap = k.burstTimeMap ∧
      k1.startTicks = k.startTicks ∧
      k1.currentThread = nextThread ∧ k1.status nextThread = ThreadStatus.RUNNING ∧
      (∀ u, u ≠ nextThread → k1.status u = k.status u) ∧
      k1.readyList = k.readyList ∧ k1.sleepingList = k.sleepingList) ∧
    (∀ (t : Thread), k.toBeDestroyed = some t →
      CheckToBeDestroyed k = (some t, { k with toBeDestroyed := none })) ∧
    (k.toBeDestroyed = none → CheckToBeDestroyed k = (none, k)) := by
  refine ⟨?_, ?_, ?_, ?_, ?_, ?_⟩
  · intro hd stackOverflow
    simp [Run, h, hd]
  · intro finishing
    cases finishing
    · simp [Run, h]
    · by_cases hd : k.toBeDestroyed = none
      · have ha := Account_eq { k with toBeDestroyed := some k.currentThread }
        unfold Run
        rw [if_neg (fun hx => hx h)]
        simp only [hd, ne_eq, not_true_eq_false, if_false, if_true, ha]
      · simp [Run, h, hd]
  · intro hd
    refine ⟨_, Run_finishing_eq k nextThread h hd, rfl, ⟨_, Account_eq k, rfl, rfl⟩, rfl, ?_, ?_,
      rfl, rfl, rfl⟩
    · simp
    · intro u hu
      simp [hu]
  · refine ⟨_, Run_switch_eq k nextThread h, rfl, rfl, rfl, rfl, ?_, ?_, rfl, rfl⟩
    · simp
    · intro u hu
      simp [hu]
  · intro t ht
    simp [CheckToBeDestroyed, ht]
  · intro hd
    simp [CheckToBeDestroyed, hd]

/-- The law at a kernel in which thread 1 runs with interrupts off, burst
record `(0, 0)`, 8 ticks into its slice, and the slot is empty: `Run(2, true)`
records thread 1, stores the estimate `(4, 0)` and makes thread 2 current. -/
theorem deferred_destruction_witness :
    (burstKernel 0 0 0 8).level = IntStatus.IntOff ∧
    (burstKernel 0 0 0 8).toBeDestroyed = none ∧
    ∃ (k1 : Kernel), Run (burstKernel 0 0 0 8) 2 true false = Except.ok k1 ∧
      k1.toBeDestroyed = some 1 ∧ k1.burstTimeMap 1 = some (4, 0) ∧ k1.currentThread = 2 ∧
      k1.status 2 = ThreadStatus.RUNNING ∧ (CheckToBeDestroyed k1).1 = some 1 ∧
      (CheckToBeDestroyed k1).2.toBeDestroyed = none := by
  obtain ⟨k1, h1, h2, ⟨ka, h3, h4, _⟩, h5, h6, _, _, _, h7⟩ :=
    (deferred_destruction (burstKernel 0 0 0 8) 2 rfl).2.2.1 rfl
  refine ⟨rfl, rfl, k1, h1, h2, ?_, h5, h6, ?_, ?_⟩
  · rw [h4]
    rw [Account_eq] at h3
    simp only [Except.ok.injEq] at h3
    rw [← h3]
    decide
  · rw [h7]
    rfl
  · rw [h7]

/-- C14 fails as stated: with interrupts off and an empty `toBeDestroyed`,
`Run(2, finishing=true)` still aborts when the stack check of the old thread
finds an overflow. -/
theorem deferred_destruction_counterexample :
    (burstKernel 0 0 0 8).level = IntStatus.IntOff ∧
    (burstKernel 0 0 0 8).toBeDestroyed = none ∧
    Run (burstKernel 0 0 0 8) 2 true true = Except.error Fault.assertion :=
  ⟨rfl, rfl, rfl⟩

theorem takeWhile_eq_filter_of_sorted (b : Int) (l : List SleepingThread)
    (hs : l.Pairwise (fun x y => x.sleepTime ≤ y.sleepTime)) :
    l.takeWhile (fun y => decide (y.sleepTime ≤ b)) = l.filter (fun y => decide (y.sleepTime ≤ b)) := by
  induction l with
  | nil => rfl
  | cons y ys ih =>
    rw [List.pairwise_cons] at hs
    by_cases hy : y.sleepTime ≤ b
    · rw [List.takeWhile_cons_of_pos (by simpa using hy), List.filter_cons_of_pos (by simpa using hy),
        ih hs.2]
    · rw [List.takeWhile_cons_of_neg (by simpa using hy), List.filter_cons_of_neg (by simpa using hy)]
      symm
      rw [List.filter_eq_nil_iff]
      intro z hz
      have := hs.1 z hz
      simp only [decide_eq_true_eq]
      omega

theorem dropWhile_eq_filter_of_sorted (b : Int) (l : List SleepingThread)
    (hs : l.Pairwise (fun x y => x.sleepTime ≤ y.sleepTime)) :
    l.dropWhile (fun y => decide (y.sleepTime ≤ b))
      = l.filter (fun y => decide (b < y.sleepTime)) := by
  induction l with
  | nil => rfl
  | cons y ys ih =>
    rw [List.pairwise_cons] at hs
    by_cases hy : y.sleepTime ≤ b
    · rw [List.dropWhile_cons_of_pos (by simpa using hy),
        List.filter_cons_of_neg (by simpa using hy), ih hs.2]
    · rw [List.dropWhile_cons_of_neg (by simpa using hy),
        List.filter_cons_of_pos (by simpa using hy)]
      congr 1
      symm
      rw [List.filter_eq_self]
      intro z hz
      have := hs.1 z hz
      simp only [decide_eq_true_eq]
      omega

/-- What `AlarmTicks` does to a sorted sleeping list. -/
theorem AlarmTicks_sorted (k : Kernel) (hl : k.level = IntStatus.IntOff)
    (hs : k.sleepingList.Pairwise (fun a b => a.sleepTime ≤ b.sleepTime)) :
    ∃ (woken : List Thread) (k1 : Kernel), AlarmTicks k = Except.ok (woken, k1) ∧
      k1.level = IntStatus.IntOff ∧
      k1.sleepingList.Pairwise (fun a b => a.sleepTime ≤ b.sleepTime) ∧
      (∀ y, y ∈ k1.sleepingList → 0 < y.sleepTime) ∧
      woken = (k.sleepingList.filter (fun x => decide (x.sleepTime ≤ 1))).map
        SleepingThread.sleeper ∧
      k1.sleepingList = (k.sleepingList.filter (fun x => decide (1 < x.sleepTime))).map
        (fun x => { x with sleepTime := x.sleepTime - 1 }) := by
  obtain ⟨k1, h1, h2, h3⟩ := AlarmTicks_spec k hl
  refine ⟨_, k1, h1, h3, ?_, ?_, ?_, ?_⟩
  · rw [h2, List.pairwise_map]
    exact (hs.sublist (List.dropWhile_sublist _)).imp (fun hab => by simpa using hab)
  · intro y hy
    rw [h2] at hy
    obtain ⟨z, hz, rfl⟩ := List.mem_map.1 hy
    have := lt_of_mem_dropWhile_of_sorted 1 _ hs z hz
    show 0 < z.sleepTime - 1
    omega
  · rw [takeWhile_eq_filter_of_sorted 1 _ hs]
  · rw [h2, dropWhile_eq_filter_of_sorted 1 _ hs]

/-- Every call of a sequence keeps the sleeping list sorted. -/
theorem runCalls_sorted (cs : List SchedCall) : ∀ (k : Kernel) (log : List (List Thread))
    (k1 : Kernel), k.level = IntStatus.IntOff →
    k.sleepingList.Pairwise (fun a b => a.sleepTime ≤ b.sleepTime) →
    runCalls k cs = Except.ok (log, k1) →
    k1.sleepingList.Pairwise (fun a b => a.sleepTime ≤ b.sleepTime) := by
  induction cs with
  | nil =>
    intro k log k1 _ hs h
    simp only [runCalls, Except.ok.injEq, Prod.mk.injEq] at h
    rw [← h.2]
    exact hs
  | cons c cs ih =>
    intro k log k1 hl hs h
    cases c with
    | alarm =>
      obtain ⟨woken, k2, h1, h2, h3, _⟩ := AlarmTicks_sorted k hl hs
      simp only [runCalls, h1] at h
      cases hr : runCalls k2 cs with
      | error e => rw [hr] at h; cases h
      | ok r =>
        obtain ⟨log2, k3⟩ := r
        rw [hr] at h
        simp only [Except.ok.injEq, Prod.mk.injEq] at h
        rw [← h.2]
        exact ih k2 log2 k3 h2 h3 hr
    | sleep u x now =>
      obtain ⟨k2, h1, h2, h3, _⟩ :=
        SetToSleep_sleepingList { k with currentThread := u, userTicks := now } x hl hs
      simp only [runCalls, h1] at h
      exact ih k2 log k1 h2 h3 h
    | ready u =>
      have h1 := ReadyToRun_ok k u hl
      simp only [runCalls, h1] at h
      refine ih _ log k1 ?_ ?_ h
      · exact hl
      · exact hs
    | findNext =>
      cases hr : k.readyList with
      | nil =>
        have h1 : FindNextToRun k = Except.ok (none, k) := by
          simp [FindNextToRun, hl, hr]
        simp only [runCalls, h1] at h
        exact ih k log k1 hl hs h
      | cons t rest =>
        have h1 : FindNextToRun k = Except.ok (some t, { k with readyList := rest }) := by
          simp [FindNextToRun, hl, hr]
        simp only [runCalls, h1] at h
        refine ih _ log k1 ?_ ?_ h
        · exact hl
        · exact hs

/-- C20: `sleepingList` is sorted ascending by `sleepTime` in the state
produced by the constructor and after every `SetToSleep` and every
`AlarmTicks` (each keeps a sorted list sorted, and so does every sequence of
scheduler calls made from the constructor state), and after `AlarmTicks`
returns every entry still in `sleepingList` has `sleepTime > 0`: `AlarmTicks`
re-admits exactly the entries whose `sleepTime` was `≤ 1` before the call, in
list order, and decrements the rest by one without reordering them. -/
theorem sleepingList_sorted :
    (∀ (type : SchedulerType) (startTicks : Int) (currentThread : Thread) (level : IntStatus)
        (userTicks : Int) (status : Thread → ThreadStatus),
      (Scheduler.new type startTicks currentThread level userTicks status).sleepingList.Pairwise
        (fun a b => a.sleepTime ≤ b.sleepTime)) ∧
    (∀ (k : Kernel), k.level = IntStatus.IntOff →
      k.sleepingList.Pairwise (fun a b => a.sleepTime ≤ b.sleepTime) →
      ∀ (sleepTime : Int), ∃ (k1 : Kernel), SetToSleep k sleepTime = Except.ok k1 ∧
        k1.sleepingList.Pairwise (fun a b => a.sleepTime ≤ b.sleepTime)) ∧
    (∀ (k : Kernel), k.level = IntStatus.IntOff →
      k.sleepingList.Pairwise (fun a b => a.sleepTime ≤ b.sleepTime) →
      ∃ (woken : List Thread) (k1 : Kernel), AlarmTicks k = Except.ok (woken, k1) ∧
        k1.sleepingList.Pairwise (fun a b => a.sleepTime ≤ b.sleepTime) ∧
        (∀ y, y ∈ k1.sleepingList → 0 < y.sleepTime) ∧
        woken = (k.sleepingList.filter (fun x => decide (x.sleepTime ≤ 1))).map
          SleepingThread.sleeper ∧
        k1.sleepingList = (k.sleepingList.filter (fun x => decide (1 < x.sleepTime))).map
          (fun x => { x with sleepTime := x.sleepTime - 1 })) ∧
    (∀ (type : SchedulerType) (startTicks : Int) (currentThread : Thread) (userTicks : Int)
        (status : Thread → ThreadStatus) (cs : List SchedCall) (log : List (List Thread))
        (k : Kernel),
      runCalls (Scheduler.new type startTicks currentThread IntStatus.IntOff userTicks status) cs
        = Except.ok (log, k) →
      k.sleepingList.Pairwise (fun a b => a.sleepTime ≤ b.sleepTime)) := by
  refine ⟨?_, ?_, ?_, ?_⟩
  · intro type startTicks currentThread level userTicks status
    exact List.Pairwise.nil
  · intro k hl hs sleepTime
    obtain ⟨k1, h1, _, h3, _⟩ := SetToSleep_sleepingList k sleepTime hl hs
    exact ⟨k1, h1, h3⟩
  · intro k hl hs
    obtain ⟨woken, k1, h1, _, h3, h4, h5, h6⟩ := AlarmTicks_sorted k hl hs
    exact ⟨woken, k1, h1, h3, h4, h5, h6⟩
  · intro type startTicks currentThread userTicks status cs log k h
    exact runCalls_sorted cs _ log k rfl List.Pairwise.nil h

/-- The law at a sorted sleeping list `[(2, 1), (3, 1), (1, 3)]`: `AlarmTicks`
re-admits threads 2 and 3 in this order and leaves `[(1, 2)]`. -/
theorem sleepingList_sorted_witness :
    sleepersKernel.level = IntStatus.IntOff ∧
    sleepersKernel.sleepingList.Pairwise (fun a b => a.sleepTime ≤ b.sleepTime) ∧
    ∃ (woken : List Thread) (k1 : Kernel), AlarmTicks sleepersKernel = Except.ok (woken, k1) ∧
      (∀ y, y ∈ k1.sleepingList → 0 < y.sleepTime) ∧
      woken = [2, 3] ∧ k1.sleepingList = [{ sleeper := 1, sleepTime := 2 }] := by
  obtain ⟨woken, k1, h1, _, h3, h4, h5⟩ :=
    sleepingList_sorted.2.2.1 sleepersKernel rfl (by decide)
  exact ⟨rfl, by decide, woken, k1, h1, h3, h4.trans (by decide), h5.trans (by decide)⟩

theorem readyAppend_mem (type : SchedulerType) (t : Thread) (l : List Thread) (m : BurstMap)
    (u : Thread) : u ∈ (readyAppend type t l m).1 ↔ u = t ∨ u ∈ l := by
  unfold readyAppend
  split_ifs
  · simp only [List.mem_append, List.mem_singleton]
    exact or_comm
  · rw [(readyInsert_spec t l m).1, (insert_perm _ t l).mem_iff, List.mem_cons]

/-- What `ReadyToRun` changes, as far as statuses and list membership go. -/
theorem ReadyToRun_effect (k : Kernel) (t : Thread) (hl : k.level = IntStatus.IntOff) :
    ∃ (k1 : Kernel), ReadyToRun k t = Except.ok k1 ∧
      (∀ u, k1.status u = if u = t then ThreadStatus.READY else k.status u) ∧
      (∀ u, u ∈ k1.readyList ↔ u = t ∨ u ∈ k.readyList) ∧
      k1.sleepingList = k.sleepingList ∧ k1.level = k.level ∧
      k1.toBeDestroyed = k.toBeDestroyed ∧ k1.currentThread = k.currentThread :=
  ⟨_, ReadyToRun_ok k t hl, fun _ => rfl, fun u => readyAppend_mem _ _ _ _ u, rfl, rfl, rfl, rfl⟩

/-- What the second loop of `AlarmTicks` changes, as far as statuses and list
membership go. -/
theorem wake_effect (l : List SleepingThread) : ∀ (k : Kernel) (woken : List Thread)
    (k1 : Kernel), k.level = IntStatus.IntOff →
    AlarmTicks.wake l k = Except.ok (woken, k1) →
    (∀ u, k1.status u = if u ∈ woken then ThreadStatus.READY else k.status u) ∧
    (∀ u, u ∈ k1.readyList ↔ u ∈ woken ∨ u ∈ k.readyList) ∧
    k1.toBeDestroyed = k.toBeDestroyed ∧ k1.currentThread = k.currentThread := by
  induction l with
  | nil =>
    intro k woken k1 _ h
    simp only [AlarmTicks.wake, Except.ok.injEq, Prod.mk.injEq] at h
    obtain ⟨h1, h2⟩ := h
    subst h1
    subst h2
    exact ⟨fun u => by simp, fun u => by simp, rfl, rfl⟩
  | cons x rest ih =>
    intro k woken k1 hl h
    by_cases hx : x.sleepTime > 0
    · simp only [AlarmTicks.wake, hx, if_true, Except.ok.injEq, Prod.mk.injEq] at h
      obtain ⟨h1, h2⟩ := h
      subst h1
      subst h2
      exact ⟨fun u => by simp, fun u => by simp, rfl, rfl⟩
    · obtain ⟨k2, e1, e2, e3, _, e5, e6, e7⟩ :=
        ReadyToRun_effect { k with sleepingList := rest } x.sleeper hl
      simp only [AlarmTicks.wake, hx, if_false, e1] at h
      cases hw : AlarmTicks.wake rest k2 with
      | error e => rw [hw] at h; cases h
      | ok r =>
        obtain ⟨w2, k3⟩ := r
        rw [hw] at h
        simp only [Except.ok.injEq, Prod.mk.injEq] at h
        obtain ⟨h1, h2⟩ := h
        subst h1
        subst h2
        obtain ⟨i1, i2, i3, i4⟩ := ih k2 w2 k3 (e5.trans hl) hw
        refine ⟨?_, ?_, i3.trans e6, i4.trans e7⟩
        · intro u
          rw [i1 u, e2 u]
          by_cases hu : u ∈ w2
          · simp [hu]
          · by_cases hu2 : u = x.sleeper
            · simp [hu2]
            · simp [hu, hu2]
        · intro u
          rw [i2 u, e3 u, List.mem_cons]
          constructor
          · rintro (h1 | h1 | h1)
            · exact Or.inl (Or.inr h1)
            · exact Or.inl (Or.inl h1)
            · exact Or.inr h1
          · rintro ((h1 | h1) | h1)
            · exact Or.inr (Or.inl h1)
            · exact Or.inl h1
            · exact Or.inr (Or.inr h1)

/-- What `AlarmTicks` changes, as far as statuses and list membership go. -/
theorem AlarmTicks_effect (k : Kernel) (hl : k.level = IntStatus.IntOff) :
    ∃ (k1 : Kernel), AlarmTicks k
        = Except.ok ((k.sleepingList.takeWhile (fun x => decide (x.sleepTime ≤ 1))).map
            SleepingThread.sleeper, k1) ∧
      k1.sleepingList = (k.sleepingList.dropWhile (fun x => decide (x.sleepTime ≤ 1))).map
        (fun x => { x with sleepTime := x.sleepTime - 1 }) ∧
      (∀ u, k1.status u =
        if u ∈ (k.sleepingList.takeWhile (fun x => decide (x.sleepTime ≤ 1))).map
          SleepingThread.sleeper then ThreadStatus.READY else k.status u) ∧
      (∀ u, u ∈ k1.readyList ↔
        u ∈ (k.sleepingList.takeWhile (fun x => decide (x.sleepTime ≤ 1))).map
          SleepingThread.sleeper ∨ u ∈ k.readyList) ∧
      k1.toBeDestroyed = k.toBeDestroyed ∧ k1.currentThread = k.currentThread := by
  obtain ⟨k1, h1, h2, _⟩ := AlarmTicks_spec k hl
  have ha : AlarmTicks k = AlarmTicks.wake
      (k.sleepingList.map (fun x => { x with sleepTime := x.sleepTime - 1 }))
      { k with
        sleepingList := k.sleepingList.map (fun x => { x with sleepTime := x.sleepTime - 1 }) } := by
    simp [AlarmTicks, hl]
  rw [ha] at h1
  obtain ⟨i1, i2, i3, i4⟩ := wake_effect
    (k.sleepingList.map (fun x => { x with sleepTime := x.sleepTime - 1 }))
    { k with
      sleepingList := k.sleepingList.map (fun x => { x with sleepTime := x.sleepTime - 1 }) }
    _ k1 hl h1
  rw [← ha] at h1
  exact ⟨k1, h1, h2, i1, i2, i3, i4⟩

/-- The state `SetToSleep` returns with interrupts disabled. -/
theorem SetToSleep_effect (k : Kernel) (x : Int) (hl : k.level = IntStatus.IntOff) :
    ∃ (k1 : Kernel), SetToSleep k x = Except.ok k1 ∧
      k1.sleepingList = SortedList.Insert SleepTimeCompare
        { sleeper := k.currentThread, sleepTime := x } k.sleepingList ∧
      (∀ u, k1.status u = if u = k.currentThread then ThreadStatus.SLEEPING else k.status u) ∧
      k1.readyList = k.readyList ∧ k1.toBeDestroyed = k.toBeDestroyed ∧
      k1.currentThread = k.currentThread := by
  simp [SetToSleep, hl, Account_eq, Thread.Sleep]

/-- What `Run` changes up to the stack switch, as far as statuses and lists go. -/
theorem Run_effect (k : Kernel) (nextThread : Thread) (finishing : Bool)
    (hl : k.level = IntStatus.IntOff) (hd : finishing = true → k.toBeDestroyed = none) :
    ∃ (k1 : Kernel), Run k nextThread finishing false = Except.ok k1 ∧
      (∀ u, k1.status u = if u = nextThread then ThreadStatus.RUNNING else k.status u) ∧
      k1.readyList = k.readyList ∧ k1.sleepingList = k.sleepingList ∧
      k1.currentThread = nextThread := by
  cases finishing with
  | false => exact ⟨_, Run_switch_eq k nextThread hl, fun _ => rfl, rfl, rfl, rfl⟩
  | true => exact ⟨_, Run_finishing_eq k nextThread hl (hd rfl), fun _ => rfl, rfl, rfl, rfl⟩

/-- C19 (amended): membership in `readyList` and status `READY`.  With
interrupts disabled, in a state in which a thread is in `readyList` if and only
if its status is `READY`: `ReadyToRun` and `AlarmTicks` preserve the
equivalence; `SetToSleep` preserves it when the current thread is not `READY`;
`Run(nextThread)`, when the stack check passes, preserves it when `nextThread`
is not in `readyList`.  `FindNextToRun` on a non-empty `readyList` returns the
front thread and leaves its status `READY`: every thread still in `readyList`
is `READY`, but when the returned thread has no second entry the equivalence
fails for it, and for it only, until `Run` makes it `RUNNING`; a `ReadyToRun` of
another thread in between keeps it the only exception. -/
theorem ready_iff_status (k : Kernel) (hl : k.level = IntStatus.IntOff) :
    (∀ (pending : Option Thread) (t : Thread), ReadyIff k pending → pending ≠ some t →
      ∃ (k1 : Kernel), ReadyToRun k t = Except.ok k1 ∧ ReadyIff k1 pending) ∧
    (ReadyIff k none →
      ∃ (woken : List Thread) (k1 : Kernel), AlarmTicks k = Except.ok (woken, k1) ∧
        ReadyIff k1 none) ∧
    (∀ (sleepTime : Int), ReadyIff k none → k.status k.currentThread ≠ ThreadStatus.READY →
      ∃ (k1 : Kernel), SetToSleep k sleepTime = Except.ok k1 ∧ ReadyIff k1 none) ∧
    (ReadyIff k none → k.readyList = [] → FindNextToRun k = Except.ok (none, k)) ∧
    (∀ (t : Thread) (rest : List Thread), ReadyIff k none → k.readyList = t :: rest →
      ∃ (k1 : Kernel), FindNextToRun k = Except.ok (some t, k1) ∧ k1.readyList = rest ∧
        k1.status t = ThreadStatus.READY ∧
        (∀ u, u ∈ k1.readyList → k1.status u = ThreadStatus.READY) ∧
        (t ∉ rest → ReadyIff k1 (some t) ∧ ¬ ReadyIff k1 none)) ∧
    (∀ (nextThread : Thread) (finishing : Bool), ReadyIff k (some nextThread) →
      (finishing = true → k.toBeDestroyed = none) →
      ∃ (k1 : Kernel), Run k nextThread finishing false = Except.ok k1 ∧ ReadyIff k1 none) ∧
    (∀ (nextThread : Thread) (finishing : Bool), ReadyIff k none → nextThread ∉ k.readyList →
      (finishing = true → k.toBeDestroyed = none) →
      ∃ (k1 : Kernel), Run k nextThread finishing false = Except.ok k1 ∧ ReadyIff k1 none) := by
  refine ⟨?_, ?_, ?_, ?_, ?_, ?_, ?_⟩
  · intro pending t h hp
    obtain ⟨k1, e1, e2, e3, _⟩ := ReadyToRun_effect k t hl
    refine ⟨k1, e1, ?_⟩
    intro u
    rw [e3 u, e2 u, h u]
    by_cases hu : u = t
    · subst hu
      simp [hp]
    · simp [hu]
  · intro h
    obtain ⟨k1, e1, _, e3, e4, _⟩ := AlarmTicks_effect k hl
    refine ⟨_, k1, e1, ?_⟩
    intro u
    rw [e4 u, e3 u, h u]
    by_cases hu : u ∈ (k.sleepingList.takeWhile (fun x => decide (x.sleepTime ≤ 1))).map
        SleepingThread.sleeper
    · simp [hu]
    · simp [hu]
  · intro sleepTime h hc
    obtain ⟨k1, e1, _, e3, e4, _⟩ := SetToSleep_effect k sleepTime hl
    refine ⟨k1, e1, ?_⟩
    intro u
    rw [e4, e3 u, h u]
    by_cases hu : u = k.currentThread
    · subst hu
      simp [hc]
    · simp [hu]
  · intro _ he
    simp [FindNextToRun, hl, he]
  · intro t rest h he
    have ht : k.status t = ThreadStatus.READY := ((h t).1 (by rw [he]; exact List.mem_cons_self _ _)).1
    refine ⟨{ k with readyList := rest }, by simp [FindNextToRun, hl, he], rfl, ht, ?_, ?_⟩
    · intro u hu
      exact ((h u).1 (by rw [he]; exact List.mem_cons_of_mem _ hu)).1
    · intro hn
      constructor
      · intro u
        show u ∈ rest ↔ (k.status u = ThreadStatus.READY ∧ some t ≠ some u)
        constructor
        · intro hu
          refine ⟨((h u).1 (by rw [he]; exact List.mem_cons_of_mem _ hu)).1, ?_⟩
          intro hx
          simp only [Option.some.injEq] at hx
          rw [hx] at hn
          exact hn hu
        · rintro ⟨h1, h2⟩
          have := (h u).2 ⟨h1, by simp⟩
          rw [he] at this
          rcases List.mem_cons.1 this with h3 | h3
          · exact absurd (by rw [h3]) h2
          · exact h3
      · intro hx
        exact hn ((hx t).2 ⟨ht, by simp⟩)
  · intro nextThread finishing h hd
    obtain ⟨k1, e1, e2, e3, _⟩ := Run_effect k nextThread finishing hl hd
    refine ⟨k1, e1, ?_⟩
    intro u
    rw [e3, e2 u, h u]
    by_cases hu : u = nextThread
    · subst hu
      simp
    · have : some nextThread ≠ some u := by
        intro hx
        simp only [Option.some.injEq] at hx
        exact hu hx.symm
      simp [hu, this]
  · intro nextThread finishing h hn hd
    obtain ⟨k1, e1, e2, e3, _⟩ := Run_effect k nextThread finishing hl hd
    refine ⟨k1, e1, ?_⟩
    intro u
    rw [e3, e2 u, h u]
    by_cases hu : u = nextThread
    · subst hu
      have := (h u).not.1 hn
      simp only [ne_eq, not_false_eq_true, and_true, reduceCtorEq] at this
      simp [this]
    · simp [hu]

theorem freshKernel_readyIff : ReadyIff freshKernel none := by
  intro u
  by_cases hu : u = 0
  · subst hu
    simp [freshKernel, Scheduler.new]
  · simp [freshKernel, Scheduler.new, hu]

/-- The law at the state produced by the constructor, where no thread is
`READY` and `readyList` is empty: after `ReadyToRun(1)` membership in
`readyList` is again equivalent to status `READY`. -/
theorem ready_iff_status_witness :
    freshKernel.level = IntStatus.IntOff ∧ ReadyIff freshKernel none ∧
    ∃ (k1 : Kernel), ReadyToRun freshKernel 1 = Except.ok k1 ∧ ReadyIff k1 none :=
  ⟨rfl, freshKernel_readyIff,
   (ready_iff_status freshKernel rfl).1 none 1 freshKernel_readyIff (by simp)⟩

/-- C19 fails as stated for `FindNextToRun`: from the state produced by the
constructor (interrupts off, nobody `READY`, `readyList` empty), after
`ReadyToRun(1)` and `FindNextToRun()` thread 1 has status `READY` and
`readyList` is empty. -/
theorem ready_iff_status_counterexample :
    ReadyIff freshKernel none ∧
    listsAndStatusAfter freshKernel [SchedCall.ready 1] 1
      = some ([1], [], ThreadStatus.READY) ∧
    listsAndStatusAfter freshKernel [SchedCall.ready 1, SchedCall.findNext] 1
      = some ([], [], ThreadStatus.READY) ∧
    ∀ (log : List (List Thread)) (k : Kernel),
      runCalls freshKernel [SchedCall.ready 1, SchedCall.findNext] = Except.ok (log, k) →
      ¬ ReadyIff k none := by
  refine ⟨freshKernel_readyIff, by decide, by decide, ?_⟩
  intro log k h hx
  have h0 : listsAndStatusAfter freshKernel [SchedCall.ready 1, SchedCall.findNext] 1
      = some ([], [], ThreadStatus.READY) := by decide
  unfold listsAndStatusAfter at h0
  rw [h] at h0
  simp only [Option.some.injEq, Prod.mk.injEq] at h0
  have := (hx 1).2 ⟨h0.2.2, by simp⟩
  rw [h0.1] at this
  cases this

/-- A change of statuses that leaves the sleeping list alone, and touches only
threads that are not asleep and does not make them `SLEEPING`, preserves the
equivalence. -/
theorem SleepIff_of_status (k k1 : Kernel) (h : SleepIff k)
    (hs : k1.sleepingList = k.sleepingList)
    (hst : ∀ u, k1.status u = k.status u ∨
      (k.status u ≠ ThreadStatus.SLEEPING ∧ k1.status u ≠ ThreadStatus.SLEEPING)) :
    SleepIff k1 := by
  constructor
  · intro u
    rw [hs, h.1 u]
    rcases hst u with e | ⟨e1, e2⟩
    · rw [e]
    · exact ⟨fun hx => absurd hx e1, fun hx => absurd hx e2⟩
  · rw [hs]
    exact h.2

theorem SleepIff_setToSleep (k : Kernel) (x : Int) (hl : k.level = IntStatus.IntOff)
    (h : SleepIff k) (hc : k.status k.currentThread ≠ ThreadStatus.SLEEPING) :
    ∃ (k1 : Kernel), SetToSleep k x = Except.ok k1 ∧ SleepIff k1 := by
  obtain ⟨k1, e1, e2, e3, _⟩ := SetToSleep_effect k x hl
  have hp := insert_perm SleepTimeCompare
    ({ sleeper := k.currentThread, sleepTime := x } : SleepingThread) k.sleepingList
  have hcn : ¬ ∃ y, y ∈ k.sleepingList ∧ y.sleeper = k.currentThread :=
    fun hx => hc ((h.1 _).1 hx)
  refine ⟨k1, e1, ?_, ?_⟩
  · intro u
    rw [e2, e3 u]
    by_cases hu : u = k.currentThread
    · subst hu
      simp only [if_true, iff_true]
      exact ⟨_, hp.mem_iff.2 (List.mem_cons_self _ _), rfl⟩
    · simp only [hu, if_false]
      rw [← h.1 u]
      constructor
      · rintro ⟨y, hy, hyu⟩
        rcases List.mem_cons.1 (hp.mem_iff.1 hy) with h1 | h1
        · rw [h1] at hyu
          exact absurd hyu.symm hu
        · exact ⟨y, h1, hyu⟩
      · rintro ⟨y, hy, hyu⟩
        exact ⟨y, hp.mem_iff.2 (List.mem_cons_of_mem _ hy), hyu⟩
  · rw [e2]
    have hp2 := hp.map SleepingThread.sleeper
    rw [hp2.nodup_iff, List.map_cons, List.nodup_cons]
    refine ⟨?_, h.2⟩
    intro hm
    obtain ⟨y, hy, hyu⟩ := List.mem_map.1 hm
    exact hcn ⟨y, hy, hyu⟩

theorem SleepIff_alarmTicks (k : Kernel) (hl : k.level = IntStatus.IntOff) (h : SleepIff k) :
    ∃ (woken : List Thread) (k1 : Kernel), AlarmTicks k = Except.ok (woken, k1) ∧ SleepIff k1 ∧
      ∀ u, u ∈ woken → k1.status u = ThreadStatus.READY ∧
        ¬ ∃ y, y ∈ k1.sleepingList ∧ y.sleeper = u := by
  obtain ⟨k1, e1, e2, e3, _⟩ := AlarmTicks_effect k hl
  have hsplit := List.takeWhile_append_dropWhile
    (fun x : SleepingThread => decide (x.sleepTime ≤ 1)) k.sleepingList
  have hnd : ((k.sleepingList.takeWhile (fun x => decide (x.sleepTime ≤ 1))).map
      SleepingThread.sleeper ++
      (k.sleepingList.dropWhile (fun x => decide (x.sleepTime ≤ 1))).map
      SleepingThread.sleeper).Nodup := by
    rw [← List.map_append, hsplit]
    exact h.2
  have hmap : k1.sleepingList.map SleepingThread.sleeper =
      (k.sleepingList.dropWhile (fun x => decide (x.sleepTime ≤ 1))).map
        SleepingThread.sleeper := by
    rw [e2, List.map_map]
    rfl
  have hmem : ∀ u, (∃ y, y ∈ k1.sleepingList ∧ y.sleeper = u) ↔
      u ∈ (k.sleepingList.dropWhile (fun x => decide (x.sleepTime ≤ 1))).map
        SleepingThread.sleeper := by
    intro u
    rw [← hmap, List.mem_map]
  have hold : ∀ u, k.status u = ThreadStatus.SLEEPING ↔
      (u ∈ (k.sleepingList.takeWhile (fun x => decide (x.sleepTime ≤ 1))).map
        SleepingThread.sleeper ∨
      u ∈ (k.sleepingList.dropWhile (fun x => decide (x.sleepTime ≤ 1))).map
        SleepingThread.sleeper) := by
    intro u
    rw [← h.1 u, ← List.mem_append, ← List.map_append, hsplit, List.mem_map]
  have hdisj := (List.nodup_append.1 hnd).2.2
  refine ⟨_, k1, e1, ⟨?_, ?_⟩, ?_⟩
  · intro u
    rw [hmem u, e3 u]
    by_cases hu : u ∈ (k.sleepingList.takeWhile (fun x => decide (x.sleepTime ≤ 1))).map
        SleepingThread.sleeper
    · simp only [hu, if_true, reduceCtorEq, iff_false]
      exact fun hx => hdisj hu hx
    · simp only [hu, if_false]
      rw [hold u]
      simp [hu]
  · rw [hmap]
    exact (List.nodup_append.1 hnd).2.1
  · intro u hu
    refine ⟨by rw [e3 u]; simp [hu], ?_⟩
    rw [hmem u]
    exact fun hx => hdisj hu hx

/-- C12 (amended): `SetToSleep(sleepTicks)` sets the calling (current) thread's
status to `SLEEPING` when it inserts it into `sleepingList`.  The equivalence "a
thread is in `sleepingList` if and only if its status is `SLEEPING`" holds in
the state produced by the constructor when no thread is `SLEEPING`, and,
together with "no thread has two entries", it is preserved by `AlarmTicks`
(which moves every thread it removes back to `READY`), `FindNextToRun`,
`CheckToBeDestroyed`, `AccumNewBurst` and `Account` without condition, by
`SetToSleep` when the calling thread is not asleep already, and by `ReadyToRun`
and `Run` when the thread they are applied to is not asleep (they set its status
to `READY` or `RUNNING` and leave `sleepingList` alone). -/
theorem sleeping_iff_status :
    (∀ (k : Kernel) (sleepTicks : Int), k.level = IntStatus.IntOff →
      ∃ (k1 : Kernel), SetToSleep k sleepTicks = Except.ok k1 ∧
        k1.status k.currentThread = ThreadStatus.SLEEPING ∧
        { sleeper := k.currentThread, sleepTime := sleepTicks } ∈ k1.sleepingList) ∧
    (∀ (type : SchedulerType) (startTicks : Int) (currentThread : Thread) (level : IntStatus)
        (userTicks : Int) (status : Thread → ThreadStatus),
      (∀ u, status u ≠ ThreadStatus.SLEEPING) →
      SleepIff (Scheduler.new type startTicks currentThread level userTicks status)) ∧
    ∀ (k : Kernel), k.level = IntStatus.IntOff → SleepIff k →
      (∀ (sleepTicks : Int), k.status k.currentThread ≠ ThreadStatus.SLEEPING →
        ∃ (k1 : Kernel), SetToSleep k sleepTicks = Except.ok k1 ∧ SleepIff k1) ∧
      (∃ (woken : List Thread) (k1 : Kernel), AlarmTicks k = Except.ok (woken, k1) ∧
        SleepIff k1 ∧
        ∀ u, u ∈ woken → k1.status u = ThreadStatus.READY ∧
          ¬ ∃ y, y ∈ k1.sleepingList ∧ y.sleeper = u) ∧
      (∀ (thread : Thread), k.status thread ≠ ThreadStatus.SLEEPING →
        ∃ (k1 : Kernel), ReadyToRun k thread = Except.ok k1 ∧ SleepIff k1) ∧
      (∃ (next : Option Thread) (k1 : Kernel), FindNextToRun k = Except.ok (next, k1) ∧
        SleepIff k1) ∧
      (∀ (nextThread : Thread) (finishing : Bool),
        k.status nextThread ≠ ThreadStatus.SLEEPING →
        (finishing = true → k.toBeDestroyed = none) →
        ∃ (k1 : Kernel), Run k nextThread finishing false = Except.ok k1 ∧ SleepIff k1) ∧
      SleepIff (CheckToBeDestroyed k).2 ∧ SleepIff (AccumNewBurst k) ∧
      (∃ (k1 : Kernel), Account k = Except.ok k1 ∧ SleepIff k1) := by
  refine ⟨?_, ?_, ?_⟩
  · intro k sleepTicks hl
    obtain ⟨k1, e1, e2, e3, _⟩ := SetToSleep_effect k sleepTicks hl
    refine ⟨k1, e1, by rw [e3]; simp, ?_⟩
    rw [e2]
    exact (insert_perm SleepTimeCompare _ _).mem_iff.2 (List.mem_cons_self _ _)
  · intro type startTicks currentThread level userTicks status hs
    constructor
    · intro u
      constructor
      · rintro ⟨y, hy, _⟩
        cases hy
      · intro hx
        exact absurd hx (hs u)
    · exact List.nodup_nil
  · intro k hl h
    refine ⟨?_, ?_, ?_, ?_, ?_, ?_, ?_, ?_⟩
    · intro sleepTicks hc
      exact SleepIff_setToSleep k sleepTicks hl h hc
    · exact SleepIff_alarmTicks k hl h
    · intro thread ht
      obtain ⟨k1, e1, e2, _, e4, _⟩ := ReadyToRun_effect k thread hl
      refine ⟨k1, e1, SleepIff_of_status k k1 h e4 ?_⟩
      intro u
      rw [e2 u]
      by_cases hu : u = thread
      · subst hu
        right
        simp [ht]
      · left
        simp [hu]
    · cases hr : k.readyList with
      | nil =>
        exact ⟨none, k, by simp [FindNextToRun, hl, hr], h⟩
      | cons t rest =>
        exact ⟨some t, { k with readyList := rest }, by simp [FindNextToRun, hl, hr],
          SleepIff_of_status k _ h rfl (fun _ => Or.inl rfl)⟩
    · intro nextThread finishing hn hd
      obtain ⟨k1, e1, e2, _, e4, _⟩ := Run_effect k nextThread finishing hl hd
      refine ⟨k1, e1, SleepIff_of_status k k1 h e4 ?_⟩
      intro u
      rw [e2 u]
      by_cases hu : u = nextThread
      · subst hu
        right
        simp [hn]
      · left
        simp [hu]
    · refine SleepIff_of_status k _ h ?_ ?_
      · unfold CheckToBeDestroyed
        cases k.toBeDestroyed <;> rfl
      · intro u
        left
        unfold CheckToBeDestroyed
        cases k.toBeDestroyed <;> rfl
    · exact SleepIff_of_status k _ h rfl (fun _ => Or.inl rfl)
    · exact ⟨_, Account_eq k, SleepIff_of_status k _ h rfl (fun _ => Or.inl rfl)⟩

/-- The law at the state produced by the constructor, with thread 0 running
and every other thread just created: after `SetToSleep(5)` thread 0 is
`SLEEPING`, it is in `sleepingList`, and the equivalence holds. -/
theorem sleeping_iff_status_witness :
    freshKernel.level = IntStatus.IntOff ∧ SleepIff freshKernel ∧
    freshKernel.status freshKernel.currentThread ≠ ThreadStatus.SLEEPING ∧
    ∃ (k1 : Kernel), SetToSleep freshKernel 5 = Except.ok k1 ∧ SleepIff k1 := by
  have h0 : SleepIff freshKernel :=
    sleeping_iff_status.2.1 SchedulerType.FCFS 0 0 IntStatus.IntOff 0 _ (by
      intro u
      by_cases hu : u = 0 <;> simp [hu])
  exact ⟨rfl, h0, by decide, (sleeping_iff_status.2.2 freshKernel rfl h0).1 5 (by decide)⟩

/-- C12 fails as stated for `ReadyToRun`: from the state produced by the
constructor, after the current thread 0 has called `SetToSleep(5)` a call
`ReadyToRun(0)` returns, and thread 0 is still in `sleepingList` while its
status is `READY`. -/
theorem sleeping_iff_status_counterexample :
    SleepIff freshKernel ∧
    listsAndStatusAfter freshKernel [SchedCall.sleep 0 5 0] 0
      = some ([], [0], ThreadStatus.SLEEPING) ∧
    listsAndStatusAfter freshKernel [SchedCall.sleep 0 5 0, SchedCall.ready 0] 0
      = some ([0], [0], ThreadStatus.READY) ∧
    ∀ (log : List (List Thread)) (k : Kernel),
      runCalls freshKernel [SchedCall.sleep 0 5 0, SchedCall.ready 0] = Except.ok (log, k) →
      ¬ SleepIff k := by
  have hf : SleepIff freshKernel := by
    constructor
    · intro u
      constructor
      · rintro ⟨y, hy, _⟩
        cases hy
      · intro hx
        by_cases hu : u = 0
        · subst hu
          revert hx
          decide
        · simp [freshKernel, Scheduler.new, hu] at hx
    · exact List.nodup_nil
  refine ⟨hf, by decide, by decide, ?_⟩
  intro log k h hx
  have h0 : listsAndStatusAfter freshKernel [SchedCall.sleep 0 5 0, SchedCall.ready 0] 0
      = some ([0], [0], ThreadStatus.READY) := by decide
  unfold listsAndStatusAfter at h0
  rw [h] at h0
  simp only [Option.some.injEq, Prod.mk.injEq] at h0
  have hm : (0 : Thread) ∈ k.sleepingList.map SleepingThread.sleeper := by
    rw [h0.2.1]
    exact List.mem_cons_self _ _
  obtain ⟨y, hy, hy0⟩ := List.mem_map.1 hm
  have := (hx.1 0).1 ⟨y, hy, hy0⟩
  rw [h0.2.2] at this
  cases this

theorem remove_append_remove (l : List Nat) (page : Nat) :
    List.Remove page (List.Remove page l ++ [page]) = List.Remove page l := by
  simp only [List.Remove, List.filter_append, List.filter_filter, Bool.and_self]
  simp

/-- C23: for every `LRUstack` and every frame index `page` (indeed every
number), `UpdateLRUStack(page)` produces the stack obtained by deleting `page`
from wherever it appears and appending it at the back: `page` is the last
element, every other element keeps its relative order, and `frameTable` and
`swapTable` are unchanged; when `page` was already in the stack the set of
members is unchanged (and a duplicate-free stack stays duplicate-free, of the
same length), and applying `UpdateLRUStack(page)` twice gives the same state as
applying it once. -/
theorem updateLRUStack_moves_to_back (s : Memory) (page : Nat) :
    (UpdateLRUStack s page).LRUstack = s.LRUstack.filter (fun x => x != page) ++ [page] ∧
    (UpdateLRUStack s page).LRUstack.getLast? = some page ∧
    (UpdateLRUStack s page).LRUstack.filter (fun x => x != page)
      = s.LRUstack.filter (fun x => x != page) ∧
    (UpdateLRUStack s page).frameTable = s.frameTable ∧
    (UpdateLRUStack s page).swapTable = s.swapTable ∧
    (page ∈ s.LRUstack → ∀ p, p ∈ (UpdateLRUStack s page).LRUstack ↔ p ∈ s.LRUstack) ∧
    (page ∈ s.LRUstack → s.LRUstack.Nodup →
      (UpdateLRUStack s page).LRUstack.Nodup ∧
      (UpdateLRUStack s page).LRUstack.length = s.LRUstack.length) ∧
    UpdateLRUStack (UpdateLRUStack s page) page = UpdateLRUStack s page := by
  refine ⟨rfl, getLast?_append_singleton _ _, ?_, rfl, rfl, ?_, ?_, ?_⟩
  · exact remove_append_remove s.LRUstack page
  · intro hm p
    show p ∈ List.Remove page s.LRUstack ++ [page] ↔ _
    rw [mem_remove_append]
    constructor
    · rintro (h | h)
      · exact h
      · rw [h]
        exact hm
    · intro h
      exact Or.inl h
  · intro hm hn
    have hnd : (List.Remove page s.LRUstack ++ [page]).Nodup :=
      nodup_remove_append s.LRUstack page hn
    refine ⟨hnd, ?_⟩
    have hp : (List.Remove page s.LRUstack ++ [page]).Perm s.LRUstack := by
      rw [List.perm_ext_iff_of_nodup hnd hn]
      intro p
      rw [mem_remove_append]
      constructor
      · rintro (h | h)
        · exact h
        · rw [h]
          exact hm
      · intro h
        exact Or.inl h
    exact hp.length_eq
  · show ({ (UpdateLRUStack s page) with
        LRUstack := List.Remove page (UpdateLRUStack s page).LRUstack ++ [page] } : Memory)
      = UpdateLRUStack s page
    have : List.Remove page (UpdateLRUStack s page).LRUstack
        = List.Remove page s.LRUstack := remove_append_remove s.LRUstack page
    rw [this]
    rfl

/-- The law at a two-frame state with `LRUstack = [0, 1]`: touching frame 0
gives `[1, 0]`, with the same members, and touching it again changes nothing. -/
theorem updateLRUStack_moves_to_back_witness :
    (0 : Nat) ∈ swappedMemory.LRUstack ∧ swappedMemory.LRUstack.Nodup ∧
    (UpdateLRUStack swappedMemory 0).LRUstack = [1, 0] ∧
    (∀ p, p ∈ (UpdateLRUStack swappedMemory 0).LRUstack ↔ p ∈ swappedMemory.LRUstack) ∧
    (UpdateLRUStack swappedMemory 0).LRUstack.Nodup ∧
    (UpdateLRUStack swappedMemory 0).LRUstack.length = swappedMemory.LRUstack.length :=
  ⟨by decide, by decide,
   (updateLRUStack_moves_to_back swappedMemory 0).1.trans (by decide),
   (updateLRUStack_moves_to_back swappedMemory 0).2.2.2.2.2.1 (by decide),
   ((updateLRUStack_moves_to_back swappedMemory 0).2.2.2.2.2.2.1 (by decide) (by decide)).1,
   ((updateLRUStack_moves_to_back swappedMemory 0).2.2.2.2.2.2.1 (by decide) (by decide)).2⟩

theorem SameLocks_refl (s : Memory) : SameLocks s s := ⟨fun _ => rfl, fun _ => rfl⟩

theorem SameLocks_trans (s s1 s2 : Memory) (h1 : SameLocks s s1) (h2 : SameLocks s1 s2) :
    SameLocks s s2 :=
  ⟨fun i => (h2.1 i).trans (h1.1 i), fun j => (h2.2 j).trans (h1.2 j)⟩

theorem SameLocks_claimed (s : Memory) (g : Nat) (space : AddrSpace) (vpn : Nat)
    (h : (s.frameTable g).lock = false) : SameLocks s (claimed s g space vpn) := by
  refine ⟨?_, fun _ => rfl⟩
  intro i
  by_cases hi : i = g
  · subst hi
    rw [claimed_frame, h]
  · have e : (claimed s g space vpn).frameTable i = s.frameTable i := setEntry_other _ _ _ _ hi
    rw [e]

theorem SameLocks_faulted (c : Machine) (s : Memory) (g sb : Nat) (space : AddrSpace)
    (vpn : Nat) (h : (s.swapTable sb).lock = false) :
    SameLocks s (faulted c s g sb space vpn) := by
  refine ⟨fun _ => rfl, ?_⟩
  intro j
  by_cases hj : j = sb
  · subst hj
    simp only [faulted, setEntry_same, h]
  · have e : (faulted c s g sb space vpn).swapTable j = s.swapTable j :=
      setEntry_other _ _ _ _ hj
    rw [e]

/-- The statements of `KickVictim` after its loop leave every lock flag as it
was: the frame and the sector they lock were unlocked, and are unlocked again
after the write. -/
theorem SameLocks_evict (c : Machine) (s : Memory) (victimPage v : Nat) (s1 : Memory)
    (h : KickVictim.evict c s victimPage = Except.ok (v, s1)) : SameLocks s s1 := by
  unfold KickVictim.evict at h
  cases hl : (s.frameTable victimPage).lock with
  | true => simp [hl] at h
  | false =>
    cases hval : (s.frameTable victimPage).valid with
    | true => simp [hl, hval] at h
    | false =>
      cases hi : scanFirst (fun i => (s.swapTable i).valid && !(s.swapTable i).lock)
          c.NumSectors 0 with
      | none => simp [hl, hval, hi] at h
      | some i =>
        have hp := ((scanFirst_eq_some _ _ _ _).1 hi).2.2.1
        simp only [Bool.and_eq_true, Bool.not_eq_true'] at hp
        simp only [hl, hval, hi, hp.2, setEntry_same, Bool.false_eq_true, if_false,
          WriteSector, Except.ok.injEq, Prod.mk.injEq] at h
        obtain ⟨_, h2⟩ := h
        rw [← h2]
        constructor
        · intro j
          by_cases hj : j = victimPage
          · subst hj
            simp [setEntry_same, hl]
          · simp [setEntry, hj]
        · intro j
          by_cases hj : j = i
          · subst hj
            simp [setEntry_same, hp.2]
          · simp [setEntry, hj]

theorem SameLocks_acquire (c : Machine) (s : Memory) (space : AddrSpace) (vpn g : Nat)
    (s1 : Memory) (h : AcquirePage c s space vpn = Except.ok (g, s1)) : SameLocks s s1 := by
  obtain ⟨h0, h1⟩ := AcquirePage_inv c s space vpn g s1 h
  have hp := ((scanFirst_eq_some _ _ _ _).1 h0).2.2.1
  simp only [Bool.and_eq_true, Bool.not_eq_true'] at hp
  rw [h1]
  exact SameLocks_claimed s g space vpn hp.2

theorem SameLocks_fault (c : Machine) (s : Memory) (vpn g : Nat) (s1 : Memory)
    (h : PageFaultHandler c s vpn = Except.ok (g, s1)) : SameLocks s s1 := by
  obtain ⟨sb, s2, _, _, h2, h3, h4⟩ := PageFaultHandler_inv c s vpn g s1 h
  rw [h4]
  exact SameLocks_trans s s2 _ (SameLocks_acquire c s _ vpn g s2 h2)
    (SameLocks_faulted c s2 g sb _ vpn h3)

theorem SameLocks_release (c : Machine) (s : Memory) (space : AddrSpace) (vpn : Nat) :
    SameLocks s (ReleasePage c s space vpn) := by
  rw [ReleasePage_eq]
  constructor
  · intro i
    simp only [released]
    split_ifs <;> rfl
  · intro j
    simp only [released]
    split_ifs <;> rfl

theorem SameLocks_runMem (c : Machine) (cs : List MemCall) : ∀ (s s1 : Memory),
    runMem c s cs = Except.ok s1 → SameLocks s s1 := by
  induction cs with
  | nil =>
    intro s s1 h
    simp only [runMem, Except.ok.injEq] at h
    rw [← h]
    exact SameLocks_refl s
  | cons call cs ih =>
    intro s s1 h
    cases call with
    | acquire sp v =>
      cases ha : AcquirePage c s sp v with
      | error e => simp [runMem, ha] at h
      | ok r =>
        obtain ⟨g, s2⟩ := r
        simp only [runMem, ha] at h
        exact SameLocks_trans s s2 s1 (SameLocks_acquire c s sp v g s2 ha) (ih s2 s1 h)
    | fault sp v =>
      cases ha : PageFaultHandler c { s with currentSpace := sp } v with
      | error e => simp [runMem, ha] at h
      | ok r =>
        obtain ⟨g, s2⟩ := r
        simp only [runMem, ha] at h
        have h1 := SameLocks_fault c { s with currentSpace := sp } v g s2 ha
        exact SameLocks_trans s s2 s1 h1 (ih s2 s1 h)
    | touch page =>
      simp only [runMem] at h
      exact SameLocks_trans s (UpdateLRUStack s page) s1 ⟨fun _ => rfl, fun _ => rfl⟩
        (ih (UpdateLRUStack s page) s1 h)
    | release sp v =>
      simp only [runMem] at h
      exact SameLocks_trans s (ReleasePage c s sp v) s1 (SameLocks_release c s sp v)
        (ih (ReleasePage c s sp v) s1 h)
    | translate current sp virtAddr =>
      cases ha : TransAddr c { s with currentSpace := current } sp virtAddr with
      | error e => simp [runMem, ha] at h
      | ok r =>
        obtain ⟨a, called, s2⟩ := r
        simp only [runMem, ha] at h
        have h1 : SameLocks s s2 := by
          rcases TransAddr_inv c _ sp virtAddr a called s2 ha with h1 | ⟨vpn, g, h1⟩
          · rw [h1]
            exact ⟨fun _ => rfl, fun _ => rfl⟩
          · exact SameLocks_fault c { s with currentSpace := current } vpn g s2 h1
        exact SameLocks_trans s s2 s1 h1 (ih s2 s1 h)
    | check page =>
      cases ha : CheckLock s page with
      | error e => simp [runMem, ha] at h
      | ok s2 =>
        simp only [runMem, ha] at h
        have e : s2 = s := by
          unfold CheckLock at ha
          split_ifs at ha
          simp only [Except.ok.injEq] at ha
          exact ha.symm
        rw [e] at h
        exact ih s s1 h

/-- For the value 0 of `victimPage` the statements of `KickVictim` after its
loop return in `swappedMemory`: frame 0 is written to the free sector 1. -/
theorem swappedMemory_evict :
    ∃ (s2 : Memory), KickVictim.evict smallMachine swappedMemory 0 = Except.ok (0, s2) := by
  have hr : evictResult smallMachine swappedMemory 0 = Except.ok
      (0, [{ valid := false, lock := false, addrSpace := 1, vpn := 1 },
           { valid := false, lock := false, addrSpace := 1, vpn := 2 }],
          [{ valid := false, lock := false, addrSpace := 1, vpn := 0 },
           { valid := false, lock := false, addrSpace := 1, vpn := 1 }]) := rfl
  cases h : KickVictim.evict smallMachine swappedMemory 0 with
  | error e =>
    unfold evictResult at hr
    rw [h] at hr
    cases hr
  | ok r =>
    obtain ⟨v, s2⟩ := r
    unfold evictResult at hr
    rw [h] at hr
    simp only [Except.ok.injEq, Prod.mk.injEq] at hr
    rw [hr.1]
    exact ⟨s2, rfl⟩

/-- C24: lock flags are transient.  For every memory state and every call of
`AcquirePage`, `KickVictim` or `PageFaultHandler` that returns, the lock flag
of every frame entry and of every swap entry is the same after the call as
before it; so it is after the statements of `KickVictim` that set and clear
the lock flags (those after its loop, for every value of `victimPage`), and
after `TransAddr`, `CheckLock`, `ReleasePage` and `UpdateLRUStack`.  In
particular, starting from the constructor's state, in which no lock flag is
set, no lock flag is set at the return of any `MemoryManager` operation, nor
after any sequence of `AcquirePage`, `PageFaultHandler`, `UpdateLRUStack`,
`ReleasePage`, `TransAddr` and `CheckLock` calls that return. -/
theorem lock_flags_transient (c : Machine) :
    (∀ (s : Memory) (space : AddrSpace) (vpn g : Nat) (s1 : Memory),
      AcquirePage c s space vpn = Except.ok (g, s1) → SameLocks s s1) ∧
    (∀ (s : Memory) (v : Nat) (s1 : Memory),
      KickVictim c s = Except.ok (v, s1) → SameLocks s s1) ∧
    (∀ (s : Memory) (victimPage v : Nat) (s1 : Memory),
      KickVictim.evict c s victimPage = Except.ok (v, s1) → SameLocks s s1) ∧
    (∀ (s : Memory) (vpn g : Nat) (s1 : Memory),
      PageFaultHandler c s vpn = Except.ok (g, s1) → SameLocks s s1) ∧
    (∀ (s : Memory) (space : AddrSpace) (virtAddr a : Int) (called : Bool) (s1 : Memory),
      TransAddr c s space virtAddr = Except.ok (a, called, s1) → SameLocks s s1) ∧
    (∀ (s : Memory) (page : Nat) (s1 : Memory),
      CheckLock s page = Except.ok s1 → SameLocks s s1) ∧
    (∀ (s : Memory) (space : AddrSpace) (vpn : Nat), SameLocks s (ReleasePage c s space vpn)) ∧
    (∀ (s : Memory) (page : Nat), SameLocks s (UpdateLRUStack s page)) ∧
    (∀ (mainMemory : Nat → Nat) (swapDisk : Nat → Nat → Nat) (currentSpace : AddrSpace),
      Unlocked (MemoryManager.new mainMemory swapDisk currentSpace)) ∧
    (∀ (s s1 : Memory), Unlocked s → SameLocks s s1 → Unlocked s1) ∧
    (∀ (mainMemory : Nat → Nat) (swapDisk : Nat → Nat → Nat) (currentSpace : AddrSpace)
        (cs : List MemCall) (s : Memory),
      runMem c (MemoryManager.new mainMemory swapDisk currentSpace) cs = Except.ok s →
      Unlocked s) := by
  refine ⟨?_, ?_, ?_, ?_, ?_, ?_, ?_, ?_, ?_, ?_, ?_⟩
  · intro s space vpn g s1 h
    exact SameLocks_acquire c s space vpn g s1 h
  · intro s v s1 h
    rw [KickVictim_undefined] at h
    cases h
  · intro s victimPage v s1 h
    exact SameLocks_evict c s victimPage v s1 h
  · intro s vpn g s1 h
    exact SameLocks_fault c s vpn g s1 h
  · intro s space virtAddr a called s1 h
    rcases TransAddr_inv c s space virtAddr a called s1 h with h1 | ⟨vpn, g, h1⟩
    · rw [h1]
      exact SameLocks_refl s
    · exact SameLocks_fault c s vpn g s1 h1
  · intro s page s1 h
    unfold CheckLock at h
    split_ifs at h
    simp only [Except.ok.injEq] at h
    rw [← h]
    exact SameLocks_refl s
  · intro s space vpn
    exact SameLocks_release c s space vpn
  · intro s page
    exact ⟨fun _ => rfl, fun _ => rfl⟩
  · intro mainMemory swapDisk currentSpace
    exact ⟨fun _ => rfl, fun _ => rfl⟩
  · intro s s1 hu hs
    exact ⟨fun i => (hs.1 i).trans (hu.1 i), fun j => (hs.2 j).trans (hu.2 j)⟩
  · intro mainMemory swapDisk currentSpace cs s h
    have hs := SameLocks_runMem c cs _ s h
    exact ⟨fun i => (hs.1 i).trans rfl, fun j => (hs.2 j).trans rfl⟩

/-- The law on a machine with two frames and two sectors.  In `busyMemory`
frame 0 and sector 1 are locked, frame 1 is free and page `(1, 0)` is in
sector 0: `PageFaultHandler(0)` locks frame 1 and sector 0, reads the sector,
unlocks both and returns, and every lock flag is as before, frame 0 and
sector 1 still locked and frame 1 and sector 0 not.  In `swappedMemory` the
statements of `KickVictim` after its loop, for frame 0, lock frame 0 and
sector 1, write the sector, unlock both and leave every lock flag as before.
In the constructor's state `AcquirePage(1, 0)` returns frame 0 and no lock flag
is set afterwards. -/
theorem lock_flags_transient_witness :
    PageFaultHandler smallMachine busyMemory 0
      = Except.ok (1, faulted smallMachine (claimed busyMemory 1 1 0) 1 0 1 0) ∧
    SameLocks busyMemory (faulted smallMachine (claimed busyMemory 1 1 0) 1 0 1 0) ∧
    (List.range 2).map
        (fun i => ((faulted smallMachine (claimed busyMemory 1 1 0) 1 0 1 0).frameTable i).lock)
      = [true, false] ∧
    (List.range 2).map
        (fun j => ((faulted smallMachine (claimed busyMemory 1 1 0) 1 0 1 0).swapTable j).lock)
      = [false, true] ∧
    (∃ (s2 : Memory), KickVictim.evict smallMachine swappedMemory 0 = Except.ok (0, s2) ∧
      SameLocks swappedMemory s2) ∧
    AcquirePage smallMachine freshMemory 1 0 = Except.ok (0, claimed freshMemory 0 1 0) ∧
    SameLocks freshMemory (claimed freshMemory 0 1 0) ∧
    Unlocked (claimed freshMemory 0 1 0) :=
  ⟨busyMemory_fault,
   (lock_flags_transient smallMachine).2.2.2.1 busyMemory 0 1 _ busyMemory_fault,
   rfl, rfl,
   swappedMemory_evict.elim (fun s2 h2 =>
     ⟨s2, h2, (lock_flags_transient smallMachine).2.2.1 swappedMemory 0 0 s2 h2⟩),
   AcquirePage_free_eq smallMachine freshMemory 1 0 0 rfl,
   (lock_flags_transient smallMachine).1 freshMemory 1 0 0 _
     (AcquirePage_free_eq smallMachine freshMemory 1 0 0 rfl),
   (lock_flags_transient smallMachine).2.2.2.2.2.2.2.2.2.1 freshMemory _
     ((lock_flags_transient smallMachine).2.2.2.2.2.2.2.2.1 _ _ _)
     ((lock_flags_transient smallMachine).1 freshMemory 1 0 0 _
       (AcquirePage_free_eq smallMachine freshMemory 1 0 0 rfl))⟩

/-- Counting over a range when one position turns from false to true. -/
theorem countP_range_flip (f g : Nat → Bool) (a : Nat) (n : Nat) (ha : a < n)
    (hfa : f a = false) (hga : g a = true) (ho : ∀ i, i ≠ a → g i = f i) :
    (List.range n).countP g = (List.range n).countP f + 1 := by
  induction n with
  | zero => omega
  | succ n ih =>
    rw [List.range_succ, List.countP_append, List.countP_append]
    by_cases han : a = n
    · subst han
      have hsame : (List.range a).countP g = (List.range a).countP f := by
        apply List.countP_congr
        intro i hi
        rw [ho i (by have := List.mem_range.1 hi; omega)]
      rw [hsame]
      simp [List.countP_cons, hfa, hga]
    · have := ih (by omega)
      rw [this]
      have hn : g n = f n := ho n (fun h => han h.symm)
      simp [List.countP_cons, hn]
      omega

theorem countP_range_congr (f g : Nat → Bool) (n : Nat) (h : ∀ i, i < n → g i = f i) :
    (List.range n).countP g = (List.range n).countP f := by
  apply List.countP_congr
  intro i hi
  rw [h i (List.mem_range.1 hi)]

/-- Giving a free frame to a page adds one frame in use. -/
theorem inUseCount_setEntry_claim (t : Nat → FrameInfoEntry) (n a : Nat) (e : FrameInfoEntry)
    (ha : a < n) (hf : (t a).valid = true) (he : e.valid = false) :
    inUseCount (setEntry t a e) n = inUseCount t n + 1 := by
  unfold inUseCount
  apply countP_range_flip _ _ a n ha
  · simp [hf]
  · simp [setEntry_same, he]
  · intro i hi
    simp [setEntry_other _ _ _ _ hi]

/-- Freeing an entry in use removes one entry in use. -/
theorem inUseCount_setEntry_free (t : Nat → FrameInfoEntry) (n a : Nat) (e : FrameInfoEntry)
    (ha : a < n) (hf : (t a).valid = false) (he : e.valid = true) :
    inUseCount (setEntry t a e) n + 1 = inUseCount t n := by
  unfold inUseCount
  symm
  apply countP_range_flip _ _ a n ha
  · simp [setEntry_same, he]
  · simp [hf]
  · intro i hi
    simp [setEntry_other _ _ _ _ hi]

/-- What an `AcquirePage` call that returns has done to the two tables: the
frame returned is a frame index, it was free and now holds the page, and the
swap table is unchanged. -/
theorem AcquirePage_tables (c : Machine) (s : Memory) (space : AddrSpace) (vpn g : Nat)
    (s1 : Memory) (h : AcquirePage c s space vpn = Except.ok (g, s1)) :
    g < c.NumPhysPages ∧
    s1.frameTable = setEntry s.frameTable g
      { valid := false, lock := false, addrSpace := space, vpn := vpn } ∧
    (s.frameTable g).valid = true ∧ s1.swapTable = s.swapTable := by
  obtain ⟨h0, h1⟩ := AcquirePage_inv c s space vpn g s1 h
  obtain ⟨_, hlt, hp, _⟩ := (scanFirst_eq_some _ _ _ _).1 h0
  simp only [Bool.and_eq_true, Bool.not_eq_true'] at hp
  exact ⟨by omega, by rw [h1]; rfl, hp.1, by rw [h1]; rfl⟩

/-- The pages held after `AcquirePage(space, vpn)` has returned: those held
before, and `(space, vpn)`. -/
theorem Held_acquire (c : Machine) (s : Memory) (space : AddrSpace) (vpn g : Nat)
    (s1 : Memory) (h : AcquirePage c s space vpn = Except.ok (g, s1))
    (sp : AddrSpace) (v : Nat) :
    Held c s1 sp v ↔ (Held c s sp v ∨ (sp = space ∧ v = vpn)) := by
  obtain ⟨hg, hft, hfree, hsw⟩ := AcquirePage_tables c s space vpn g s1 h
  have hfg : s1.frameTable g = { valid := false, lock := false, addrSpace := space, vpn := vpn } := by
    rw [hft]
    exact setEntry_same _ _ _
  have hfo : ∀ a, a ≠ g → s1.frameTable a = s.frameTable a := by
    intro a ha
    rw [hft]
    exact setEntry_other _ _ _ _ ha
  constructor
  · rintro (⟨a, ha, hh⟩ | ⟨b, hb, hh⟩)
    · by_cases hag : a = g
      · subst hag
        rw [hfg] at hh
        exact Or.inr ⟨hh.2.1.symm, hh.2.2.symm⟩
      · rw [hfo a hag] at hh
        exact Or.inl (Or.inl ⟨a, ha, hh⟩)
    · rw [hsw] at hh
      exact Or.inl (Or.inr ⟨b, hb, hh⟩)
  · rintro ((⟨a, ha, hh⟩ | ⟨b, hb, hh⟩) | ⟨h1, h2⟩)
    · by_cases hag : a = g
      · subst hag
        have := hh.1
        rw [hfree] at this
        cases this
      · left
        exact ⟨a, ha, by rw [hfo a hag]; exact hh⟩
    · right
      exact ⟨b, hb, by rw [hsw]; exact hh⟩
    · left
      refine ⟨g, hg, ?_⟩
      rw [hfg]
      exact ⟨rfl, h1.symm, h2.symm⟩

/-- What a `PageFaultHandler` call that returns has done to the two tables. -/
theorem PageFaultHandler_tables (c : Machine) (s : Memory) (vpn g : Nat) (s3 : Memory)
    (h : PageFaultHandler c s vpn = Except.ok (g, s3)) :
    ∃ (sb : Nat) (s1 : Memory), sb < c.NumSectors ∧
      (s.swapTable sb).holds s.currentSpace vpn ∧
      AcquirePage c s s.currentSpace vpn = Except.ok (g, s1) ∧
      s3.frameTable = s1.frameTable ∧
      s3.swapTable = setEntry s1.swapTable sb
        { valid := true, lock := false, addrSpace := (s1.swapTable sb).addrSpace,
          vpn := (s1.swapTable sb).vpn } := by
  obtain ⟨sb, s1, hsb, _, ha, _, h3⟩ := PageFaultHandler_inv c s vpn g s3 h
  obtain ⟨_, hlt, hp, _⟩ := (scanFirst_eq_some _ _ _ _).1 hsb
  simp only [Bool.and_eq_true, Bool.not_eq_true', decide_eq_true_eq] at hp
  exact ⟨sb, s1, by omega, ⟨hp.1.1, hp.1.2, hp.2⟩, ha, by rw [h3]; rfl, by rw [h3]; rfl⟩

/-- The pages held after `PageFaultHandler` has returned are the pages held
before. -/
theorem Held_fault (c : Machine) (s : Memory) (vpn g : Nat) (s3 : Memory)
    (h : PageFaultHandler c s vpn = Except.ok (g, s3)) (sp : AddrSpace) (v : Nat) :
    Held c s3 sp v ↔ Held c s sp v := by
  obtain ⟨sb, s1, hsb, hhold, ha, hft, hst⟩ := PageFaultHandler_tables c s vpn g s3 h
  have hacq := Held_acquire c s s.currentSpace vpn g s1 ha sp v
  obtain ⟨hg, hft1, _, hsw⟩ := AcquirePage_tables c s s.currentSpace vpn g s1 ha
  have hsb1 : s1.swapTable sb = s.swapTable sb := by rw [hsw]
  have hback : Held c s1 sp v → Held c s sp v := by
    intro hx
    rcases hacq.1 hx with h1 | ⟨h1, h2⟩
    · exact h1
    · right
      exact ⟨sb, hsb, by rw [h1, h2]; exact hhold⟩
  constructor
  · rintro (⟨a, hal, hh⟩ | ⟨b, hb, hh⟩)
    · rw [hft] at hh
      exact hback (Or.inl ⟨a, hal, hh⟩)
    · by_cases hbs : b = sb
      · subst hbs
        rw [hst, setEntry_same] at hh
        exact absurd hh.1 (by simp)
      · rw [hst, setEntry_other _ _ _ _ hbs] at hh
        exact hback (Or.inr ⟨b, hb, hh⟩)
  · intro hx
    rcases hacq.2 (Or.inl hx) with ⟨a, hal, hh⟩ | ⟨b, hb, hh⟩
    · left
      exact ⟨a, hal, by rw [hft]; exact hh⟩
    · by_cases hbs : b = sb
      · subst hbs
        rw [hsb1] at hh
        left
        refine ⟨g, hg, ?_⟩
        rw [hft, hft1, setEntry_same]
        exact ⟨rfl, hhold.2.1.symm.trans hh.2.1, hhold.2.2.symm.trans hh.2.2⟩
      · right
        exact ⟨b, hb, by rw [hst, setEntry_other _ _ _ _ hbs]; exact hh⟩

/-- `AcquirePage` adds one entry in use, a frame. -/
theorem inUseCount_acquire (c : Machine) (s : Memory) (space : AddrSpace) (vpn g : Nat)
    (s1 : Memory) (h : AcquirePage c s space vpn = Except.ok (g, s1)) :
    inUseCount s1.frameTable c.NumPhysPages + inUseCount s1.swapTable c.NumSectors
      = inUseCount s.frameTable c.NumPhysPages + inUseCount s.swapTable c.NumSectors + 1 := by
  obtain ⟨hg, hft, hfree, e⟩ := AcquirePage_tables c s space vpn g s1 h
  rw [hft, e, inUseCount_setEntry_claim _ _ _ _ hg hfree rfl]
  omega

/-- `PageFaultHandler` leaves the number of entries in use unchanged. -/
theorem inUseCount_fault (c : Machine) (s : Memory) (vpn g : Nat) (s3 : Memory)
    (h : PageFaultHandler c s vpn = Except.ok (g, s3)) :
    inUseCount s3.frameTable c.NumPhysPages + inUseCount s3.swapTable c.NumSectors
      = inUseCount s.frameTable c.NumPhysPages + inUseCount s.swapTable c.NumSectors := by
  obtain ⟨sb, s1, hsb, hhold, ha, hft, hst⟩ := PageFaultHandler_tables c s vpn g s3 h
  have h1 := inUseCount_acquire c s s.currentSpace vpn g s1 ha
  obtain ⟨hg, hft1, _, hsw⟩ := AcquirePage_tables c s s.currentSpace vpn g s1 ha
  have hsb1 : (s1.swapTable sb).valid = false := by
    rw [hsw]
    exact hhold.1
  have h2 := inUseCount_setEntry_free s1.swapTable c.NumSectors sb
    { valid := true, lock := false, addrSpace := (s1.swapTable sb).addrSpace,
      vpn := (s1.swapTable sb).vpn } hsb hsb1 rfl
  rw [hft, hst]
  omega

/-- C25: paging loses and invents no page.  For every memory state (the
lruStack invariant, the single-tier invariant and the absence of locks are not
needed), a `PageFaultHandler(vpn)` call that returns leaves the set of pages
`(space, vpn)` held by in-use frames or in-use swap entries exactly as it was
before the call, and the number of in-use frames plus in-use sectors unchanged;
an `AcquirePage(space, vpn)` call that returns adds exactly `(space, vpn)` to
that set, and one to that number. -/
theorem paging_keeps_pages (c : Machine) (s : Memory) :
    (∀ (vpn g : Nat) (s1 : Memory), PageFaultHandler c s vpn = Except.ok (g, s1) →
      (∀ (sp : AddrSpace) (v : Nat), Held c s1 sp v ↔ Held c s sp v) ∧
      inUseCount s1.frameTable c.NumPhysPages + inUseCount s1.swapTable c.NumSectors
        = inUseCount s.frameTable c.NumPhysPages + inUseCount s.swapTable c.NumSectors) ∧
    (∀ (space : AddrSpace) (vpn g : Nat) (s1 : Memory),
      AcquirePage c s space vpn = Except.ok (g, s1) →
      (∀ (sp : AddrSpace) (v : Nat),
        Held c s1 sp v ↔ (Held c s sp v ∨ (sp = space ∧ v = vpn))) ∧
      inUseCount s1.frameTable c.NumPhysPages + inUseCount s1.swapTable c.NumSectors
        = inUseCount s.frameTable c.NumPhysPages + inUseCount s.swapTable c.NumSectors + 1) := by
  constructor
  · intro vpn g s1 h
    exact ⟨fun sp v => Held_fault c s vpn g s1 h sp v, inUseCount_fault c s vpn g s1 h⟩
  · intro space vpn g s1 h
    exact ⟨fun sp v => Held_acquire c s space vpn g s1 h sp v,
      inUseCount_acquire c s space vpn g s1 h⟩

/-- The law at a two-frame state in which frame 0 holds `(1, 1)`, frame 1 is
free and sector 0 holds `(1, 0)`, a state that satisfies the lruStack and
single-tier invariants and has no lock set.  `PageFaultHandler(0)` moves
`(1, 0)` from sector 0 to frame 1: the same pages are held afterwards, in two
entries as before.  `AcquirePage(2, 5)` claims frame 1: afterwards the pages
held before and `(2, 5)` are held, in three entries. -/
theorem paging_keeps_pages_witness :
    LruInv smallMachine halfMemory ∧ SingleTier smallMachine halfMemory ∧
    NoLock smallMachine halfMemory ∧
    PageFaultHandler smallMachine halfMemory 0
      = Except.ok (1, faulted smallMachine (claimed halfMemory 1 1 0) 1 0 1 0) ∧
    (∀ (sp : AddrSpace) (v : Nat),
      Held smallMachine (faulted smallMachine (claimed halfMemory 1 1 0) 1 0 1 0) sp v ↔
        Held smallMachine halfMemory sp v) ∧
    inUseCount halfMemory.frameTable 2 + inUseCount halfMemory.swapTable 2 = 2 ∧
    inUseCount (faulted smallMachine (claimed halfMemory 1 1 0) 1 0 1 0).frameTable 2 +
      inUseCount (faulted smallMachine (claimed halfMemory 1 1 0) 1 0 1 0).swapTable 2 = 2 ∧
    AcquirePage smallMachine halfMemory 2 5 = Except.ok (1, claimed halfMemory 1 2 5) ∧
    (∀ (sp : AddrSpace) (v : Nat),
      Held smallMachine (claimed halfMemory 1 2 5) sp v ↔
        (Held smallMachine halfMemory sp v ∨ (sp = 2 ∧ v = 5))) ∧
    inUseCount (claimed halfMemory 1 2 5).frameTable 2 +
      inUseCount (claimed halfMemory 1 2 5).swapTable 2 = 3 := by
  have hf := (paging_keeps_pages smallMachine halfMemory).1 0 1 _ halfMemory_fault
  have ha := (paging_keeps_pages smallMachine halfMemory).2 2 5 1 _ halfMemory_acquire
  refine ⟨halfMemory_lruInv, ?_, halfMemory_nolock, halfMemory_fault, hf.1, by decide,
    hf.2.trans (by decide), halfMemory_acquire, ha.1, ha.2.trans (by decide)⟩
  intro i j hi hj
  have hi2 : i < 2 := hi
  have hj2 : j < 2 := hj
  interval_cases i <;> interval_cases j <;> decide

/-- A step that keeps the ready list and the rest burst of each of its threads
keeps it sorted. -/
theorem SortedReady_of_same (k k1 : Kernel) (h : SortedReady k)
    (hl : k1.readyList = k.readyList)
    (hr : ∀ a, a ∈ k.readyList → restBurst k1.burstTimeMap a = restBurst k.burstTimeMap a) :
    SortedReady k1 := by
  unfold SortedReady at h ⊢
  rw [hl]
  refine List.Pairwise.imp_of_mem ?_ h
  intro a b ha hb hab
  rw [hr a ha, hr b hb]
  exact hab

theorem restBurst_write_other (m : BurstMap) (t : Thread) (p : Int × Int) (a : Thread)
    (h : a ≠ t) : restBurst (m.write t p) a = restBurst m a := by
  simp [restBurst, GetRestBurstTime, BurstMap.read_write, h]

theorem SortedReady_readyToRun (k : Kernel) (t : Thread) (hl : k.level = IntStatus.IntOff)
    (hp : k.schedulerType = SchedulerType.NSJF ∨ k.schedulerType = SchedulerType.SJF)
    (h : SortedReady k) :
    ∃ (k1 : Kernel), ReadyToRun k t = Except.ok k1 ∧ SortedReady k1 ∧
      k1.level = IntStatus.IntOff ∧ k1.schedulerType = k.schedulerType ∧
      k1.sleepingList = k.sleepingList := by
  obtain ⟨k1, h1, h2, h3, h4, h5⟩ := ReadyToRun_sjf k t hl hp
  have h6 : k1.sleepingList = k.sleepingList := by
    rw [ReadyToRun_ok k t hl] at h1
    simp only [Except.ok.injEq] at h1
    rw [← h1]
  refine ⟨k1, h1, ?_, h4, h5, h6⟩
  unfold SortedReady
  have hk : (fun a b => restBurst k1.burstTimeMap a ≤ restBurst k1.burstTimeMap b)
      = (fun a b => restBurst k.burstTimeMap a ≤ restBurst k.burstTimeMap b) := by
    funext a b
    rw [restBurst_congr k.burstTimeMap _ h3 a, restBurst_congr k.burstTimeMap _ h3 b]
  rw [hk, h2]
  exact insert_sorted (restBurst k.burstTimeMap) t k.readyList h

theorem SortedReady_wake (l : List SleepingThread) : ∀ (k : Kernel),
    k.level = IntStatus.IntOff →
    (k.schedulerType = SchedulerType.NSJF ∨ k.schedulerType = SchedulerType.SJF) →
    SortedReady k →
    ∃ (woken : List Thread) (k1 : Kernel), AlarmTicks.wake l k = Except.ok (woken, k1) ∧
      SortedReady k1 := by
  induction l with
  | nil =>
    intro k _ _ h
    exact ⟨[], _, rfl, h⟩
  | cons x rest ih =>
    intro k hl hp h
    by_cases hx : x.sleepTime > 0
    · exact ⟨[], { k with sleepingList := x :: rest }, by simp [AlarmTicks.wake, hx], h⟩
    · obtain ⟨k1, e1, e2, e3, e4, _⟩ :=
        SortedReady_readyToRun { k with sleepingList := rest } x.sleeper hl hp h
      obtain ⟨w, k2, e5, e6⟩ := ih k1 e3 (by rw [e4]; exact hp) e2
      exact ⟨x.sleeper :: w, k2, by simp [AlarmTicks.wake, hx, e1, e5], e6⟩

theorem SortedReady_alarmTicks (k : Kernel) (hl : k.level = IntStatus.IntOff)
    (hp : k.schedulerType = SchedulerType.NSJF ∨ k.schedulerType = SchedulerType.SJF)
    (h : SortedReady k) :
    ∃ (woken : List Thread) (k1 : Kernel), AlarmTicks k = Except.ok (woken, k1) ∧
      SortedReady k1 := by
  have ha : AlarmTicks k = AlarmTicks.wake
      (k.sleepingList.map (fun x => { x with sleepTime := x.sleepTime - 1 }))
      { k with
        sleepingList := k.sleepingList.map (fun x => { x with sleepTime := x.sleepTime - 1 }) } := by
    simp [AlarmTicks, hl]
  rw [ha]
  exact SortedReady_wake _ _ hl hp h

/-- The burst map after `SetToSleep`. -/
theorem SetToSleep_burst (k : Kernel) (x : Int) (hl : k.level = IntStatus.IntOff) :
    ∃ (k1 : Kernel), SetToSleep k x = Except.ok k1 ∧ k1.readyList = k.readyList ∧
      k1.burstTimeMap = k.burstTimeMap.write k.currentThread
        (estimateBurst ((k.burstTimeMap.read k.currentThread).2 + (k.userTicks - k.startTicks))
          (k.burstTimeMap.read k.currentThread).1, 0) := by
  simp [SetToSleep, hl, Account_eq, Thread.Sleep]

/-- C21 (amended): under policy `NSJF` or `SJF`, `readyList` is sorted ascending
by `GetRestBurstTime` (evaluated in the resulting state) after the constructor,
and with interrupts disabled a sorted `readyList` stays sorted after
`ReadyToRun` (of any thread, the current thread included), `FindNextToRun`,
`AlarmTicks`, `Run` with `finishing=false`, `CheckToBeDestroyed` and
`GetRestBurstTime`; after the operations that change the burst record of the
current thread (`AccumNewBurst`, `Account`, `SetToSleep`, `Run` with
`finishing=true`) it stays sorted when the current thread is not in
`readyList`. -/
theorem readyList_sorted_by_rest_burst :
    (∀ (type : SchedulerType) (startTicks : Int) (currentThread : Thread) (level : IntStatus)
        (userTicks : Int) (status : Thread → ThreadStatus),
      SortedReady (Scheduler.new type startTicks currentThread level userTicks status)) ∧
    ∀ (k : Kernel),
      (k.schedulerType = SchedulerType.NSJF ∨ k.schedulerType = SchedulerType.SJF) →
      k.level = IntStatus.IntOff → SortedReady k →
      (∀ (thread : Thread), ∃ (k1 : Kernel), ReadyToRun k thread = Except.ok k1 ∧
        SortedReady k1) ∧
      (∃ (next : Option Thread) (k1 : Kernel), FindNextToRun k = Except.ok (next, k1) ∧
        SortedReady k1) ∧
      (∃ (woken : List Thread) (k1 : Kernel), AlarmTicks k = Except.ok (woken, k1) ∧
        SortedReady k1) ∧
      (∀ (nextThread : Thread), ∃ (k1 : Kernel),
        Run k nextThread false false = Except.ok k1 ∧ SortedReady k1) ∧
      SortedReady (CheckToBeDestroyed k).2 ∧
      (∀ (thread : Thread),
        SortedReady { k with burstTimeMap := (GetRestBurstTime k.burstTimeMap thread).2 }) ∧
      (k.currentThread ∉ k.readyList →
        SortedReady (AccumNewBurst k) ∧
        (∃ (k1 : Kernel), Account k = Except.ok k1 ∧ SortedReady k1) ∧
        (∀ (sleepTime : Int), ∃ (k1 : Kernel), SetToSleep k sleepTime = Except.ok k1 ∧
          SortedReady k1) ∧
        (∀ (nextThread : Thread), k.toBeDestroyed = none →
          ∃ (k1 : Kernel), Run k nextThread true false = Except.ok k1 ∧ SortedReady k1)) := by
  refine ⟨?_, ?_⟩
  · intro type startTicks currentThread level userTicks status
    exact List.Pairwise.nil
  · intro k hp hl h
    refine ⟨?_, ?_, ?_, ?_, ?_, ?_, ?_⟩
    · intro thread
      obtain ⟨k1, h1, h2, _⟩ := SortedReady_readyToRun k thread hl hp h
      exact ⟨k1, h1, h2⟩
    · cases hr : k.readyList with
      | nil => exact ⟨none, k, by simp [FindNextToRun, hl, hr], h⟩
      | cons t rest =>
        refine ⟨some t, { k with readyList := rest }, by simp [FindNextToRun, hl, hr], ?_⟩
        unfold SortedReady at h ⊢
        rw [hr] at h
        exact (List.pairwise_cons.1 h).2
    · exact SortedReady_alarmTicks k hl hp h
    · intro nextThread
      exact ⟨_, Run_switch_eq k nextThread hl, SortedReady_of_same k _ h rfl (fun _ _ => rfl)⟩
    · refine SortedReady_of_same k _ h ?_ ?_
      · unfold CheckToBeDestroyed
        cases k.toBeDestroyed <;> rfl
      · intro a _
        unfold CheckToBeDestroyed
        cases k.toBeDestroyed <;> rfl
    · intro thread
      refine SortedReady_of_same k _ h rfl ?_
      intro a _
      exact restBurst_congr k.burstTimeMap _ (BurstMap.read_touch k.burstTimeMap thread) a
    · intro hc
      have hne : ∀ a, a ∈ k.readyList → a ≠ k.currentThread := by
        intro a ha hx
        rw [hx] at ha
        exact hc ha
      refine ⟨?_, ?_, ?_, ?_⟩
      · refine SortedReady_of_same k _ h rfl ?_
        intro a ha
        exact restBurst_write_other _ _ _ a (hne a ha)
      · refine ⟨_, Account_eq k, SortedReady_of_same k _ h rfl ?_⟩
        intro a ha
        exact restBurst_write_other _ _ _ a (hne a ha)
      · intro sleepTime
        obtain ⟨k1, e1, e2, e3⟩ := SetToSleep_burst k sleepTime hl
        refine ⟨k1, e1, SortedReady_of_same k k1 h e2 ?_⟩
        intro a ha
        rw [e3]
        exact restBurst_write_other _ _ _ a (hne a ha)
      · intro nextThread hd
        refine ⟨_, Run_finishing_eq k nextThread hl hd, SortedReady_of_same k _ h rfl ?_⟩
        intro a ha
        exact restBurst_write_other _ _ _ a (hne a ha)

theorem SortedReady_iff_keys (k : Kernel) :
    SortedReady k ↔ (readyKeys k).Pairwise (fun a b => a.2 ≤ b.2) := by
  unfold SortedReady readyKeys
  rw [List.pairwise_map]

/-- The law at a kernel under `SJF` in which the ready list is `[2, 1]` with the
keys 5 and 10, and thread 3 has the key 5: `ReadyToRun(3)` returns and inserts
thread 3 behind thread 2 and before thread 1, so that the ready list, `[2, 3, 1]`
with the keys 5, 5 and 10, is sorted. -/
theorem readyList_sorted_by_rest_burst_witness :
    readyPairKernel.level = IntStatus.IntOff ∧
    readyKeys readyPairKernel = [(2, 5), (1, 10)] ∧
    SortedReady readyPairKernel ∧
    ∃ (k1 : Kernel), ReadyToRun readyPairKernel 3 = Except.ok k1 ∧
      readyKeys k1 = [(2, 5), (3, 5), (1, 10)] ∧ SortedReady k1 := by
  have hs : SortedReady readyPairKernel := by
    rw [SortedReady_iff_keys]
    decide
  have hk : (ReadyToRun readyPairKernel 3).toOption.map readyKeys
      = some [(2, 5), (3, 5), (1, 10)] := by decide
  obtain ⟨k1, h1, h2⟩ :=
    (readyList_sorted_by_rest_burst.2 readyPairKernel (Or.inr rfl) rfl hs).1 3
  rw [h1] at hk
  simp only [Except.toOption, Option.map_some', Option.some.injEq] at hk
  exact ⟨rfl, by decide, hs, k1, h1, hk, h2⟩

/-- C21 fails as stated for `AccumNewBurst` after `ReadyToRun` of the current
thread: under `NSJF`, from the constructor state, thread 1 gets the estimate 2
and thread 0 the estimate 10; after `ReadyToRun(1)` and `ReadyToRun(0)` by the
running thread 0 the ready list is `[1, 0]` with keys 2 and 10, sorted; 9 ticks
later `AccumNewBurst` makes the record of thread 0 `(10, 9)`, and the keys of
`[1, 0]` are 2 and 1. -/
theorem readyList_sorted_by_rest_burst_counterexample :
    accumulateAfterYieldKeys = some ([(1, 2), (0, 10)], [(1, 2), (0, 1)]) ∧
    ∀ (k5 k6 : Kernel), accumulateAfterYield = Except.ok (k5, k6) →
      k5.schedulerType = SchedulerType.NSJF ∧ k5.level = IntStatus.IntOff ∧
      k5.currentThread = 0 ∧ SortedReady k5 ∧
      k6 = AccumNewBurst { k5 with userTicks := 33 } ∧ ¬ SortedReady k6 := by
  have h0 : accumulateAfterYieldKeys = some ([(1, 2), (0, 10)], [(1, 2), (0, 1)]) := by
    decide
  refine ⟨h0, ?_⟩
  intro k5 k6 h
  have h1 : accumulateAfterYield.toOption.map
      (fun p => (p.1.schedulerType, p.1.level, p.1.currentThread))
      = some (SchedulerType.NSJF, IntStatus.IntOff, 0) := by decide
  have h2 : k6 = AccumNewBurst { k5 with userTicks := 33 } := by
    unfold accumulateAfterYield at h
    split at h
    · cases h
    · split at h
      · cases h
      · split at h
        · cases h
        · split at h
          · cases h
          · split at h
            · cases h
            · simp only [Except.ok.injEq, Prod.mk.injEq] at h
              rw [← h.1, ← h.2]
  unfold accumulateAfterYieldKeys at h0
  rw [h] at h0 h1
  simp only [Except.toOption, Option.map_some', Option.some.injEq, Prod.mk.injEq] at h0 h1
  refine ⟨h1.1, h1.2.1, h1.2.2, ?_, h2, ?_⟩
  · rw [SortedReady_iff_keys, h0.1]
    decide
  · rw [SortedReady_iff_keys, h0.2]
    decide

theorem roundFloat_nonneg (x : Int) (h : 0 ≤ x) : 0 ≤ roundFloat x := by
  unfold roundFloat
  rw [if_neg (by omega)]
  exact Int.natCast_nonneg _

theorem estimateBurst_nonneg (a b : Int) (ha : 0 ≤ a) (hb : 0 ≤ b) :
    0 ≤ estimateBurst a b := by
  unfold estimateBurst
  apply Int.tdiv_nonneg
  · exact roundFloat_nonneg _ (add_nonneg (roundFloat_nonneg a ha) (roundFloat_nonneg b hb))
  · norm_num

theorem NonNegBursts_iff_read (k : Kernel) :
    NonNegBursts k ↔ ∀ t, 0 ≤ (k.burstTimeMap.read t).1 ∧ 0 ≤ (k.burstTimeMap.read t).2 := by
  constructor
  · intro h t
    cases hm : k.burstTimeMap t with
    | none => simp [BurstMap.read, hm]
    | some p =>
      have := h t p hm
      simpa [BurstMap.read, hm] using this
  · intro h t p hm
    have := h t
    simpa [BurstMap.read, hm] using this

theorem readyAppend_reads (type : SchedulerType) (t : Thread) (l : List Thread) (m : BurstMap)
    (u : Thread) : (readyAppend type t l m).2.read u = m.read u := by
  unfold readyAppend
  split_ifs
  · rfl
  · exact (readyInsert_spec t l m).2 u

/-- `ReadyToRun` leaves every burst record as it reads. -/
theorem ReadyToRun_reads (k : Kernel) (t : Thread) (k1 : Kernel)
    (h : ReadyToRun k t = Except.ok k1) :
    (∀ u, k1.burstTimeMap.read u = k.burstTimeMap.read u) ∧
    k1.startTicks = k.startTicks ∧ k1.userTicks = k.userTicks := by
  have hl : k.level = IntStatus.IntOff := by
    by_contra hx
    simp [ReadyToRun, hx] at h
  have hm : ∀ u, (if (k.burstTimeMap t).isNone then k.burstTimeMap.write t (0, 0)
      else k.burstTimeMap).read u = k.burstTimeMap.read u := by
    intro u
    split_ifs with hn
    · rw [BurstMap.read_write]
      split_ifs with hu
      · subst hu
        rw [Option.isNone_iff_eq_none] at hn
        simp [BurstMap.read, hn]
      · rfl
    · rfl
  rw [ReadyToRun_ok k t hl] at h
  simp only [Except.ok.injEq] at h
  rw [← h]
  refine ⟨?_, rfl, rfl⟩
  intro u
  show (readyAppend k.schedulerType t k.readyList _).2.read u = _
  rw [readyAppend_reads]
  exact hm u

/-- The burst map and the clock fields after `SetToSleep`. -/
theorem SetToSleep_clock (k : Kernel) (x : Int) (k1 : Kernel)
    (h : SetToSleep k x = Except.ok k1) :
    k1.burstTimeMap = k.burstTimeMap.write k.currentThread
        (estimateBurst ((k.burstTimeMap.read k.currentThread).2 + (k.userTicks - k.startTicks))
          (k.burstTimeMap.read k.currentThread).1, 0) ∧
    k1.startTicks = k.userTicks ∧ k1.userTicks = k.userTicks := by
  have hl : k.level = IntStatus.IntOff := by
    by_contra hx
    simp [SetToSleep, hx] at h
  simp only [SetToSleep, hl, ne_eq, not_true_eq_false, if_false, Account_eq, Thread.Sleep,
    Except.ok.injEq] at h
  rw [← h]
  exact ⟨rfl, rfl, rfl⟩

/-- The burst map and the clock fields after `Run`, up to the stack switch:
unchanged, or as `Account` leaves them. -/
theorem Run_clock (k : Kernel) (nextThread : Thread) (finishing stackOverflow : Bool)
    (k1 : Kernel) (h : Run k nextThread finishing stackOverflow = Except.ok k1) :
    k1.userTicks = k.userTicks ∧
    ((k1.burstTimeMap = k.burstTimeMap ∧ k1.startTicks = k.startTicks) ∨
      (k1.burstTimeMap = k.burstTimeMap.write k.currentThread
        (estimateBurst ((k.burstTimeMap.read k.currentThread).2 + (k.userTicks - k.startTicks))
          (k.burstTimeMap.read k.currentThread).1, 0) ∧
        k1.startTicks = k.userTicks)) := by
  have hl : k.level = IntStatus.IntOff := by
    by_contra hx
    simp [Run, hx] at h
  cases stackOverflow with
  | true =>
    exfalso
    cases finishing with
    | false =>
      unfold Run at h
      rw [if_neg (fun hx => hx hl)] at h
      simp at h
    | true =>
      by_cases hd : k.toBeDestroyed = none
      · have ha := Account_eq { k with toBeDestroyed := some k.currentThread }
        unfold Run at h
        rw [if_neg (fun hx => hx hl)] at h
        simp only [hd, ne_eq, not_true_eq_false, if_false, if_true, ha] at h
        cases h
      · unfold Run at h
        rw [if_neg (fun hx => hx hl)] at h
        simp [hd] at h
  | false =>
    cases finishing with
    | false =>
      rw [Run_switch_eq k nextThread hl] at h
      simp only [Except.ok.injEq] at h
      rw [← h]
      exact ⟨rfl, Or.inl ⟨rfl, rfl⟩⟩
    | true =>
      by_cases hd : k.toBeDestroyed = none
      · rw [Run_finishing_eq k nextThread hl hd] at h
        simp only [Except.ok.injEq] at h
        rw [← h]
        exact ⟨rfl, Or.inr ⟨rfl, rfl⟩⟩
      · exfalso
        unfold Run at h
        rw [if_neg (fun hx => hx hl)] at h
        simp [hd] at h

theorem reads_nonneg_write (m : BurstMap) (t : Thread) (p : Int × Int)
    (hm : ∀ u, 0 ≤ (m.read u).1 ∧ 0 ≤ (m.read u).2) (hp : 0 ≤ p.1 ∧ 0 ≤ p.2) :
    ∀ u, 0 ≤ ((m.write t p).read u).1 ∧ 0 ≤ ((m.write t p).read u).2 := by
  intro u
  rw [BurstMap.read_write]
  split_ifs
  · exact hp
  · exact hm u

/-- One call keeps the burst records non-negative when the slice started no
later than the clock shows. -/
theorem BurstOp_apply_nonneg (k : Kernel) (op : BurstOp) (k1 : Kernel)
    (hm : ∀ u, 0 ≤ (k.burstTimeMap.read u).1 ∧ 0 ≤ (k.burstTimeMap.read u).2)
    (hs : k.startTicks ≤ k.userTicks) (h : op.apply k = Except.ok k1) :
    (∀ u, 0 ≤ (k1.burstTimeMap.read u).1 ∧ 0 ≤ (k1.burstTimeMap.read u).2) ∧
    k1.startTicks ≤ k1.userTicks ∧ k1.userTicks = k.userTicks := by
  have hacc : 0 ≤ (k.burstTimeMap.read k.currentThread).2 + (k.userTicks - k.startTicks) := by
    have := (hm k.currentThread).2
    omega
  have hest : 0 ≤ estimateBurst
      ((k.burstTimeMap.read k.currentThread).2 + (k.userTicks - k.startTicks))
      (k.burstTimeMap.read k.currentThread).1 :=
    estimateBurst_nonneg _ _ hacc (hm k.currentThread).1
  cases op with
  | ready thread =>
    obtain ⟨h1, h2, h3⟩ := ReadyToRun_reads k thread k1 h
    refine ⟨fun u => by rw [h1 u]; exact hm u, by rw [h2, h3]; exact hs, h3⟩
  | accum =>
    simp only [BurstOp.apply, Except.ok.injEq] at h
    rw [← h]
    refine ⟨?_, le_refl _, rfl⟩
    exact reads_nonneg_write _ _ _ hm ⟨(hm k.currentThread).1, hacc⟩
  | account =>
    simp only [BurstOp.apply, Account_eq, Except.ok.injEq] at h
    rw [← h]
    refine ⟨?_, le_refl _, rfl⟩
    exact reads_nonneg_write _ _ _ hm ⟨hest, le_refl _⟩
  | sleep sleepTime =>
    obtain ⟨h1, h2, h3⟩ := SetToSleep_clock k sleepTime k1 h
    refine ⟨?_, by rw [h2, h3], h3⟩
    rw [h1]
    exact reads_nonneg_write _ _ _ hm ⟨hest, le_refl _⟩
  | run nextThread finishing stackOverflow =>
    obtain ⟨h1, h2⟩ := Run_clock k nextThread finishing stackOverflow k1 h
    rcases h2 with ⟨h3, h4⟩ | ⟨h3, h4⟩
    · refine ⟨by rw [h3]; exact hm, by rw [h4, h1]; exact hs, h1⟩
    · refine ⟨?_, by rw [h4, h1], h1⟩
      rw [h3]
      exact reads_nonneg_write _ _ _ hm ⟨hest, le_refl _⟩
  | rest thread =>
    simp only [BurstOp.apply, Except.ok.injEq] at h
    rw [← h]
    refine ⟨?_, hs, rfl⟩
    intro u
    show 0 ≤ ((GetRestBurstTime k.burstTimeMap thread).2.read u).1 ∧ _
    have : (GetRestBurstTime k.burstTimeMap thread).2.read u = k.burstTimeMap.read u :=
      BurstMap.read_touch k.burstTimeMap thread u
    rw [this]
    exact hm u

/-- With a clock that never goes back, from a state in which the burst records
are non-negative and the slice started no later than the clock shows, every
sequence of calls that returns ends with non-negative burst records. -/
theorem runBurstCalls_nonneg (cs : List (Int × BurstOp)) : ∀ (k k1 : Kernel),
    NonNegBursts k → k.startTicks ≤ k.userTicks →
    List.Chain (fun a b => a ≤ b) k.userTicks (cs.map Prod.fst) →
    runBurstCalls k cs = Except.ok k1 → NonNegBursts k1 := by
  induction cs with
  | nil =>
    intro k k1 hn _ _ h
    simp only [runBurstCalls, Except.ok.injEq] at h
    rw [← h]
    exact hn
  | cons c cs ih =>
    intro k k1 hn hs hc h
    obtain ⟨now, op⟩ := c
    simp only [List.map_cons, List.chain_cons] at hc
    cases ha : op.apply { k with userTicks := now } with
    | error e => simp [runBurstCalls, ha] at h
    | ok k2 =>
      simp only [runBurstCalls, ha] at h
      have hm := (NonNegBursts_iff_read k).1 hn
      obtain ⟨h1, h2, h3⟩ := BurstOp_apply_nonneg { k with userTicks := now } op k2 hm
        (le_trans hs hc.1) ha
      refine ih k2 k1 ((NonNegBursts_iff_read k2).2 h1) h2 ?_ h
      rw [h3]
      exact hc.2

/-- When the member `startTicks`, which the constructor does not initialise,
happens to hold a value not above the clock, burst records stay non-negative:
from a newly constructed scheduler, for every sequence of `ReadyToRun`,
`AccumNewBurst`, `Account`, `SetToSleep`, `Run` and `GetRestBurstTime` calls that
return, made while `userTicks` never decreases. -/
theorem burst_records_nonneg_of_start (type : SchedulerType) (startTicks : Int)
    (currentThread : Thread) (level : IntStatus) (userTicks : Int)
    (status : Thread → ThreadStatus) (cs : List (Int × BurstOp)) (k1 : Kernel)
    (hs : startTicks ≤ userTicks)
    (hc : List.Chain (fun a b => a ≤ b) userTicks (cs.map Prod.fst))
    (h : runBurstCalls (Scheduler.new type startTicks currentThread level userTicks status) cs
      = Except.ok k1) :
    NonNegBursts k1 := by
  refine runBurstCalls_nonneg cs _ k1 ?_ hs hc h
  intro t p hp
  cases hp

/-- C22 fails in the code: the constructor leaves `startTicks` uninitialised.
When it holds 100 while the clock shows 0, a first `AccumNewBurst()` of the
running thread 1 stores the burst record `(0, -100)` and a first `Account()`
stores `(-50, 0)`; after `ReadyToRun(2)` at tick 0, `SetToSleep(3)` at tick 5
stores `(-47, 0)`.  The clock never decreases in these runs, and they end with a
negative `newBurst` or `histBurst`. -/
theorem burst_record_negative_after_first_account :
    staleStartKernel = Scheduler.new SchedulerType.NSJF 100 1 IntStatus.IntOff 0
      staleStartKernel.status ∧
    burstRecordAfter staleStartKernel [(0, BurstOp.accum)] 1 = some (some (0, -100)) ∧
    burstRecordAfter staleStartKernel [(0, BurstOp.account)] 1 = some (some (-50, 0)) ∧
    burstRecordAfter staleStartKernel [(0, BurstOp.ready 2), (5, BurstOp.sleep 3)] 1
      = some (some (-47, 0)) ∧
    ¬ (∀ (k1 : Kernel), runBurstCalls staleStartKernel [(0, BurstOp.account)] = Except.ok k1 →
      NonNegBursts k1) := by
  refine ⟨rfl, by decide, by decide, by decide, ?_⟩
  intro hx
  have h0 : burstRecordAfter staleStartKernel [(0, BurstOp.account)] 1
      = some (some (-50, 0)) := by decide
  unfold burstRecordAfter at h0
  cases hr : runBurstCalls staleStartKernel [(0, BurstOp.account)] with
  | error e =>
    rw [hr] at h0
    cases h0
  | ok k1 =>
    rw [hr] at h0
    simp only [Except.toOption, Option.map_some', Option.some.injEq] at h0
    have := (hx k1 hr 1 (-50, 0) h0).1
    omega

end NachOS
